import Mathlib

/-!
# fespp : catalog tree, selection tracker and converter cache

A shallow embedding of `ResqmlDataRepositoryToVtkPartitionedDataSetCollection.cxx`
(and of the perforation list of `WitsmlWellboreCompletionToVtkPartitionedDataSet.cxx`).

* C strings and `std::string` are `String`s; character level code works on `String.data`.
* `std::set<int>` is a strictly increasing `List Int`, `std::map<int, T*>` a key-sorted
  association list whose values are `Option T` (`none` is the null pointer).
* `vtkDataAssembly` (an XML document in VTK) is a first-child / next-sibling forest.
-/

namespace Fespp

/-! ## Name sanitizer -/

/-- The array `sorted_valid_chars` declared inside `MakeValidNodeName`. -/
def sorted_valid_chars : List Char :=
  "-.0123456789ABCDEFGHIJKLMNOPQRSTUVWXYZ_abcdefghijklmnopqrstuvwxyz".data

/-- The loop of `std::lower_bound` on the range `[first, first + len)` of `a`:
`half = len >> 1; middle = first + half; if (*middle < val) ... else len = half`.
The first argument bounds the number of iterations; `len` iterations are enough since
`len` decreases at every turn. -/
def lower_bound_loop (a : List Char) (val : Char) : Nat → Nat → Nat → Nat
  | 0, first, _ => first
  | fuel + 1, first, len =>
    if 0 < len then
      let half := len / 2
      let middle := first + half
      if a.getD middle (Char.ofNat 0) < val then
        lower_bound_loop a val fuel (middle + 1) (len - half - 1)
      else
        lower_bound_loop a val fuel first half
    else first

/-- The index returned by `std::lower_bound(a, a + len, val)`. -/
def lower_bound (a : List Char) (val : Char) : Nat :=
  lower_bound_loop a val a.length 0 a.length

/-- The result of `std::binary_search(a, a + len, val)`:
`i != last && !(val < *i)` with `i` the lower bound. -/
def binary_search (a : List Char) (val : Char) : Bool :=
  let i := lower_bound a val
  decide (i ≠ a.length) && !decide (val < a.getD i (Char.ofNat 0))

/-- The loop `for (cc = 0; cc < strlen(name); ++cc)` of `MakeValidNodeName`: a character
found in the table is appended to `result`. -/
def MakeValidNodeName_loop (name : List Char) : List Char :=
  name.foldl (fun result c => if binary_search sorted_valid_chars c then result ++ [c] else result) []

/-- The test `(result[0] < 'a' || result[0] > 'z') && (result[0] < 'A' || result[0] > 'Z')
&& result[0] != '_'` on the first character of the filtered name. -/
def badFirstChar (c : Char) : Bool :=
  (decide (c < 'a') || decide (c > 'z')) && (decide (c < 'A') || decide (c > 'Z')) && (c != '_')

/-- `ResqmlDataRepositoryToVtkPartitionedDataSetCollection::MakeValidNodeName`.
The argument is the text of the C string (the callers pass `c_str()`, never a null pointer):
the guard `name[0] == 0` is the test for the empty text. -/
def MakeValidNodeName (name : String) : String :=
  if name.data = [] then
    ""
  else
    let result := MakeValidNodeName_loop name.data
    match result with
    | [] => "_" ++ String.mk result
    | c :: _ => if badFirstChar c then "_" ++ String.mk result else String.mk result

/-- The character class `[A-Za-z0-9_.-]` of the specification. -/
def isNameChar (c : Char) : Bool :=
  (decide ('A' ≤ c) && decide (c ≤ 'Z')) || (decide ('a' ≤ c) && decide (c ≤ 'z')) ||
  (decide ('0' ≤ c) && decide (c ≤ '9')) || c == '_' || c == '.' || c == '-'

/-- An ASCII letter or the underscore: what the specification allows as a first character. -/
def isNameStart (c : Char) : Bool :=
  (decide ('A' ≤ c) && decide (c ≤ 'Z')) || (decide ('a' ≤ c) && decide (c ≤ 'z')) || c == '_'

/-- The filtered form `f(s)` of the specification: `s` without the characters outside
`[A-Za-z0-9_.-]`, the others kept in order. -/
def filterNameChars (s : String) : String :=
  String.mk (s.data.filter isNameChar)

/-- The result the specification describes: the filtered form, with an underscore in front
when it is empty or does not start with a letter or an underscore. -/
def specNodeName (s : String) : String :=
  match (filterNameChars s).data with
  | [] => "_" ++ filterNameChars s
  | c :: _ => if isNameStart c then filterNameChars s else "_" ++ filterNameChars s

/-! ## Sets of node ids (`std::set<int>`) -/

/-- The insertion of `std::set<int>::insert` on a strictly increasing list. -/
def setInsert (x : Int) : List Int → List Int
  | [] => [x]
  | y :: ys => if x < y then x :: y :: ys else if x = y then y :: ys else y :: setInsert x ys

/-- The removal of `std::set<int>::erase(key)`: no element equal to the key is left. -/
def setErase (x : Int) (s : List Int) : List Int :=
  s.filter (fun y => decide (y ≠ x))

/-! ## Catalog tree (`vtkDataAssembly`) -/

/-- The kinds of catalog nodes, `TreeViewNodeType` of the plugin. -/
inductive TreeViewNodeType where
  | Unknown
  | Representation
  | SubRepresentation
  | Properties
  | Collection
  | Wellbore
  | WellboreTrajectory
  | WellboreFrame
  | WellboreMarkerFrame
  | WellboreMarker
  | WellboreCompletion
  | Perforation
  | TimeSeries
  | WellboreChannel
  deriving DecidableEq, Repr

/-- The status of a wellbore, `WellboreStatut` of the plugin. -/
inductive WellboreStatut where
  | OilInjecter
  | OilProducer
  | WaterInjecter
  | WaterProducer
  | GazInjecter
  | GazProducer
  deriving DecidableEq, Repr

/-- The value of a node attribute. The plugin writes a node kind as
`std::to_string(static_cast<int>(kind))` and reads it back with `static_cast<TreeViewNodeType>`;
the two conversions cancel, so the kind itself is stored. -/
inductive AttrValue where
  | text (s : String)
  | kind (t : TreeViewNodeType)
  | statut (s : WellboreStatut)
  | int (i : Int)
  deriving DecidableEq, Repr

/-- The nodes of the XML document behind a `vtkDataAssembly`, as the XML library links them:
every node holds its first child and its next sibling. `nil` ends a list of siblings. -/
inductive Forest where
  | nil : Forest
  | node (id : Int) (name : String) (attrs : List (String × AttrValue))
      (children : Forest) (next : Forest) : Forest
  deriving DecidableEq, Repr

namespace Forest

/-- The ids of a forest in document order (depth first, a node before its children). -/
def ids : Forest → List Int
  | nil => []
  | node i _ _ c s => i :: (ids c ++ ids s)

/-- The ids of the top-level nodes of a forest, in order. -/
def topIds : Forest → List Int
  | nil => []
  | node i _ _ _ s => i :: topIds s

/-- The number of nodes. -/
def size : Forest → Nat
  | nil => 0
  | node _ _ _ c s => size c + size s + 1

/-- The children of the first node with the given id. -/
def subtreeOf (i : Int) : Forest → Option Forest
  | nil => none
  | node j _ _ c s =>
    if j = i then some c
    else match subtreeOf i c with
      | some r => some r
      | none => subtreeOf i s

/-- The id of the parent of the first node with id `i`, where `p` is the id of the parent of
the top-level nodes. -/
def parentOf (i : Int) (p : Int) : Forest → Option Int
  | nil => none
  | node j _ _ c s =>
    if j = i then some p
    else match parentOf i j c with
      | some r => some r
      | none => parentOf i p s

/-- The name of the first node with the given id. -/
def nameOf (i : Int) : Forest → Option String
  | nil => none
  | node j n _ c s =>
    if j = i then some n
    else match nameOf i c with
      | some r => some r
      | none => nameOf i s

/-- The attributes of the first node with the given id. -/
def attrsOf (i : Int) : Forest → Option (List (String × AttrValue))
  | nil => none
  | node j _ a c s =>
    if j = i then some a
    else match attrsOf i c with
      | some r => some r
      | none => attrsOf i s

/-- The id of the first node, in document order, with the given name. -/
def findName (name : String) : Forest → Option Int
  | nil => none
  | node j n _ c s =>
    if n = name then some j
    else match findName name c with
      | some r => some r
      | none => findName name s

/-- A node put at the end of a list of siblings (`append_child` of the XML library). -/
def append (new : Forest) : Forest → Forest
  | nil => new
  | node j n a c s => node j n a c (append new s)

/-- The forest in which `new` is the last child of the first node with id `parent`. -/
def addChild (parent : Int) (new : Forest) : Forest → Option Forest
  | nil => none
  | node j n a c s =>
    if j = parent then some (node j n a (append new c) s)
    else match addChild parent new c with
      | some c2 => some (node j n a c2 s)
      | none => match addChild parent new s with
        | some s2 => some (node j n a c s2)
        | none => none

/-- The forest without the first node with id `i` and without its subtree. -/
def remove (i : Int) : Forest → Option Forest
  | nil => none
  | node j n a c s =>
    if j = i then some s
    else match remove i c with
      | some c2 => some (node j n a c2 s)
      | none => match remove i s with
        | some s2 => some (node j n a c s2)
        | none => none

/-- An attribute list with the value of key `k` set to `v`. -/
def setAttrList (k : String) (v : AttrValue) : List (String × AttrValue) → List (String × AttrValue)
  | [] => [(k, v)]
  | (k2, v2) :: rest => if k2 = k then (k, v) :: rest else (k2, v2) :: setAttrList k v rest

/-- The forest in which attribute `k` of the first node with id `i` is `v`. -/
def setAttr (i : Int) (k : String) (v : AttrValue) : Forest → Option Forest
  | nil => none
  | node j n a c s =>
    if j = i then some (node j n (setAttrList k v a) c s)
    else match setAttr i k v c with
      | some c2 => some (node j n a c2 s)
      | none => match setAttr i k v s with
        | some s2 => some (node j n a c s2)
        | none => none

/-- The names of a forest in document order. -/
def names : Forest → List String
  | nil => []
  | node _ n _ c s => n :: (names c ++ names s)

end Forest

/-- A `vtkDataAssembly`: the XML document, whose only top-level node is the root (id 0), and the
counter `MaxUniqueId` from which `AddNode` draws the ids. -/
structure vtkDataAssembly where
  doc : Forest
  MaxUniqueId : Int
  deriving DecidableEq, Repr

namespace vtkDataAssembly

/-- `vtkDataAssembly::New()` followed by `SetRootNodeName(name)`. -/
def New (rootName : String) : vtkDataAssembly :=
  { doc := Forest.node 0 rootName [] Forest.nil Forest.nil, MaxUniqueId := 0 }

/-- The names `vtkDataAssembly::IsNodeNameValid` accepts: not empty, not the reserved name
`dataset`, a letter or an underscore first and only characters of `[A-Za-z0-9_.-]`. -/
def IsNodeNameValid (name : String) : Bool :=
  match name.data with
  | [] => false
  | c :: rest => decide (name ≠ "dataset") && isNameStart c && (c :: rest).all isNameChar

/-- `GetParent(id)`: the id of the parent, `-1` for the root and for an id that names no node. -/
def GetParent (t : vtkDataAssembly) (id : Int) : Int :=
  (t.doc.parentOf id (-1)).getD (-1)

/-- `GetChildNodes(parent, traverse_subtree)`: the children of a node or, when `traverse_subtree`
is set (the default of the VTK declaration), its whole subtree in depth-first order, without
the node itself. -/
def GetChildNodes (t : vtkDataAssembly) (parent : Int) (traverse_subtree : Bool) : List Int :=
  match t.doc.subtreeOf parent with
  | none => []
  | some c => if traverse_subtree then c.ids else c.topIds

/-- `FindFirstNodeWithName(name)`: depth-first search, `-1` when no node has the name. -/
def FindFirstNodeWithName (t : vtkDataAssembly) (name : String) : Int :=
  (t.doc.findName name).getD (-1)

/-- `GetNodeName(id)`; `none` stands for the null pointer returned for an unknown id. -/
def GetNodeName (t : vtkDataAssembly) (id : Int) : Option String :=
  t.doc.nameOf id

/-- `GetAttribute(id, name, value)`; `none` when the call returns `false`. -/
def GetAttribute (t : vtkDataAssembly) (id : Int) (name : String) : Option AttrValue :=
  match t.doc.attrsOf id with
  | none => none
  | some a => (a.find? (fun kv => kv.1 == name)).map (fun kv => kv.2)

/-- `AddNode(name, parent)`: the id of the new node and the new tree; `-1` and the tree as it
was when the name is refused or the parent does not exist. -/
def AddNode (t : vtkDataAssembly) (name : String) (parent : Int) : Int × vtkDataAssembly :=
  if IsNodeNameValid name then
    match Forest.addChild parent (Forest.node (t.MaxUniqueId + 1) name [] Forest.nil Forest.nil)
        t.doc with
    | some d => (t.MaxUniqueId + 1, { doc := d, MaxUniqueId := t.MaxUniqueId + 1 })
    | none => (-1, t)
  else (-1, t)

/-- `SetAttribute(id, name, value)`: nothing changes when the id names no node. -/
def SetAttribute (t : vtkDataAssembly) (id : Int) (name : String) (value : AttrValue) :
    vtkDataAssembly :=
  match t.doc.setAttr id name value with
  | some d => { t with doc := d }
  | none => t

/-- `RemoveNode(id)`: the node goes with its subtree; the root is never removed. -/
def RemoveNode (t : vtkDataAssembly) (id : Int) : Bool × vtkDataAssembly :=
  if id = 0 then (false, t)
  else match t.doc.remove id with
    | some d => (true, { t with doc := d })
    | none => (false, t)

/-- The shape of the document: one top-level node, the root, with id 0. -/
def rooted (t : vtkDataAssembly) : Bool :=
  match t.doc with
  | Forest.node i _ _ _ Forest.nil => decide (i = 0)
  | _ => false

/-- The invariant VTK maintains on an assembly: the root is the only top-level node, no id is
used twice, ids are not negative and none exceeds the counter. -/
def wf (t : vtkDataAssembly) : Prop :=
  t.rooted = true ∧ t.doc.ids.Nodup ∧ (∀ i ∈ t.doc.ids, 0 ≤ i ∧ i ≤ t.MaxUniqueId)

instance (t : vtkDataAssembly) : Decidable t.wf := by
  unfold wf; exact inferInstance

end vtkDataAssembly

/-! ## Selection tracker -/

/-- The two selection sets of the plugin: `_currentSelection` and `_oldSelection`. -/
structure Selection where
  currentSelection : List Int
  oldSelection : List Int
  deriving DecidableEq, Repr

/-- The pair of statements `_currentSelection.insert(n); _oldSelection.erase(n);`. -/
def Selection.mark (s : Selection) (n : Int) : Selection :=
  { currentSelection := setInsert n s.currentSelection, oldSelection := setErase n s.oldSelection }

open vtkDataAssembly in
/-- `selectNodeIdParent(node)`. The first argument bounds the depth of the recursion; `none`
is a recursion that did not end within the bound. -/
def selectNodeIdParent (t : vtkDataAssembly) : Nat → Int → Selection → Option Selection
  | 0, _, _ => none
  | fuel + 1, node, s =>
    if GetParent t node > 0 then
      selectNodeIdParent t fuel (GetParent t node) (s.mark (GetParent t node))
    else some s

open vtkDataAssembly in
/-- `selectNodeIdChildren(node)`: the loop over `GetChildNodes(node)` marks every node it meets
and calls itself on it. The first argument bounds the depth of the recursion. -/
def selectNodeIdChildren (t : vtkDataAssembly) : Nat → Int → Selection → Option Selection
  | 0, _, _ => none
  | fuel + 1, node, s =>
    (GetChildNodes t node true).foldlM
      (fun acc index_child => selectNodeIdChildren t fuel index_child (acc.mark index_child)) s

/-- `selectNodeId(node)` (the returned text is always empty; the result here is the state).
A recursion on a tree of `n` nodes is at most `n` deep, hence the bounds. -/
def selectNodeId (t : vtkDataAssembly) (node : Int) (s : Selection) : Option Selection :=
  let s1 : Option Selection :=
    if node ≠ 0 then
      (selectNodeIdParent t (t.doc.size + 1) node s).map (fun s2 => s2.mark node)
    else some s
  s1.bind (fun s2 => selectNodeIdChildren t (t.doc.size + 1) node s2)

/-- `clearSelection()`. -/
def clearSelection (s : Selection) : Selection :=
  { currentSelection := [], oldSelection := s.currentSelection }

/-- A sequence of `selectNodeId` calls, first to last. -/
def selectNodeIds (t : vtkDataAssembly) (nodes : List Int) (s : Selection) : Option Selection :=
  nodes.foldlM (fun acc n => selectNodeId t n acc) s

/-! ## Selection tracker: the relations of the specification -/

/-- The node `a` is a proper ancestor of the node `n`: it is reached from `n` by following
`GetParent` one or more times (`-1`, which `GetParent` returns above the root, is no node). -/
inductive IsAncestor (t : vtkDataAssembly) : Int → Int → Prop where
  | parent {n p : Int} : t.GetParent n = p → p ≠ -1 → IsAncestor t p n
  | step {a p n : Int} : IsAncestor t a p → t.GetParent n = p → p ≠ -1 → IsAncestor t a n

/-- The ancestors that `selectNodeIdParent` marks: the chain of parents of `node` up to, and
without, the first one whose id is not positive. -/
def ancestorsUpTo (t : vtkDataAssembly) : Nat → Int → List Int
  | 0, _ => []
  | fuel + 1, node =>
    if t.GetParent node > 0 then t.GetParent node :: ancestorsUpTo t fuel (t.GetParent node)
    else []

/-- The nodes one call `selectNodeId(node)` marks: the node itself unless it is the root, its
ancestors below the root, and its subtree. -/
def closureOf (t : vtkDataAssembly) (node : Int) : List Int :=
  (if node ≠ 0 then ancestorsUpTo t (t.doc.size + 1) node ++ [node] else []) ++
    t.GetChildNodes node true

/-- The state `s2` comes from `s1` by marking exactly the nodes of `D`: they were added to
the current selection and taken out of the previous one. -/
def Marked (s1 s2 : Selection) (D : List Int) : Prop :=
  (∀ x, x ∈ s2.currentSelection ↔ x ∈ s1.currentSelection ∨ x ∈ D) ∧
  (∀ x, x ∈ s2.oldSelection ↔ x ∈ s1.oldSelection ∧ x ∉ D)

/-- A small catalog: the root, node 1 under it, node 2 under node 1 and node 3 under the root. -/
def sampleTree : vtkDataAssembly :=
  let t0 := vtkDataAssembly.New "data"
  let r1 := t0.AddNode "_a" 0
  let r2 := r1.2.AddNode "_b" r1.1
  let r3 := r2.2.AddNode "_c" 0
  r3.2

/-! ## The data object repository (fesapi), as far as the plugin reads it -/

/-- The concrete class of a representation, as the `dynamic_cast`s of the plugin see it. A
sub-representation carries what the plugin reads of `getSupportingRepresentation(0)`: the
uuid, the title and the class of the supporting representation. -/
inductive RepKind where
  | Grid2d
  | IjkGrid
  | PolylineSet
  | TriangulatedSet
  | UnstructuredGrid
  | SubRepresentation (supportingUuid : String) (supportingTitle : String)
      (supportingKind : RepKind)
  | Other
  deriving DecidableEq, Repr

/-- A values property attached to a representation or a wellbore frame. -/
structure Property where
  uuid : String
  title : String
  xmlTag : String
  deriving DecidableEq, Repr

/-- A representation. `valuesPropertySet` is the result of the getter of the same name,
`Except.error` being a raised `std::exception` with its `what()`. -/
structure AbstractRepresentation where
  uuid : String
  title : String
  xmlTag : String
  isPartial : Bool
  kind : RepKind
  valuesPropertySet : Except String (List Property)

/-- A representation of one of the collections the builder enumerates, with the result of
`getSubRepresentationSet` (the sub-representations it supports). -/
structure Representation extends AbstractRepresentation where
  subRepresentationSet : Except String (List AbstractRepresentation)

/-- A list of `RepresentationSetRepresentation`s, each with the list of collections it
belongs to (`getRepresentationSetRepresentationSet`). -/
inductive RsrList where
  | nil : RsrList
  | cons (uuid : String) (title : String) (parents : RsrList) (tail : RsrList) : RsrList
  deriving DecidableEq, Repr

/-- The members of a list of collections, each as a one-element list. -/
def RsrList.items : RsrList → List RsrList
  | RsrList.nil => []
  | RsrList.cons u ti ps tl => RsrList.cons u ti ps RsrList.nil :: RsrList.items tl

/-- A wellbore marker. -/
structure WellboreMarker where
  uuid : String
  title : String
  xmlTag : String
  deriving DecidableEq, Repr

/-- A wellbore frame; `isMarkerFrame` is the outcome of the cast to
`WellboreMarkerFrameRepresentation`. -/
structure WellboreFrameRepresentation where
  uuid : String
  title : String
  xmlTag : String
  isMarkerFrame : Bool
  valuesPropertySet : Except String (List Property)
  wellboreMarkerSet : List WellboreMarker

/-- One connection of kind `PERFORATION` of a completion: its uid and its extra metadata. -/
structure PerforationConnection where
  uid : String
  extraMetadata : List (String × List String)
  deriving DecidableEq, Repr

/-- `getConnectionExtraMetadata(PERFORATION, index, key)`. -/
def PerforationConnection.getConnectionExtraMetadata (c : PerforationConnection) (key : String) :
    List String :=
  match c.extraMetadata.find? (fun kv => kv.1 == key) with
  | some kv => kv.2
  | none => []

/-- A WITSML wellbore completion. -/
structure WellboreCompletion where
  uuid : String
  title : String
  xmlTag : String
  perforations : List PerforationConnection
  deriving DecidableEq, Repr

/-- The interpreted feature of a trajectory. `isWellboreFeature` is the outcome of the cast to
`WellboreFeature`, `witsmlWellbore` the completions of its WITSML wellbore when it has one. -/
structure WellboreFeature where
  uuid : String
  title : String
  isWellboreFeature : Bool
  witsmlWellbore : Option (List WellboreCompletion)
  deriving DecidableEq, Repr

/-- A wellbore trajectory representation. -/
structure WellboreTrajectoryRepresentation where
  uuid : String
  title : String
  xmlTag : String
  isPartial : Bool
  representationSetRepresentationSet : RsrList
  wellbore : WellboreFeature
  wellboreFrameRepresentationSet : List WellboreFrameRepresentation

/-- A property of a time series; `timestampIndex` is
`timeSeries->getTimestampIndex(prop->getSingleTimestamp())`. -/
structure TimeSeriesProperty where
  uuid : String
  title : String
  xmlTag : String
  timestampIndex : Except String Nat

/-- A time series. -/
structure TimeSeries where
  uuid : String
  xmlTag : String
  propertySet : Except String (List TimeSeriesProperty)

/-- The repository: the collections the builder enumerates. -/
structure DataObjectRepository where
  horizonGrid2dRepresentationSet : List Representation
  ijkGridRepresentationSet : List Representation
  allPolylineSetRepresentationSet : List Representation
  allTriangulatedSetRepresentationSet : List Representation
  unstructuredGridRepresentationSet : List Representation
  wellboreTrajectoryRepresentationSet : List WellboreTrajectoryRepresentation
  timeSeriesSet : Except String (List TimeSeries)

/-! ## Catalog builder -/

/-- The free function `SimplifyXmlTag`: the suffix `Representation`, then the beginning
`Wellbore`, are cut off when present. -/
def SimplifyXmlTag (type_representation : String) : String :=
  let suffix := "Representation".data
  let start := "Wellbore".data
  let s0 := type_representation.data
  let s1 :=
    if s0.length ≥ suffix.length ∧ s0.drop (s0.length - suffix.length) = suffix then
      s0.take (s0.length - suffix.length)
    else s0
  let s2 :=
    if s1.length ≥ start.length ∧ s1.take start.length = start then s1.drop start.length
    else s1
  String.mk s2

/-- The order of `std::string::compare` on the characters of two strings: the first
difference decides, a proper beginning is smaller. -/
def compareLess : List Char → List Char → Bool
  | [], [] => false
  | [], _ :: _ => true
  | _ :: _, [] => false
  | a :: as, b :: bs => if a < b then true else if b < a then false else compareLess as bs

/-- The test `a.compare(b) < 0`, which is also `a < b` on `std::string`. -/
def stringLess (a b : String) : Bool :=
  compareLess a.data b.data

/-- The linear insertion of `std::sort` with the comparator `lexicographicalComparison`
(`a->getTitle().compare(b->getTitle()) < 0`): the element goes before the first one whose title is
greater. -/
def insertByTitle {α : Type} (title : α → String) (x : α) : List α → List α
  | [] => [x]
  | y :: ys =>
    if stringLess (title x) (title y) then x :: y :: ys else y :: insertByTitle title x ys

/-- `std::sort(begin, end, lexicographicalComparison)`. The C++ library leaves the order of
equal titles open; this insertion sort keeps it. -/
def sortByTitle {α : Type} (title : α → String) (l : List α) : List α :=
  l.foldl (fun acc x => insertByTitle title x acc) []

/-- `sortAndAdd(source, dest)`. -/
def sortAndAdd (source : List Representation) (dest : List Representation) : List Representation :=
  dest ++ sortByTitle (fun r => r.title) source

/-- The two `SetAttribute` calls that follow every `AddNode` of the builder. -/
def setLabelAndType (t : vtkDataAssembly) (id : Int) (label : String) (ty : TreeViewNodeType) :
    vtkDataAssembly :=
  (t.SetAttribute id "label" (AttrValue.text label)).SetAttribute id "type" (AttrValue.kind ty)

/-- The loop of `searchProperties` over the sorted properties. -/
def searchPropertiesLoop (node_parent : Int) : List Property → vtkDataAssembly → vtkDataAssembly
  | [], t => t
  | property :: rest, t =>
    let propertyVtkValidName := MakeValidNodeName (property.xmlTag ++ "_" ++ property.title)
    if t.FindFirstNodeWithName ("_" ++ property.uuid) = -1 then
      let r := t.AddNode ("_" ++ property.uuid) node_parent
      searchPropertiesLoop node_parent rest
        (setLabelAndType r.2 r.1 propertyVtkValidName TreeViewNodeType.Properties)
    else searchPropertiesLoop node_parent rest t

/-- `searchProperties(representation, data_assembly, node_parent)`. -/
def searchProperties (representation : AbstractRepresentation) (node_parent : Int)
    (t : vtkDataAssembly) : String × vtkDataAssembly :=
  match representation.valuesPropertySet with
  | Except.ok valuesPropertySet =>
    ("", searchPropertiesLoop node_parent (sortByTitle (fun p => p.title) valuesPropertySet) t)
  | Except.error e =>
    ("Exception in FESAPI when calling getValuesPropertySet with representation uuid: " ++
      representation.uuid ++ " : " ++ e ++ ".\n", t)

/-- The part of `searchRepresentations` before the visit of the sub-representations: the
diagnostic of a partial object that has no node (the function returns at once), or the id of
the node under which the rest is attached, and the tree. -/
def searchRepresentationsNode (representation : AbstractRepresentation) (idNode : Int)
    (t : vtkDataAssembly) : Except String (Int × vtkDataAssembly) :=
  if representation.isPartial then
    if t.FindFirstNodeWithName ("_" ++ representation.uuid) = -1 then
      Except.error ("Partial representation with UUID \"" ++ representation.uuid ++
        "\" is not loaded.\n")
    else Except.ok (idNode, t)
  else
    let nodeName := "_" ++ representation.uuid
    let existingNodeId := t.FindFirstNodeWithName nodeName
    if existingNodeId = -1 then
      let r := t.AddNode nodeName idNode
      let type_representation := SimplifyXmlTag representation.xmlTag
      let representationVtkValidName :=
        match representation.kind with
        | RepKind.SubRepresentation _ supportingTitle _ =>
          MakeValidNodeName
            (type_representation ++ "_" ++ supportingTitle ++ "_" ++ representation.title)
        | _ => MakeValidNodeName (type_representation ++ "_" ++ representation.title)
      Except.ok (r.1, setLabelAndType r.2 r.1 representationVtkValidName
        TreeViewNodeType.Representation)
    else Except.ok (existingNodeId, t)

/-- `searchRepresentations` on a sub-representation: it is neither an IJK grid nor an
unstructured grid, so only its node and its properties are visited. -/
def searchRepresentationsOfSub (representation : AbstractRepresentation) (idNode : Int)
    (t : vtkDataAssembly) : String × vtkDataAssembly :=
  match searchRepresentationsNode representation idNode t with
  | Except.error msg => (msg, t)
  | Except.ok r => searchProperties representation r.1 r.2

/-- The `std::accumulate` of `searchSubRepresentation`: the text gathered in the local
variable `message` and the tree. -/
def searchSubRepresentationLoop (parent : Int) :
    List AbstractRepresentation → String → vtkDataAssembly → String × vtkDataAssembly
  | [], message, t => (message, t)
  | b :: rest, message, t =>
    let r := searchRepresentationsOfSub b (t.GetParent parent) t
    searchSubRepresentationLoop parent rest (message ++ r.1) r.2

/-- `searchSubRepresentation(representation, data_assembly, node_parent)`. The text gathered
by the loop lives in a variable local to the `try` block; the function returns `""`. -/
def searchSubRepresentation (representation : Representation) (node_parent : Int)
    (t : vtkDataAssembly) : String × vtkDataAssembly :=
  match representation.subRepresentationSet with
  | Except.ok subRepresentationSet =>
    let r := searchSubRepresentationLoop node_parent
      (sortByTitle (fun (b : AbstractRepresentation) => b.title) subRepresentationSet) "" t
    ("", r.2)
  | Except.error e =>
    ("Exception in FESAPI when calling getSubRepresentationSet for uuid : " ++
      representation.uuid ++ " : " ++ e ++ ".\n", t)

/-- `searchRepresentations(representation, idNode)` on a representation of the repository
(the builder calls it with the default `idNode`, the root). -/
def searchRepresentations (representation : Representation) (idNode : Int)
    (t : vtkDataAssembly) : String × vtkDataAssembly :=
  match searchRepresentationsNode representation.toAbstractRepresentation idNode t with
  | Except.error msg => (msg, t)
  | Except.ok r =>
    let r1 : String × vtkDataAssembly :=
      if representation.kind = RepKind.IjkGrid ∨ representation.kind = RepKind.UnstructuredGrid then
        searchSubRepresentation representation r.1 r.2
      else ("", r.2)
    let r2 := searchProperties representation.toAbstractRepresentation r.1 r1.2
    (r1.1 ++ r2.1, r2.2)

/-- The loop `for (rsr : set) idNode = searchRepresentationSetRepresentation(rsr, idNode)`;
on a one-element list it is `searchRepresentationSetRepresentation` itself. -/
def searchRepresentationSetRepresentation : RsrList → Int → vtkDataAssembly → Int × vtkDataAssembly
  | RsrList.nil, idNode, t => (idNode, t)
  | RsrList.cons uuid title parents tail, idNode, t =>
    let one : Int × vtkDataAssembly :=
      if t.FindFirstNodeWithName ("_" ++ uuid) = -1 then
        let r := searchRepresentationSetRepresentation parents idNode t
        if r.2.FindFirstNodeWithName ("_" ++ uuid) = -1 then
          let rsrVtkValidName := MakeValidNodeName ("Collection_" ++ title)
          let a := r.2.AddNode ("_" ++ uuid) r.1
          (a.1, setLabelAndType a.2 a.1 rsrVtkValidName TreeViewNodeType.Collection)
        else r
      else (t.FindFirstNodeWithName ("_" ++ uuid), t)
    searchRepresentationSetRepresentation tail one.1 one.2

/-- The loop over the properties of a wellbore frame. -/
def frameChannelsLoop (frame_idNode idNode : Int) : List Property → vtkDataAssembly → vtkDataAssembly
  | [], t => t
  | property :: rest, t =>
    let propertyVtkValidName := MakeValidNodeName (property.xmlTag ++ "_" ++ property.title)
    let r := t.AddNode ("_" ++ property.uuid) frame_idNode
    let t1 := r.2.SetAttribute r.1 "label" (AttrValue.text propertyVtkValidName)
    let t2 := t1.SetAttribute r.1 "traj" (AttrValue.int idNode)
    let t3 := t2.SetAttribute r.1 "type" (AttrValue.kind TreeViewNodeType.WellboreChannel)
    frameChannelsLoop frame_idNode idNode rest t3

/-- The loop over the markers of a wellbore marker frame. -/
def frameMarkersLoop (markerFrame_idNode idNode : Int) :
    List WellboreMarker → vtkDataAssembly → vtkDataAssembly
  | [], t => t
  | wellboreMarker :: rest, t =>
    let wellboreMarkerVtkValidName :=
      MakeValidNodeName (wellboreMarker.xmlTag ++ "_" ++ wellboreMarker.title)
    let r := t.AddNode ("_" ++ wellboreMarker.uuid) markerFrame_idNode
    let t1 := r.2.SetAttribute r.1 "label" (AttrValue.text wellboreMarkerVtkValidName)
    let t2 := t1.SetAttribute r.1 "traj" (AttrValue.int idNode)
    let t3 := t2.SetAttribute r.1 "type" (AttrValue.kind TreeViewNodeType.WellboreMarker)
    frameMarkersLoop markerFrame_idNode idNode rest t3

/-- The loop over the frames of one trajectory. The first component is the exception that left
the loop, if any (`getValuesPropertySet` of a frame is called outside any `try`). -/
def wellboreFramesLoop (idNodeInit idNode : Int) :
    List WellboreFrameRepresentation → vtkDataAssembly → Option String × vtkDataAssembly
  | [], t => (none, t)
  | wellboreFrame :: rest, t =>
    if t.FindFirstNodeWithName ("_" ++ wellboreFrame.uuid) = -1 then
      let wellboreFrameVtkValidName :=
        MakeValidNodeName (SimplifyXmlTag wellboreFrame.xmlTag ++ "_" ++ wellboreFrame.title)
      let r := t.AddNode ("_" ++ wellboreFrame.uuid) idNodeInit
      let t1 := r.2.SetAttribute r.1 "label" (AttrValue.text wellboreFrameVtkValidName)
      let t2 := t1.SetAttribute r.1 "traj" (AttrValue.int idNode)
      if wellboreFrame.isMarkerFrame then
        let t3 := t2.SetAttribute r.1 "type" (AttrValue.kind TreeViewNodeType.WellboreMarkerFrame)
        wellboreFramesLoop idNodeInit idNode rest
          (frameMarkersLoop r.1 idNode wellboreFrame.wellboreMarkerSet t3)
      else
        let t3 := t2.SetAttribute r.1 "type" (AttrValue.kind TreeViewNodeType.WellboreFrame)
        match wellboreFrame.valuesPropertySet with
        | Except.error e => (some e, t3)
        | Except.ok props =>
          wellboreFramesLoop idNodeInit idNode rest (frameChannelsLoop r.1 idNode props t3)
    else wellboreFramesLoop idNodeInit idNode rest t

/-- The display name, the skin and the diameter the builder derives for one perforation. -/
def perforationNaming (c : PerforationConnection) : String × String × String :=
  let perforation_name := "Perfo"
  let search_perforation_name := c.getConnectionExtraMetadata "Petrel:Name0"
  match search_perforation_name with
  | n0 :: _ =>
    let name1 := perforation_name ++ ("_" ++ n0)
    let skinR : String × String :=
      match c.getConnectionExtraMetadata "Petrel:Skin0" with
      | sk :: _ => (name1 ++ "__Skin_" ++ sk, sk)
      | [] => (name1, "")
    let diamR : String × String :=
      match c.getConnectionExtraMetadata "Petrel:BoreholePerforatedSection0" with
      | d :: _ => (skinR.1 ++ "__Diam_" ++ d, d)
      | [] => (skinR.1, "")
    (diamR.1, skinR.2, diamR.2)
  | [] =>
    match c.getConnectionExtraMetadata "Sismage-CIG:Name" with
    | n0 :: _ =>
      let name1 := perforation_name ++ ("_" ++ n0)
      let skinR : String × String :=
        match c.getConnectionExtraMetadata "Sismage-CIG:Skin" with
        | sk :: _ => (name1 ++ "__Skin_" ++ sk, sk)
        | [] => (name1, "")
      let diamR : String × String :=
        match c.getConnectionExtraMetadata "Petrel:CompletionDiameter" with
        | d :: _ => (skinR.1 ++ "__Diam_" ++ d, d)
        | [] => (skinR.1, "")
      (diamR.1, skinR.2, diamR.2)
    | [] => (perforation_name ++ ("_" ++ c.uid), "", "")

/-- The loop over the perforations of one completion. -/
def perforationsLoop (completionUuid : String) (idNode_completion : Int) :
    List PerforationConnection → vtkDataAssembly → vtkDataAssembly
  | [], t => t
  | c :: rest, t =>
    let naming := perforationNaming c
    let perforation_VTK_validName := MakeValidNodeName naming.1
    let r := t.AddNode (MakeValidNodeName ("_" ++ completionUuid ++ "_" ++ c.uid)) idNode_completion
    let t1 := r.2.SetAttribute r.1 "label" (AttrValue.text perforation_VTK_validName)
    let t2 := t1.SetAttribute r.1 "type" (AttrValue.kind TreeViewNodeType.Perforation)
    let t3 := t2.SetAttribute r.1 "connection" (AttrValue.text c.uid)
    let t4 := t3.SetAttribute r.1 "skin" (AttrValue.text naming.2.1)
    let t5 := t4.SetAttribute r.1 "diameter" (AttrValue.text naming.2.2)
    let t6 := t5.SetAttribute r.1 "statut" (AttrValue.statut WellboreStatut.GazProducer)
    perforationsLoop completionUuid idNode_completion rest t6

/-- The loop over the completions of the wellbore of one trajectory: every completion gets a
new node under `idNodeInit`. -/
def completionsLoop (idNodeInit : Int) : List WellboreCompletion → vtkDataAssembly → vtkDataAssembly
  | [], t => t
  | wellbore_completion :: rest, t =>
    let wellboreCompletionVtkValidName := MakeValidNodeName
      (SimplifyXmlTag wellbore_completion.xmlTag ++ "_" ++ wellbore_completion.title)
    let r := t.AddNode ("_" ++ wellbore_completion.uuid) idNodeInit
    let t1 := setLabelAndType r.2 r.1 wellboreCompletionVtkValidName
      TreeViewNodeType.WellboreCompletion
    completionsLoop idNodeInit rest
      (perforationsLoop wellbore_completion.uuid r.1 wellbore_completion.perforations t1)

/-- The first part of the body of the trajectory loop (the block under
`FindFirstNodeWithName("_" + uuid) == -1`): `none` when the body ends with `continue`, else
the values of `idNodeInit` and `idNode`; with the text added to `result` and the tree. -/
def trajectoryNode (wellboreTrajectory : WellboreTrajectoryRepresentation) (t : vtkDataAssembly) :
    Option (Int × Int) × String × vtkDataAssembly :=
  if t.FindFirstNodeWithName ("_" ++ wellboreTrajectory.uuid) = -1 then
    let r0 : Int × vtkDataAssembly :=
      wellboreTrajectory.representationSetRepresentationSet.items.foldl
        (fun acc rsr => searchRepresentationSetRepresentation rsr 0 acc.2) (0, t)
    let wellbore := wellboreTrajectory.wellbore
    let r1 : Int × vtkDataAssembly :=
      if r0.2.FindFirstNodeWithName ("_" ++ wellbore.uuid) = -1 then
        let wellboreVtkValidName := "Wellbore_" ++ MakeValidNodeName wellbore.title
        let a := r0.2.AddNode ("_" ++ wellbore.uuid) r0.1
        (a.1, setLabelAndType a.2 a.1 wellboreVtkValidName TreeViewNodeType.Wellbore)
      else r0
    if wellboreTrajectory.isPartial then
      let name_partial_representation := MakeValidNodeName
        (SimplifyXmlTag wellboreTrajectory.xmlTag ++ "_" ++ wellboreTrajectory.title)
      if r1.2.FindFirstNodeWithName ("_" ++ name_partial_representation) ≠ -1 then
        (some (r1.1, 0), "", r1.2)
      else
        (none, " Partial UUID: (" ++ wellboreTrajectory.uuid ++ ") is not loaded \n", r1.2)
    else
      let wellboreTrajectoryVtkValidName := MakeValidNodeName
        (SimplifyXmlTag wellboreTrajectory.xmlTag ++ "_" ++ wellboreTrajectory.title)
      let a := r1.2.AddNode ("_" ++ wellboreTrajectory.uuid) r1.1
      (some (r1.1, a.1), "",
        setLabelAndType a.2 a.1 wellboreTrajectoryVtkValidName TreeViewNodeType.WellboreTrajectory)
  else (some (0, 0), "", t)

/-- The loop of `searchWellboreTrajectory` over the trajectories, with the text gathered so
far in `result`. The first component is `Except.error` when an exception leaves the function. -/
def searchWellboreTrajectoryLoop :
    List WellboreTrajectoryRepresentation → String → vtkDataAssembly →
      Except String String × vtkDataAssembly
  | [], result, t => (Except.ok result, t)
  | wellboreTrajectory :: rest, result, t =>
    match trajectoryNode wellboreTrajectory t with
    | (none, msg, t1) => searchWellboreTrajectoryLoop rest (result ++ msg) t1
    | (some ids, msg, t1) =>
      match wellboreFramesLoop ids.1 ids.2 wellboreTrajectory.wellboreFrameRepresentationSet t1 with
      | (some e, t2) => (Except.error e, t2)
      | (none, t2) =>
        let t3 :=
          if wellboreTrajectory.wellbore.isWellboreFeature then
            match wellboreTrajectory.wellbore.witsmlWellbore with
            | some completions => completionsLoop ids.1 completions t2
            | none => t2
          else t2
        searchWellboreTrajectoryLoop rest (result ++ msg) t3

/-- `searchWellboreTrajectory(fileName)`. -/
def searchWellboreTrajectory (repository : DataObjectRepository) (t : vtkDataAssembly) :
    Except String String × vtkDataAssembly :=
  searchWellboreTrajectoryLoop repository.wellboreTrajectoryRepresentationSet "" t

/-! ### Time series grouping -/

/-- The part of the plugin object the builder writes: the tree of `_output`, `times_step` and
`_timeSeriesUuidAndTitleToIndexAndPropertiesUuid`, the latter as a list of
`((series uuid, grouped label, time index), property uuid)`. -/
structure Catalog where
  assembly : vtkDataAssembly
  times_step : List Nat
  timeSeriesIndex : List ((String × String × Nat) × String)
  deriving DecidableEq, Repr

/-- `RESQML2_NS::ContinuousProperty::XML_TAG`. -/
def ContinuousProperty_XML_TAG : String := "ContinuousProperty"

/-- `RESQML2_NS::DiscreteProperty::XML_TAG`. -/
def DiscreteProperty_XML_TAG : String := "DiscreteProperty"

/-- `propertyName_to_nodeSet[title].push_back(node_id)` on a `std::map` kept in key order. -/
def nodeSetPush (title : String) (node_id : Int) : List (String × List Int) → List (String × List Int)
  | [] => [(title, [node_id])]
  | (k, v) :: rest =>
    if stringLess title k then (title, [node_id]) :: (k, v) :: rest
    else if title = k then (k, v ++ [node_id]) :: rest
    else (k, v) :: nodeSetPush title node_id rest

/-- The assignment `index[uuid][label][timeIndex] = propertyUuid`. -/
def timeSeriesIndexSet (key : String × String × Nat) (value : String) :
    List ((String × String × Nat) × String) → List ((String × String × Nat) × String)
  | [] => [(key, value)]
  | (k, v) :: rest =>
    if k = key then (key, value) :: rest else (k, v) :: timeSeriesIndexSet key value rest

/-- The lookup `index[uuid][label][timeIndex]`; a missing entry reads as the empty string. -/
def timeSeriesIndexGet (key : String × String × Nat)
    (index : List ((String × String × Nat) × String)) : String :=
  match index.find? (fun kv => kv.1 == key) with
  | some kv => kv.2
  | none => ""

/-- The variables the first loop over the properties of a time series writes. -/
structure TimeSeriesScan where
  propertyName_to_nodeSet : List (String × List Int)
  times_step : List Nat
  timeSeriesIndex : List ((String × String × Nat) × String)
  return_message : String
  deriving DecidableEq, Repr

/-- The loop `for (prop : propSeries)` of `searchTimeSeries`; the first component is the
exception that left the loop, if any. -/
def timeSeriesScanLoop (seriesUuid seriesXmlTag : String) (t : vtkDataAssembly) :
    List TimeSeriesProperty → TimeSeriesScan → Option String × TimeSeriesScan
  | [], st => (none, st)
  | prop :: rest, st =>
    if prop.xmlTag = ContinuousProperty_XML_TAG ∨ prop.xmlTag = DiscreteProperty_XML_TAG then
      let node_id := t.FindFirstNodeWithName ("_" ++ prop.uuid)
      if node_id = -1 then
        timeSeriesScanLoop seriesUuid seriesXmlTag t rest
          { st with return_message := st.return_message ++ "The property " ++ prop.uuid ++
              " is not supported and consequently cannot be associated to its time series.\n" }
      else
        let nodeParent := t.GetParent node_id
        if nodeParent ≠ -1 then
          let st1 := { st with
            propertyName_to_nodeSet := nodeSetPush prop.title node_id st.propertyName_to_nodeSet }
          match prop.timestampIndex with
          | Except.error e => (some e, st1)
          | Except.ok timeIndexInTimeSeries =>
            timeSeriesScanLoop seriesUuid seriesXmlTag t rest
              { st1 with
                times_step := st1.times_step ++ [timeIndexInTimeSeries]
                timeSeriesIndex := timeSeriesIndexSet
                  (seriesUuid, MakeValidNodeName (seriesXmlTag ++ "_" ++ prop.title),
                    timeIndexInTimeSeries) prop.uuid st1.timeSeriesIndex }
        else
          timeSeriesScanLoop seriesUuid seriesXmlTag t rest
            { st with return_message := st.return_message ++ "The properties of time series " ++
                seriesUuid ++ " aren't parent and is not supported.\n" }
    else timeSeriesScanLoop seriesUuid seriesXmlTag t rest st

/-- `std::sort` on the time indices. -/
def sortTimes (l : List Nat) : List Nat :=
  l.foldl (fun acc x => List.orderedInsert (fun a b => a ≤ b) x acc) []

/-- `std::unique` followed by `erase`: of every run of equal values the first is kept. -/
def uniqueTimes : List Nat → List Nat
  | [] => []
  | [x] => [x]
  | x :: y :: rest => if x = y then uniqueTimes (y :: rest) else x :: uniqueTimes (y :: rest)

/-- The loop `for (auto node : property_node_set)`: every node is removed, `nodeParent` is the
parent the last one had. -/
def removeGroupNodes : List Int → Int → vtkDataAssembly → Int × vtkDataAssembly
  | [], nodeParent, t => (nodeParent, t)
  | node :: rest, _, t => removeGroupNodes rest (t.GetParent node) (t.RemoveNode node).2

/-- The loop `for (myPair : propertyName_to_nodeSet)`: the nodes of a group are replaced by
one node of type `TimeSeries`. -/
def groupLoop (seriesUuid seriesXmlTag : String) :
    List (String × List Int) → vtkDataAssembly → vtkDataAssembly
  | [], t => t
  | myPair :: rest, t =>
    let r := removeGroupNodes myPair.2 (-1) t
    let name := MakeValidNodeName (seriesXmlTag ++ "_" ++ myPair.1)
    let a := r.2.AddNode ("_" ++ seriesUuid ++ name) r.1
    groupLoop seriesUuid seriesXmlTag rest
      (setLabelAndType a.2 a.1 name TreeViewNodeType.TimeSeries)

/-- The body of the loop of `searchTimeSeries` over the time series, `try` and `catch`
included. -/
def searchTimeSeriesOne (fileName : String) (timeSeries : TimeSeries) (c : Catalog)
    (return_message : String) : String × Catalog :=
  let caught (e : String) : String :=
    "Exception in FESAPI when calling getPropertySet with file: " ++ fileName ++ " : " ++ e
  match timeSeries.propertySet with
  | Except.error e => (return_message ++ caught e, c)
  | Except.ok propSeries =>
    match timeSeriesScanLoop timeSeries.uuid timeSeries.xmlTag c.assembly propSeries
        { propertyName_to_nodeSet := [], times_step := c.times_step,
          timeSeriesIndex := c.timeSeriesIndex, return_message := return_message } with
    | (some e, st) =>
      (st.return_message ++ caught e,
        { c with times_step := st.times_step, timeSeriesIndex := st.timeSeriesIndex })
    | (none, st) =>
      (st.return_message,
        { assembly := groupLoop timeSeries.uuid timeSeries.xmlTag st.propertyName_to_nodeSet
            c.assembly,
          times_step := uniqueTimes (sortTimes st.times_step),
          timeSeriesIndex := st.timeSeriesIndex })

/-- The loop of `searchTimeSeries` over the time series. -/
def searchTimeSeriesLoop (fileName : String) : List TimeSeries → Catalog → String → String × Catalog
  | [], c, return_message => (return_message, c)
  | timeSeries :: rest, c, return_message =>
    let r := searchTimeSeriesOne fileName timeSeries c return_message
    searchTimeSeriesLoop fileName rest r.2 r.1

/-- `searchTimeSeries(fileName)`. -/
def searchTimeSeries (repository : DataObjectRepository) (fileName : String) (c : Catalog) :
    String × Catalog :=
  let c0 := { c with times_step := [] }
  match repository.timeSeriesSet with
  | Except.error e =>
    ("" ++ "Exception in FESAPI when calling getTimeSeriesSet with file: " ++ fileName ++ " : " ++ e,
      c0)
  | Except.ok timeSeriesSet => searchTimeSeriesLoop fileName timeSeriesSet c0 ""

/-! ### The build -/

/-- The list `allReps` of `buildDataAssemblyFromDataObjectRepo`. -/
def allReps (repository : DataObjectRepository) : List Representation :=
  sortAndAdd repository.unstructuredGridRepresentationSet
    (sortAndAdd repository.allTriangulatedSetRepresentationSet
      (sortAndAdd repository.allPolylineSetRepresentationSet
        (sortAndAdd repository.ijkGridRepresentationSet
          (sortAndAdd repository.horizonGrid2dRepresentationSet []))))

/-- The `std::accumulate` of `buildDataAssemblyFromDataObjectRepo` over `allReps`. -/
def searchRepresentationsAll : List Representation → String → vtkDataAssembly → String × vtkDataAssembly
  | [], message, t => (message, t)
  | rep :: rest, message, t =>
    let r := searchRepresentations rep 0 t
    searchRepresentationsAll rest (message ++ r.1) r.2

/-- `buildDataAssemblyFromDataObjectRepo(fileName)`: the returned text, or the exception that
left the function, and the plugin state afterwards. -/
def buildDataAssemblyFromDataObjectRepo (repository : DataObjectRepository) (fileName : String)
    (c : Catalog) : Except String String × Catalog :=
  let r1 := searchRepresentationsAll (allReps repository) "" c.assembly
  match searchWellboreTrajectory repository r1.2 with
  | (Except.error e, t2) => (Except.error e, { c with assembly := t2 })
  | (Except.ok msg2, t2) =>
    let r3 := searchTimeSeries repository fileName { c with assembly := t2 }
    (Except.ok (r1.1 ++ msg2 ++ r3.1), r3.2)

/-- The plugin state after construction: the root node `data` alone, nothing recorded. -/
def Catalog.initial : Catalog :=
  { assembly := vtkDataAssembly.New "data", times_step := [], timeSeriesIndex := [] }

/-! ### Sample repositories -/

/-- A repository without any object. -/
def emptyRepository : DataObjectRepository :=
  { horizonGrid2dRepresentationSet := [], ijkGridRepresentationSet := [],
    allPolylineSetRepresentationSet := [], allTriangulatedSetRepresentationSet := [],
    unstructuredGridRepresentationSet := [], wellboreTrajectoryRepresentationSet := [],
    timeSeriesSet := Except.ok [] }

/-- A completion `c1` with one perforation connection `p1`. -/
def sampleCompletion : WellboreCompletion :=
  { uuid := "c1", title := "Completion", xmlTag := "WellboreCompletion",
    perforations := [{ uid := "p1", extraMetadata := [] }] }

/-- A wellbore `w1` whose WITSML wellbore has the completion `c1`. -/
def sampleWellbore : WellboreFeature :=
  { uuid := "w1", title := "Well", isWellboreFeature := true,
    witsmlWellbore := some [sampleCompletion] }

/-- A trajectory of the wellbore `w1`, without frame. -/
def sampleTrajectory (uuid : String) : WellboreTrajectoryRepresentation :=
  { uuid := uuid, title := "Traj", xmlTag := "WellboreTrajectoryRepresentation",
    isPartial := false, representationSetRepresentationSet := RsrList.nil,
    wellbore := sampleWellbore, wellboreFrameRepresentationSet := [] }

/-- A repository with one wellbore, one trajectory and one completion. -/
def repoOneTrajectory : DataObjectRepository :=
  { emptyRepository with wellboreTrajectoryRepresentationSet := [sampleTrajectory "t1"] }

/-- A repository with one wellbore that has two trajectories and one completion. -/
def repoTwoTrajectories : DataObjectRepository :=
  { emptyRepository with
    wellboreTrajectoryRepresentationSet := [sampleTrajectory "t1", sampleTrajectory "t2"] }

/-- A repository with one 2D grid `Top` carrying the property `Poro` at two time steps, and the
time series of these two properties. -/
def repoTimeSeries : DataObjectRepository :=
  { emptyRepository with
    horizonGrid2dRepresentationSet :=
      [{ uuid := "g1", title := "Top", xmlTag := "Grid2dRepresentation", isPartial := false,
         kind := RepKind.Grid2d,
         valuesPropertySet := Except.ok
           [{ uuid := "p0", title := "Poro", xmlTag := "ContinuousProperty" },
            { uuid := "p1", title := "Poro", xmlTag := "ContinuousProperty" }],
         subRepresentationSet := Except.ok [] }]
    timeSeriesSet := Except.ok
      [{ uuid := "ts", xmlTag := "TimeSeries",
         propertySet := Except.ok
           [{ uuid := "p0", title := "Poro", xmlTag := "ContinuousProperty",
              timestampIndex := Except.ok 0 },
            { uuid := "p1", title := "Poro", xmlTag := "ContinuousProperty",
              timestampIndex := Except.ok 1 }] }] }

/-- A sub-representation of the IJK grid `g`. -/
def sampleSubRep (uuid title : String) : AbstractRepresentation :=
  { uuid := uuid, title := title, xmlTag := "SubRepresentation", isPartial := false,
    kind := RepKind.SubRepresentation "g" "Grid" RepKind.IjkGrid,
    valuesPropertySet := Except.ok [] }

/-- A repository with one IJK grid `g` and two sub-representations `s1`, `s2` of it. -/
def repoGridTwoSubReps : DataObjectRepository :=
  { emptyRepository with
    ijkGridRepresentationSet :=
      [{ uuid := "g", title := "Grid", xmlTag := "IjkGridRepresentation", isPartial := false,
         kind := RepKind.IjkGrid, valuesPropertySet := Except.ok [],
         subRepresentationSet := Except.ok [sampleSubRep "s1" "A", sampleSubRep "s2" "B"] }] }

/-- The catalog built from `repoGridTwoSubReps`: the grid is node 1, the sub-representations
are nodes 2 and 3, all three under the root. -/
def treeGridTwoSubReps : vtkDataAssembly :=
  (buildDataAssemblyFromDataObjectRepo repoGridTwoSubReps "" Catalog.initial).2.assembly

/-! ## Lifecycle cache -/

/-- An object of the repository as `getDataObjectByUuid` returns it, with the class the
`dynamic_cast`s of the plugin find. -/
inductive DataObject where
  | representation (r : AbstractRepresentation)
  | property (p : Property)
  | wellboreTrajectory (w : WellboreTrajectoryRepresentation)
  | wellboreFrame (f : WellboreFrameRepresentation)
  | wellboreMarker (m : WellboreMarker)
  | wellboreCompletion (c : WellboreCompletion)
  | other (uuid : String)

/-- The uuid of a data object. -/
def DataObject.uuid : DataObject → String
  | DataObject.representation r => r.uuid
  | DataObject.property p => p.uuid
  | DataObject.wellboreTrajectory w => w.uuid
  | DataObject.wellboreFrame f => f.uuid
  | DataObject.wellboreMarker m => m.uuid
  | DataObject.wellboreCompletion c => c.uuid
  | DataObject.other u => u

/-- The value of an `Except` list, empty when the getter raises. -/
def okList {α : Type} : Except String (List α) → List α
  | Except.ok l => l
  | Except.error _ => []

/-- The objects reached from one representation: itself, its sub-representations and the
properties of all of them. -/
def Representation.dataObjects (r : Representation) : List DataObject :=
  DataObject.representation r.toAbstractRepresentation ::
    ((okList r.valuesPropertySet).map DataObject.property ++
      (okList r.subRepresentationSet).flatMap (fun (s : AbstractRepresentation) =>
        DataObject.representation s :: (okList s.valuesPropertySet).map DataObject.property))

/-- The objects reached from one wellbore frame. -/
def WellboreFrameRepresentation.dataObjects (f : WellboreFrameRepresentation) : List DataObject :=
  DataObject.wellboreFrame f ::
    ((okList f.valuesPropertySet).map DataObject.property ++
      f.wellboreMarkerSet.map DataObject.wellboreMarker)

/-- The objects reached from one trajectory. -/
def WellboreTrajectoryRepresentation.dataObjects (w : WellboreTrajectoryRepresentation) :
    List DataObject :=
  DataObject.wellboreTrajectory w :: DataObject.other w.wellbore.uuid ::
    (w.wellboreFrameRepresentationSet.flatMap (fun f => f.dataObjects) ++
      (match w.wellbore.witsmlWellbore with
       | some cs => cs.map DataObject.wellboreCompletion
       | none => []))

/-- All the objects of the repository. -/
def DataObjectRepository.dataObjects (repository : DataObjectRepository) : List DataObject :=
  (repository.horizonGrid2dRepresentationSet ++ repository.ijkGridRepresentationSet ++
    repository.allPolylineSetRepresentationSet ++ repository.allTriangulatedSetRepresentationSet ++
    repository.unstructuredGridRepresentationSet).flatMap (fun r => r.dataObjects) ++
  repository.wellboreTrajectoryRepresentationSet.flatMap (fun w => w.dataObjects) ++
  (okList repository.timeSeriesSet).map (fun ts => DataObject.other ts.uuid)

/-- `repository->getDataObjectByUuid(uuid)`; `none` is the null pointer. -/
def DataObjectRepository.getDataObjectByUuid (repository : DataObjectRepository) (uuid : String) :
    Option DataObject :=
  repository.dataObjects.find? (fun o => o.uuid == uuid)

/-- The converter classes `initMapper` instantiates. -/
inductive MapperClass where
  | ResqmlIjkGridToVtkExplicitStructuredGrid
  | ResqmlGrid2dToVtkStructuredGrid
  | ResqmlTriangulatedSetToVtkPartitionedDataSet
  | ResqmlPolylineToVtkPolyData
  | ResqmlUnstructuredGridToVtkUnstructuredGrid
  | ResqmlIjkGridSubRepToVtkExplicitStructuredGrid
  | ResqmlUnstructuredGridSubRepToVtkUnstructuredGrid
  | ResqmlWellboreTrajectoryToVtkPolyData
  | ResqmlWellboreMarkerFrameToVtkPartitionedDataSet
  | ResqmlWellboreFrameToVtkPartitionedDataSet
  deriving DecidableEq, Repr

/-- Modelled from the spec: of the converter classes only the triangulated-set one is in the
sources at hand, and its methods hand the work to per-patch converters that are not. A
converter is an object on the heap (`address` tells two objects apart) built from one domain
object (`uuid`); a sub-representation converter keeps the pointer to the converter of its
supporting grid that its constructor received (`supportingGrid`, `none` for a null pointer and
for the other classes); arrays are added and removed by uuid, markers likewise, and `loaded`
records a `loadVtkObject()`. -/
structure Mapper where
  address : Nat
  cls : MapperClass
  uuid : String
  supportingGrid : Option Nat
  dataArrays : List String
  markers : List String
  loaded : Bool
  deriving DecidableEq, Repr

/-- Modelled from the spec: `deleteDataArray(uuid)` of a converter, not in the sources at
hand: the array of that uuid is no longer attached. -/
def Mapper.deleteDataArray (m : Mapper) (uuid : String) : Mapper :=
  { m with dataArrays := m.dataArrays.filter (fun u => u != uuid) }

/-- Modelled from the spec: `removeMarker(uuid)` of a marker frame converter, not in the
sources at hand: the marker of that uuid is no longer attached. -/
def Mapper.removeMarker (m : Mapper) (uuid : String) : Mapper :=
  { m with markers := m.markers.filter (fun u => u != uuid) }

/-- One entry of `list_perforation` of a completion converter-set. -/
structure PerforationMapper where
  uuid : String
  title : String
  skin : String
  statut : WellboreStatut
  deriving DecidableEq, Repr

/-- The converter-set of a completion (`WitsmlWellboreCompletionToVtkPartitionedDataSet`). -/
structure MapperSet where
  address : Nat
  uuid : String
  list_perforation : List PerforationMapper
  loaded : Bool
  deriving DecidableEq, Repr

/-- `existUuid(uuid)` of a converter-set: the test `addPerforation` runs with `std::find_if`. -/
def MapperSet.existUuid (m : MapperSet) (uuid : String) : Bool :=
  m.list_perforation.any (fun p => p.uuid == uuid)

/-- `addPerforation` of `WitsmlWellboreCompletionToVtkPartitionedDataSet`: `std::find_if` looks
for an entry whose `getUuid()` is the given one; when there is none, the new perforation
converter (`p`, the object the source builds with `new`) is pushed at the back and
`loadVtkObject()` runs. -/
def MapperSet.addPerforation (m : MapperSet) (p : PerforationMapper) : MapperSet :=
  if m.list_perforation.any (fun q => q.uuid == p.uuid) then m
  else { m with list_perforation := m.list_perforation ++ [p], loaded := true }

/-- `removePerforation` of `WitsmlWellboreCompletionToVtkPartitionedDataSet`
(`std::remove_if` followed by `erase`, then `loadVtkObject`). -/
def MapperSet.removePerforation (m : MapperSet) (uuid : String) : MapperSet :=
  { m with list_perforation := m.list_perforation.filter (fun q => !(q.uuid == uuid)),
           loaded := true }

/-! ### `std::map<int, T*>` -/

/-- `map.find(key)`: `none` for `end()`, else the stored pointer (`none` when it is null). -/
def mapFind {V : Type} (key : Int) : List (Int × Option V) → Option (Option V)
  | [] => none
  | (k, v) :: rest => if k = key then some v else mapFind key rest

/-- `map[key] = value`. -/
def mapSet {V : Type} (key : Int) (value : Option V) : List (Int × Option V) → List (Int × Option V)
  | [] => [(key, value)]
  | (k, v) :: rest =>
    if key < k then (key, value) :: (k, v) :: rest
    else if k = key then (key, value) :: rest
    else (k, v) :: mapSet key value rest

/-- The map after a read `map[key]`: a key that was absent is now bound to a null pointer. -/
def mapTouch {V : Type} (key : Int) (m : List (Int × Option V)) : List (Int × Option V) :=
  match mapFind key m with
  | some _ => m
  | none => mapSet key none m

/-- The value of the read `map[key]`. -/
def mapAt {V : Type} (key : Int) (m : List (Int × Option V)) : Option V :=
  match mapFind key m with
  | some v => v
  | none => none

/-- `map.erase(key)`. -/
def mapErase {V : Type} (key : Int) (m : List (Int × Option V)) : List (Int × Option V) :=
  m.filter (fun kv => decide (kv.1 ≠ key))

/-- The converter maps of the plugin with the heap they point into: `nextAddress` is the
address the next `new` returns, `deleted` lists the addresses given to `delete`. -/
structure Cache where
  nodeIdToMapper : List (Int × Option Mapper)
  nodeIdToMapperSet : List (Int × Option MapperSet)
  nextAddress : Nat
  deleted : List Nat
  deriving DecidableEq, Repr

/-- The cache of a plugin that has not created any converter. -/
def Cache.empty : Cache :=
  { nodeIdToMapper := [], nodeIdToMapperSet := [], nextAddress := 1, deleted := [] }

/-- `new C(object)` for a converter class: the object and the cache with the address used. -/
def Cache.newMapper (c : Cache) (cls : MapperClass) (uuid : String) (supportingGrid : Option Nat) :
    Mapper × Cache :=
  ({ address := c.nextAddress, cls := cls, uuid := uuid, supportingGrid := supportingGrid,
     dataArrays := [], markers := [], loaded := false },
   { c with nextAddress := c.nextAddress + 1 })

/-- `delete pointer` (nothing happens for a null pointer). -/
def Cache.delete {V : Type} (c : Cache) (address : V → Nat) : Option V → Cache
  | none => c
  | some v => { c with deleted := c.deleted ++ [address v] }

/-- `dynamic_cast<C*>(pointer)` on a converter, as the address handed to a constructor. -/
def castTo (cls : MapperClass) : Option Mapper → Option Nat
  | some m => if m.cls = cls then some m.address else none
  | none => none

/-- The text attribute `name` of a node, empty when it is missing. -/
def getTextAttribute (t : vtkDataAssembly) (id : Int) (name : String) : String :=
  match t.GetAttribute id name with
  | some (AttrValue.text s) => s
  | _ => ""

/-- The SubRepresentation branch of `initMapper` for a supporting grid of class `gridCls`: the
converter of the supporting grid is looked up under the id of the node named after it and
created when absent; the sub-representation converter is built on it. -/
def initSubRepMapper (t : vtkDataAssembly) (c : Cache) (subRepUuid supportingUuid : String)
    (gridCls subRepCls : MapperClass) : Option Mapper × Cache :=
  let key := t.FindFirstNodeWithName ("_" ++ supportingUuid)
  let c1 : Cache :=
    match mapFind key c.nodeIdToMapper with
    | none =>
      let r := c.newMapper gridCls supportingUuid none
      { r.2 with nodeIdToMapper := mapSet key (some r.1) r.2.nodeIdToMapper }
    | some _ => c
  let c2 : Cache := { c1 with nodeIdToMapper := mapTouch key c1.nodeIdToMapper }
  let r := c2.newMapper subRepCls subRepUuid (castTo gridCls (mapAt key c1.nodeIdToMapper))
  (some r.1, r.2)

/-- The converter `initMapper` builds for a node of type `Representation`, by the class of the
object (`none` is the null pointer `rep` keeps when no cast succeeds). -/
def initRepresentationMapper (t : vtkDataAssembly) (c : Cache) :
    Option DataObject → Option Mapper × Cache
  | some (DataObject.representation r) =>
    match r.kind with
    | RepKind.IjkGrid =>
      let m := c.newMapper MapperClass.ResqmlIjkGridToVtkExplicitStructuredGrid r.uuid none
      (some m.1, m.2)
    | RepKind.Grid2d =>
      let m := c.newMapper MapperClass.ResqmlGrid2dToVtkStructuredGrid r.uuid none
      (some m.1, m.2)
    | RepKind.TriangulatedSet =>
      let m := c.newMapper MapperClass.ResqmlTriangulatedSetToVtkPartitionedDataSet r.uuid none
      (some m.1, m.2)
    | RepKind.PolylineSet =>
      let m := c.newMapper MapperClass.ResqmlPolylineToVtkPolyData r.uuid none
      (some m.1, m.2)
    | RepKind.UnstructuredGrid =>
      let m := c.newMapper MapperClass.ResqmlUnstructuredGridToVtkUnstructuredGrid r.uuid none
      (some m.1, m.2)
    | RepKind.SubRepresentation supportingUuid _ supportingKind =>
      match supportingKind with
      | RepKind.IjkGrid =>
        initSubRepMapper t c r.uuid supportingUuid
          MapperClass.ResqmlIjkGridToVtkExplicitStructuredGrid
          MapperClass.ResqmlIjkGridSubRepToVtkExplicitStructuredGrid
      | RepKind.UnstructuredGrid =>
        initSubRepMapper t c r.uuid supportingUuid
          MapperClass.ResqmlUnstructuredGridToVtkUnstructuredGrid
          MapperClass.ResqmlUnstructuredGridSubRepToVtkUnstructuredGrid
      | _ => (none, c)
    | RepKind.Other => (none, c)
  | _ => (none, c)

/-- The statement `_nodeIdToMapper[node_id] = rep;` that ends `initMapper`. -/
def storeRep (node_id : Int) (r : Option Mapper × Cache) : Cache :=
  { r.2 with nodeIdToMapper := mapSet node_id r.1 r.2.nodeIdToMapper }

/-- `initMapper(type, node_id, nbProcess, processId)`. The constructors of the converters are
taken not to raise; `uuid` is the name of the node without its first character (the name of
an id that names no node, a null pointer in C++, is read as empty). -/
def initMapper (repository : DataObjectRepository) (t : vtkDataAssembly) (type : TreeViewNodeType)
    (node_id : Int) (c : Cache) : Cache :=
  let uuid := String.mk (((t.GetNodeName node_id).getD "").data.drop 1)
  if type = TreeViewNodeType.Representation ∨ type = TreeViewNodeType.WellboreTrajectory ∨
      type = TreeViewNodeType.WellboreMarker ∨ type = TreeViewNodeType.WellboreFrame ∨
      type = TreeViewNodeType.WellboreCompletion ∨ type = TreeViewNodeType.Perforation then
    let result := repository.getDataObjectByUuid uuid
    if type = TreeViewNodeType.Representation then
      storeRep node_id (initRepresentationMapper t c result)
    else if type = TreeViewNodeType.WellboreTrajectory then
      match result with
      | some (DataObject.wellboreTrajectory w) =>
        let m := c.newMapper MapperClass.ResqmlWellboreTrajectoryToVtkPolyData w.uuid none
        storeRep node_id (some m.1, m.2)
      | _ => storeRep node_id (none, c)
    else if type = TreeViewNodeType.WellboreCompletion then
      match result with
      | some (DataObject.wellboreCompletion wc) =>
        let ms : MapperSet :=
          { address := c.nextAddress, uuid := wc.uuid, list_perforation := [], loaded := false }
        let sets := mapSet node_id (some ms) c.nodeIdToMapperSet
        storeRep node_id (none, { c with nodeIdToMapperSet := sets, nextAddress := c.nextAddress + 1 })
      | _ => storeRep node_id (none, c)
    else if type = TreeViewNodeType.Perforation then
      let node_parent := t.GetParent node_id
      let c1 : Cache := { c with nodeIdToMapperSet := mapTouch node_parent c.nodeIdToMapperSet }
      match mapAt node_parent c.nodeIdToMapperSet with
      | some ms =>
        let p_connection := getTextAttribute t node_id "connection"
        let name := getTextAttribute t node_id "label"
        let skin_s := getTextAttribute t node_id "skin"
        if !ms.existUuid p_connection then
          let perforation : PerforationMapper :=
            { uuid := p_connection, title := name, skin := skin_s,
              statut := WellboreStatut.GazInjecter }
          let ms2 := mapSet node_parent (some (ms.addPerforation perforation)) c1.nodeIdToMapperSet
          { c1 with nodeIdToMapperSet := ms2 }
        else c1
      | none => storeRep node_id (none, c1)
    else if type = TreeViewNodeType.WellboreMarker then
      match result with
      | some (DataObject.wellboreFrame f) =>
        if f.isMarkerFrame then
          let m := c.newMapper MapperClass.ResqmlWellboreMarkerFrameToVtkPartitionedDataSet
            f.uuid none
          storeRep node_id (some m.1, m.2)
        else storeRep node_id (none, c)
      | _ => storeRep node_id (none, c)
    else if type = TreeViewNodeType.WellboreFrame then
      match result with
      | some (DataObject.wellboreFrame f) =>
        let m := c.newMapper MapperClass.ResqmlWellboreFrameToVtkPartitionedDataSet f.uuid none
        storeRep node_id (some m.1, m.2)
      | _ => c
    else c
  else c

/-- What `deleteMapper` and the materialization read and write besides the tree: the two
converter maps with their heap, and the time-series index (a read `index[a][b][c]` of an
absent entry creates it, empty). -/
structure Lifecycle where
  cache : Cache
  timeSeriesIndex : List ((String × String × Nat) × String)
  deriving DecidableEq, Repr

/-- The index after a read `index[uuid][label][time]`. -/
def timeSeriesIndexTouch (key : String × String × Nat)
    (index : List ((String × String × Nat) × String)) : List ((String × String × Nat) × String) :=
  match index.find? (fun kv => kv.1 == key) with
  | some _ => index
  | none => index ++ [(key, "")]

/-- Modelled from the spec: `unregisterToMapperSupportingGrid()` of a sub-representation
converter is not in the sources at hand. It returns a text, the uuid of the supporting grid,
read through the pointer the converter keeps (here: looked up by address among the live
converters). The method belongs to the converter and cannot reach the maps of the plugin. -/
def Mapper.unregisterToMapperSupportingGrid (live : List (Int × Option Mapper)) (m : Mapper) :
    String :=
  match live.find? (fun kv => (kv.2.map (fun g => g.address)) == m.supportingGrid) with
  | some (_, some g) => g.uuid
  | _ => ""

/-- The kind stored in the attribute `type` of a node; `none` when the attribute is missing
(the C++ variable then keeps an indeterminate value: no branch is modelled for it). -/
def nodeType (t : vtkDataAssembly) (id : Int) : Option TreeViewNodeType :=
  match t.GetAttribute id "type" with
  | some (AttrValue.kind k) => some k
  | _ => none

/-- The body of the loop of `deleteMapper` for one node of `_oldSelection`. `none` is an
abnormal end: a method called through a null pointer, or `substr(36)` on a name shorter than
that. The time `p_time`, a `double` in C++, is the time index that keys the innermost map of
the time-series index. -/
def deleteMapperOne (t : vtkDataAssembly) (p_time : Nat) (w_nodeId : Int) (s : Lifecycle) :
    Option Lifecycle :=
  let c := s.cache
  let uuid_unselect := ((t.GetNodeName w_nodeId).getD "").data.drop 1
  match nodeType t w_nodeId with
  | some TreeViewNodeType.TimeSeries =>
    if uuid_unselect.length < 36 then none
    else
      let w_timeSeriesuuid := String.mk (uuid_unselect.take 36)
      let w_nodeName := String.mk (uuid_unselect.drop 36)
      let w_nodeParent :=
        t.GetParent (t.FindFirstNodeWithName ("_" ++ String.mk uuid_unselect))
      match mapFind w_nodeParent c.nodeIdToMapper with
      | none => some s
      | some none => none
      | some (some m) =>
        let key := (w_timeSeriesuuid, w_nodeName, p_time)
        let index := timeSeriesIndexTouch key s.timeSeriesIndex
        let m2 := m.deleteDataArray (timeSeriesIndexGet key index)
        some { cache := { c with nodeIdToMapper := mapSet w_nodeParent (some m2) c.nodeIdToMapper },
               timeSeriesIndex := index }
  | some TreeViewNodeType.Properties =>
    let w_nodeParent := t.GetParent w_nodeId
    match mapFind w_nodeParent c.nodeIdToMapper with
    | none => some s
    | some none => none
    | some (some m) =>
      let m2 := m.deleteDataArray (String.mk uuid_unselect)
      some { s with
        cache := { c with nodeIdToMapper := mapSet w_nodeParent (some m2) c.nodeIdToMapper } }
  | some TreeViewNodeType.WellboreMarker =>
    let w_nodeParent := t.GetParent w_nodeId
    match mapFind w_nodeParent c.nodeIdToMapper with
    | none => some s
    | some none => none
    | some (some m) =>
      let m2 := m.removeMarker (String.mk uuid_unselect)
      some { s with
        cache := { c with nodeIdToMapper := mapSet w_nodeParent (some m2) c.nodeIdToMapper } }
  | some TreeViewNodeType.SubRepresentation =>
    match mapFind w_nodeId c.nodeIdToMapper with
    | some entry =>
      let _uuid_supporting_grid : String :=
        match entry with
        | some m =>
          if m.cls = MapperClass.ResqmlUnstructuredGridSubRepToVtkUnstructuredGrid ∨
              m.cls = MapperClass.ResqmlIjkGridSubRepToVtkExplicitStructuredGrid then
            m.unregisterToMapperSupportingGrid c.nodeIdToMapper
          else ""
        | none => ""
      let c1 := c.delete (fun (m : Mapper) => m.address) entry
      some { s with cache := { c1 with nodeIdToMapper := mapErase w_nodeId c1.nodeIdToMapper } }
    | none => some s
  | some TreeViewNodeType.Representation
  | some TreeViewNodeType.WellboreTrajectory
  | some TreeViewNodeType.WellboreFrame
  | some TreeViewNodeType.WellboreChannel
  | some TreeViewNodeType.WellboreMarkerFrame =>
    match mapFind w_nodeId c.nodeIdToMapper with
    | some entry =>
      let c1 := c.delete (fun (m : Mapper) => m.address) entry
      some { s with cache := { c1 with nodeIdToMapper := mapErase w_nodeId c1.nodeIdToMapper } }
    | none => some s
  | some TreeViewNodeType.Perforation =>
    let w_nodeParent := t.GetParent w_nodeId
    match mapFind w_nodeParent c.nodeIdToMapperSet with
    | none => some s
    | some none => none
    | some (some ms) =>
      let w_connection := getTextAttribute t w_nodeId "connection"
      let ms2 := ms.removePerforation w_connection
      some { s with
        cache := { c with nodeIdToMapperSet := mapSet w_nodeParent (some ms2) c.nodeIdToMapperSet } }
  | some TreeViewNodeType.WellboreCompletion =>
    match mapFind w_nodeId c.nodeIdToMapperSet with
    | some entry =>
      let c1 := c.delete (fun (m : MapperSet) => m.address) entry
      some { s with
        cache := { c1 with nodeIdToMapperSet := mapErase w_nodeId c1.nodeIdToMapperSet } }
    | none => some s
  | _ => some s

/-- `deleteMapper(p_time)`: the copy of the assembly has the nodes of the original, so the
tree is read as it is; the loop visits `_oldSelection` in increasing order. -/
def deleteMapper (t : vtkDataAssembly) (p_time : Nat) (oldSelection : List Int) (s : Lifecycle) :
    Option Lifecycle :=
  oldSelection.foldlM (fun acc w_nodeId => deleteMapperOne t p_time w_nodeId acc) s

/-- The first loop of `getVtkPartitionedDatasSetCollection`: every node of `_currentSelection`
that has no entry in the map of its kind is handed to `initMapper` with the kind read from its
attribute `type` (a node without that attribute is passed over, see `nodeType`). -/
def initSelection (repository : DataObjectRepository) (t : vtkDataAssembly) :
    List Int → Cache → Cache
  | [], c => c
  | node_selection :: rest, c =>
    match nodeType t node_selection with
    | some TreeViewNodeType.WellboreCompletion =>
      if mapFind node_selection c.nodeIdToMapperSet = none then
        initSelection repository t rest
          (initMapper repository t TreeViewNodeType.WellboreCompletion node_selection c)
      else initSelection repository t rest c
    | some w_type =>
      if mapFind node_selection c.nodeIdToMapper = none then
        initSelection repository t rest (initMapper repository t w_type node_selection c)
      else initSelection repository t rest c
    | none => initSelection repository t rest c

/-- The converter class `initMapper` builds for a supporting grid of the given class. -/
def gridMapperClass : RepKind → MapperClass
  | RepKind.UnstructuredGrid => MapperClass.ResqmlUnstructuredGridToVtkUnstructuredGrid
  | _ => MapperClass.ResqmlIjkGridToVtkExplicitStructuredGrid

/-- The converter class `initMapper` builds for a sub-representation of a grid of the given
class. -/
def subRepMapperClass : RepKind → MapperClass
  | RepKind.UnstructuredGrid => MapperClass.ResqmlUnstructuredGridSubRepToVtkUnstructuredGrid
  | _ => MapperClass.ResqmlIjkGridSubRepToVtkExplicitStructuredGrid

/-! ## Loading and the snapshot assembler -/

/-- Modelled from the spec: `addDataArray(uuid)` of a converter. The one body in the sources
at hand, that of the triangulated-set converter, passes the uuid on to its per-patch
converters, which are not there: the array of that uuid is attached, once. -/
def Mapper.addDataArray (m : Mapper) (uuid : String) : Mapper :=
  if m.dataArrays.contains uuid then m else { m with dataArrays := m.dataArrays ++ [uuid] }

/-- Modelled from the spec: `addChannel(uuid, property)` of a wellbore frame converter, not in
the sources at hand: the channel of that uuid is attached like a data array. -/
def Mapper.addChannel (m : Mapper) (uuid : String) : Mapper :=
  m.addDataArray uuid

/-- Modelled from the spec: `addMarker(uuid, orientation, size)` of a marker frame converter,
not in the sources at hand: the marker of that uuid is attached, once. -/
def Mapper.addMarker (m : Mapper) (uuid : String) : Mapper :=
  if m.markers.contains uuid then m else { m with markers := m.markers ++ [uuid] }

/-- Modelled from the spec: `loadVtkObject()` of a converter. The one body in the sources at
hand, that of the triangulated-set converter, builds one per-patch converter for every patch,
and those are not there: the output of the converter is filled (it has at least one partition
afterwards). -/
def Mapper.loadVtkObject (m : Mapper) : Mapper :=
  { m with loaded := true }

/-- `loadMapper(type, node_id, time)`. `none` is an abnormal end: a method called through a
null pointer (no `catch` holds that). A read `_nodeIdToMapper[key]` of an absent key binds it
to a null pointer. The time, a `double` in C++, is the time index. -/
def loadMapper (repository : DataObjectRepository) (t : vtkDataAssembly) (type : TreeViewNodeType)
    (node_id : Int) (time : Nat) (s : Lifecycle) : Option Lifecycle :=
  let uuid := ((t.GetNodeName node_id).getD "").data.drop 1
  let c := s.cache
  if type = TreeViewNodeType.TimeSeries then
    if uuid.length < 36 then some s
    else
      let ts_uuid := String.mk (uuid.take 36)
      let node_name := String.mk (uuid.drop 36)
      let node_parent := t.GetParent (t.FindFirstNodeWithName ("_" ++ String.mk uuid))
      let touched := mapTouch node_parent c.nodeIdToMapper
      match mapAt node_parent c.nodeIdToMapper with
      | some m =>
        let key := (ts_uuid, node_name, time)
        let index := timeSeriesIndexTouch key s.timeSeriesIndex
        let m2 := m.addDataArray (timeSeriesIndexGet key index)
        some { cache := { c with nodeIdToMapper := mapSet node_parent (some m2) touched },
               timeSeriesIndex := index }
      | none => some { s with cache := { c with nodeIdToMapper := touched } }
  else
    match repository.getDataObjectByUuid (String.mk uuid) with
    | some (DataObject.wellboreMarker _) =>
      let node_parent := t.GetParent (t.FindFirstNodeWithName ("_" ++ String.mk uuid))
      match mapAt node_parent c.nodeIdToMapper with
      | some m =>
        let m2 := m.addMarker (String.mk uuid)
        some { s with
          cache := { c with nodeIdToMapper := mapSet node_parent (some m2) c.nodeIdToMapper } }
      | none => none
    | some (DataObject.property _) =>
      let node_parent := t.GetParent node_id
      match mapAt node_parent c.nodeIdToMapper with
      | some m =>
        let m2 :=
          if m.cls = MapperClass.ResqmlWellboreFrameToVtkPartitionedDataSet then
            m.addChannel (String.mk uuid)
          else m.addDataArray (String.mk uuid)
        some { s with
          cache := { c with nodeIdToMapper := mapSet node_parent (some m2) c.nodeIdToMapper } }
      | none => none
    | _ =>
      match mapAt node_id c.nodeIdToMapper with
      | some m =>
        let mappers := mapSet node_id (some m.loadVtkObject) c.nodeIdToMapper
        some { s with cache := { c with nodeIdToMapper := mappers } }
      | none => none

/-- One slot of the output collection: its index, the node it is registered under and the
uuid of the converter whose dataset it holds (the display name, title and uuid, is reduced to
the uuid). -/
structure OutputSlot where
  index : Nat
  node : Int
  uuid : String
  deriving DecidableEq, Repr

/-- The kinds the second loop of `getVtkPartitionedDatasSetCollection` loads through
`_nodeIdToMapper`. -/
def loadedThroughMapper (ty : TreeViewNodeType) : Bool :=
  ty = TreeViewNodeType.Representation || ty = TreeViewNodeType.SubRepresentation ||
  ty = TreeViewNodeType.Properties || ty = TreeViewNodeType.WellboreTrajectory ||
  ty = TreeViewNodeType.WellboreFrame || ty = TreeViewNodeType.WellboreChannel ||
  ty = TreeViewNodeType.WellboreMarkerFrame || ty = TreeViewNodeType.WellboreMarker ||
  ty = TreeViewNodeType.TimeSeries

/-- The slots a loaded converter-set adds to the output: one for each perforation, from
`index` on. -/
def partitionSlots (node : Int) : Nat → List PerforationMapper → List OutputSlot
  | _, [] => []
  | index, p :: rest =>
    { index := index, node := node, uuid := p.uuid } :: partitionSlots node (index + 1) rest

/-- The second loop of `getVtkPartitionedDatasSetCollection` (load and register); the next
free index is the number of slots filled so far. `none` is an abnormal end. -/
def loadSelection (repository : DataObjectRepository) (t : vtkDataAssembly) (time : Nat) :
    List Int → Lifecycle → List OutputSlot → Option (Lifecycle × List OutputSlot)
  | [], s, out => some (s, out)
  | node_selection :: rest, s, out =>
    match nodeType t node_selection with
    | some TreeViewNodeType.WellboreCompletion =>
      match mapFind node_selection s.cache.nodeIdToMapperSet with
      | none => loadSelection repository t time rest s out
      | some none => none
      | some (some ms) =>
        let ms2 : MapperSet := { ms with loaded := true }
        let sets := mapSet node_selection (some ms2) s.cache.nodeIdToMapperSet
        loadSelection repository t time rest
          { s with cache := { s.cache with nodeIdToMapperSet := sets } }
          (out ++ partitionSlots node_selection out.length ms2.list_perforation)
    | some w_type =>
      if loadedThroughMapper w_type then
        match mapFind node_selection s.cache.nodeIdToMapper with
        | none =>
          match loadMapper repository t w_type node_selection time s with
          | some s1 => loadSelection repository t time rest s1 out
          | none => none
        | some none => none
        | some (some m) =>
          let loaded : Option Lifecycle :=
            if !m.loaded then loadMapper repository t w_type node_selection time s else some s
          match loaded with
          | some s1 =>
            match mapAt node_selection s1.cache.nodeIdToMapper with
            | some m1 =>
              loadSelection repository t time rest s1
                (out ++ [{ index := out.length, node := node_selection, uuid := m1.uuid }])
            | none => none
          | none => none
      else loadSelection repository t time rest s out
    | none => loadSelection repository t time rest s out

/-- `getVtkPartitionedDatasSetCollection(time, nbProcess, processId)`: teardown of the nodes
of `_oldSelection`, creation of the missing converters of `_currentSelection`, then load and
registration. The result is the state of the maps and the slots of the output. -/
def getVtkPartitionedDatasSetCollection (repository : DataObjectRepository)
    (t : vtkDataAssembly) (time : Nat) (sel : Selection) (s : Lifecycle) :
    Option (Lifecycle × List OutputSlot) :=
  match deleteMapper t time sel.oldSelection s with
  | none => none
  | some s1 =>
    loadSelection repository t time sel.currentSelection
      { s1 with cache := initSelection repository t sel.currentSelection s1.cache } []

/-- The state of the maps of a plugin that has not materialized anything. -/
def Lifecycle.initial (c : Catalog) : Lifecycle :=
  { cache := Cache.empty, timeSeriesIndex := c.timeSeriesIndex }

/-! ### More sample repositories -/

/-- The catalog built from `repoOneTrajectory`: wellbore 1, trajectory 2, completion 3 and its
perforation 4. -/
def treeOneTrajectory : vtkDataAssembly :=
  (buildDataAssemblyFromDataObjectRepo repoOneTrajectory "" Catalog.initial).2.assembly

/-- A repository like `repoTimeSeries` whose time series has a uuid of 36 characters. -/
def repoSeries : DataObjectRepository :=
  { emptyRepository with
    horizonGrid2dRepresentationSet :=
      [{ uuid := "g1", title := "Top", xmlTag := "Grid2dRepresentation", isPartial := false,
         kind := RepKind.Grid2d,
         valuesPropertySet := Except.ok
           [{ uuid := "p0", title := "Poro", xmlTag := "ContinuousProperty" },
            { uuid := "p1", title := "Poro", xmlTag := "ContinuousProperty" }],
         subRepresentationSet := Except.ok [] }]
    timeSeriesSet := Except.ok
      [{ uuid := "00000000-0000-0000-0000-0000000000ts", xmlTag := "TimeSeries",
         propertySet := Except.ok
           [{ uuid := "p0", title := "Poro", xmlTag := "ContinuousProperty",
              timestampIndex := Except.ok 0 },
            { uuid := "p1", title := "Poro", xmlTag := "ContinuousProperty",
              timestampIndex := Except.ok 1 }] }] }

/-- The plugin state after one build over `repoSeries`: the grid is node 1, the grouped
time-series node is node 4 under it. -/
def catalogSeries : Catalog :=
  (buildDataAssemblyFromDataObjectRepo repoSeries "" Catalog.initial).2

/-- A repository with one trajectory that has a marker frame `mf` with one marker `m1`. -/
def repoMarkerFrame : DataObjectRepository :=
  { emptyRepository with
    wellboreTrajectoryRepresentationSet :=
      [{ uuid := "t1", title := "Traj", xmlTag := "WellboreTrajectoryRepresentation",
         isPartial := false, representationSetRepresentationSet := RsrList.nil,
         wellbore := { uuid := "w1", title := "Well", isWellboreFeature := true,
                       witsmlWellbore := none },
         wellboreFrameRepresentationSet :=
           [{ uuid := "mf", title := "Tops", xmlTag := "WellboreMarkerFrameRepresentation",
              isMarkerFrame := true, valuesPropertySet := Except.ok [],
              wellboreMarkerSet := [{ uuid := "m1", title := "Top1", xmlTag := "WellboreMarker" }] }] }] }

/-- The catalog built from `repoMarkerFrame`: wellbore 1, trajectory 2, marker frame 3 and its
marker 4. -/
def treeMarkerFrame : vtkDataAssembly :=
  (buildDataAssemblyFromDataObjectRepo repoMarkerFrame "" Catalog.initial).2.assembly

/-- An IJK grid `g` that has one sub-representation `sp`, partial. -/
def gridPartialSubRep : Representation :=
  { uuid := "g", title := "Grid", xmlTag := "IjkGridRepresentation", isPartial := false,
    kind := RepKind.IjkGrid, valuesPropertySet := Except.ok [],
    subRepresentationSet := Except.ok
      [{ uuid := "sp", title := "A", xmlTag := "SubRepresentation", isPartial := true,
         kind := RepKind.SubRepresentation "g" "Grid" RepKind.IjkGrid,
         valuesPropertySet := Except.ok [] }] }

/-- A repository that holds `gridPartialSubRep` and nothing else. -/
def repoPartialSubRep : DataObjectRepository :=
  { emptyRepository with ijkGridRepresentationSet := [gridPartialSubRep] }

/-- The catalog built from `repoPartialSubRep`: the grid is node 1, the only node. -/
def treePartialSubRep : vtkDataAssembly :=
  (buildDataAssemblyFromDataObjectRepo repoPartialSubRep "" Catalog.initial).2.assembly

/-! ### Scenarios -/

/-- On the catalog of `repoMarkerFrame`, with empty maps: the marker-frame node 3 is selected
and the collection is materialized. -/
def materializeMarkerFrame : Option (Selection × Lifecycle × List OutputSlot) :=
  (selectNodeId treeMarkerFrame 3 ⟨[], []⟩).bind (fun sel =>
    (getVtkPartitionedDatasSetCollection repoMarkerFrame treeMarkerFrame 0 sel
      (Lifecycle.initial Catalog.initial)).map (fun r => (sel, r)))

/-- On the catalog of `repoOneTrajectory`, with empty maps: the completion node 3 is selected
and the collection is materialized. -/
def materializeCompletion : Option (Selection × Lifecycle × List OutputSlot) :=
  (selectNodeId treeOneTrajectory 3 ⟨[], []⟩).bind (fun sel =>
    (getVtkPartitionedDatasSetCollection repoOneTrajectory treeOneTrajectory 0 sel
      (Lifecycle.initial Catalog.initial)).map (fun r => (sel, r)))

/-- After `materializeCompletion`: the selection is cleared and the collection is materialized
again. -/
def materializeCompletionThenClear : Option (Selection × Lifecycle × List OutputSlot) :=
  materializeCompletion.bind (fun r =>
    (getVtkPartitionedDatasSetCollection repoOneTrajectory treeOneTrajectory 0
      (clearSelection r.1) r.2.1).map (fun r2 => (clearSelection r.1, r2)))

/-- On the catalog of `repoSeries`, with empty maps: the grid (node 1) and the grouped
time-series node (node 4) are selected, the collection is materialized at the time index `T1`,
the selection is cleared, the same nodes are selected again, and the collection is
materialized at `T2`. -/
def seriesSwitch (T1 T2 : Nat) : Option (Selection × Lifecycle × List OutputSlot) :=
  (selectNodeIds catalogSeries.assembly [1, 4] ⟨[], []⟩).bind (fun sel1 =>
    (getVtkPartitionedDatasSetCollection repoSeries catalogSeries.assembly T1 sel1
      (Lifecycle.initial catalogSeries)).bind (fun r1 =>
      (selectNodeIds catalogSeries.assembly [1, 4] (clearSelection sel1)).bind (fun sel2 =>
        (getVtkPartitionedDatasSetCollection repoSeries catalogSeries.assembly T2 sel2
          r1.1).map (fun r2 => (sel2, r2)))))

/-- The arrays attached to the converter stored under a node id. -/
def attachedArrays (node : Int) (s : Lifecycle) : Option (List String) :=
  (mapAt node s.cache.nodeIdToMapper).map (fun m => m.dataArrays)

/-! ## The terms of the time-series grouping -/

/-- One node of a document as a row: its id, its name, its attributes and the id of its
parent. -/
structure Row where
  id : Int
  name : String
  attrs : List (String × AttrValue)
  parent : Int
  deriving DecidableEq, Repr

/-- The rows of a forest in document order; `p` is the id of the parent of the top-level
nodes. -/
def Forest.rows (p : Int) : Forest → List Row
  | Forest.nil => []
  | Forest.node i n a c s => ⟨i, n, a, p⟩ :: (Forest.rows i c ++ Forest.rows p s)

/-- The row of a node after `SetAttribute(i, k, v)`: the row of node `i` gets the value, the
others stay. -/
def Forest.setRow (i : Int) (k : String) (v : AttrValue) (r : Row) : Row :=
  if r.id = i then { r with attrs := Forest.setAttrList k v r.attrs } else r

/-- The rows of an assembly; the root has the parent `-1`. -/
def vtkDataAssembly.rows (t : vtkDataAssembly) : List Row :=
  t.doc.rows (-1)

/-- The properties `getPropertySet()` gives for a time series, none when the call raises. -/
def TimeSeries.properties (ts : TimeSeries) : List TimeSeriesProperty :=
  match ts.propertySet with
  | Except.ok l => l
  | Except.error _ => []

/-- The node `searchTimeSeries` looks up for a property. -/
def propertyNode (t : vtkDataAssembly) (p : TimeSeriesProperty) : Int :=
  t.FindFirstNodeWithName ("_" ++ p.uuid)

/-- A supported property (continuous or discrete) that has a parented node in the tree. -/
def groupable (t : vtkDataAssembly) (p : TimeSeriesProperty) : Bool :=
  (p.xmlTag = ContinuousProperty_XML_TAG || p.xmlTag = DiscreteProperty_XML_TAG) &&
  propertyNode t p != -1 && t.GetParent (propertyNode t p) != -1

/-- The plugin state in which `buildDataAssemblyFromDataObjectRepo` calls `searchTimeSeries`
when no wellbore is in the repository: the representations and their properties have their
nodes. -/
def catalogBeforeGrouping (repository : DataObjectRepository) : Catalog :=
  { Catalog.initial with
    assembly := (searchRepresentationsAll (allReps repository) "" Catalog.initial.assembly).2 }

/-- The row of a grouped node as `searchTimeSeries` leaves it: the two attributes `label` and
`type`, the type being `TimeSeries`. -/
def GroupedRow (r : Row) : Prop :=
  ∃ label : String, r.attrs =
    [("label", AttrValue.text label), ("type", AttrValue.kind TreeViewNodeType.TimeSeries)]

/-- How a tree `t` reached in the middle of the grouping pass relates to the tree `t0` the pass
started from: the rows of `t` are the rows of `t0` without those of the nodes `removed`, and
the rows `added` of the grouped nodes, whose ids are new, whose parents had a child in `t0` and
whose names are new and distinct. -/
def GroupingInv (t0 t : vtkDataAssembly) (removed : List Int) (added : List Row) : Prop :=
  t.wf ∧ t0.MaxUniqueId ≤ t.MaxUniqueId ∧
  t.rows.Perm (t0.rows.filter (fun r => decide (r.id ∉ removed)) ++ added) ∧
  (∀ r ∈ added, t0.MaxUniqueId < r.id ∧ (∃ r0 ∈ t0.rows, r0.parent = r.parent) ∧
    GroupedRow r ∧ r.name ∉ t0.doc.names) ∧
  (added.map (fun r => r.name)).Nodup ∧
  (∀ n ∈ removed, ∃ r0 ∈ t0.rows, r0.id = n ∧ r0.parent ≠ -1)

/-- A repository like `repoSeries` in which the time stamp lookup of the second property of
the series raises. -/
def repoStampRaises : DataObjectRepository :=
  { emptyRepository with
    horizonGrid2dRepresentationSet :=
      [{ uuid := "g1", title := "Top", xmlTag := "Grid2dRepresentation", isPartial := false,
         kind := RepKind.Grid2d,
         valuesPropertySet := Except.ok
           [{ uuid := "p0", title := "Poro", xmlTag := "ContinuousProperty" },
            { uuid := "p1", title := "Poro", xmlTag := "ContinuousProperty" }],
         subRepresentationSet := Except.ok [] }]
    timeSeriesSet := Except.ok
      [{ uuid := "ts", xmlTag := "TimeSeries",
         propertySet := Except.ok
           [{ uuid := "p0", title := "Poro", xmlTag := "ContinuousProperty",
              timestampIndex := Except.ok 0 },
            { uuid := "p1", title := "Poro", xmlTag := "ContinuousProperty",
              timestampIndex := Except.error "no such time stamp" }] }] }

/-! ## Sequences of calls -/

/-- A call on the selection tracker: `selectNodeId(node)` or `clearSelection()`. -/
inductive SelectionCall where
  | select (node : Int)
  | clear
  deriving DecidableEq, Repr

/-- A sequence of calls on the selection tracker over a fixed tree, first to last. -/
def runSelection (t : vtkDataAssembly) : List SelectionCall → Selection → Option Selection
  | [], s => some s
  | SelectionCall.select node :: rest, s =>
    (selectNodeId t node s).bind (fun s2 => runSelection t rest s2)
  | SelectionCall.clear :: rest, s => runSelection t rest (clearSelection s)

/-- Every `selectNodeId` of the sequence is given the id of a node of the tree. -/
def selectsNodesOf (t : vtkDataAssembly) (calls : List SelectionCall) : Bool :=
  calls.all (fun call =>
    match call with
    | SelectionCall.select node => decide (node ∈ t.doc.ids)
    | SelectionCall.clear => true)

/-- A call on the plugin: `buildDataAssemblyFromDataObjectRepo(fileName)` over the repository
as it is at that time, or a call on the selection tracker. -/
inductive PluginCall where
  | build (repository : DataObjectRepository) (fileName : String)
  | selection (call : SelectionCall)

/-- A sequence of calls on the plugin, first to last; a build that raises leaves the tree as
it was when the exception left the function. -/
def runCalls : List PluginCall → Catalog × Selection → Option (Catalog × Selection)
  | [], st => some st
  | PluginCall.build repository fileName :: rest, st =>
    runCalls rest ((buildDataAssemblyFromDataObjectRepo repository fileName st.1).2, st.2)
  | PluginCall.selection (SelectionCall.select node) :: rest, st =>
    (selectNodeId st.1.assembly node st.2).bind (fun s2 => runCalls rest (st.1, s2))
  | PluginCall.selection SelectionCall.clear :: rest, st =>
    runCalls rest (st.1, clearSelection st.2)

/-- The names `searchTimeSeries` looks up during a build over the repository: an underscore
followed by the uuid, for every property of every time series. -/
def seriesPropertyNames (repository : DataObjectRepository) : List String :=
  (okList repository.timeSeriesSet).flatMap
    (fun ts => ts.properties.map (fun p => "_" ++ p.uuid))

/-- The nodes of the tree that have one of the given names, each with its descendants. -/
def namedSubtrees (t : vtkDataAssembly) (names : List String) : List Int :=
  (t.rows.filter (fun r => decide (r.name ∈ names))).flatMap
    (fun r => r.id :: t.GetChildNodes r.id true)

/-- A node that is clear of the given names in the tree `t0`: no node with one of these names
is the node itself or one of its ancestors. -/
def ClearOf (names : List String) (t0 : vtkDataAssembly) (x : Int) : Prop :=
  ∀ a ∈ t0.rows, a.name ∈ names → a.id ≠ x ∧ ¬ IsAncestor t0 a.id x

/-- The tree `t` keeps the nodes of the tree `t0` that are clear of the given names: both
trees are well formed and such a node of `t0` is a node of `t`, with its name and its
parent. -/
def vtkDataAssembly.keeps (t : vtkDataAssembly) (names : List String)
    (t0 : vtkDataAssembly) : Prop :=
  t0.wf ∧ t.wf ∧ ∀ r ∈ t0.rows, ClearOf names t0 r.id →
    ∃ r2 ∈ t.rows, r2.id = r.id ∧ r2.name = r.name ∧ r2.parent = r.parent

/-- The condition on a sequence of calls: every `selectNodeId` is given the id of a node the
tree has at that time, and at every build no id of the two selection sets is the id of a node
named after a property of a time series of the repository that is built, or of a descendant
of such a node, in the tree as it is before the build. Nothing is asked of a call that does
not return: the calls behind it are not looked at. -/
def safeCalls : List PluginCall → Catalog × Selection → Bool
  | [], _ => true
  | PluginCall.build repository fileName :: rest, st =>
    decide (∀ i ∈ st.2.currentSelection ++ st.2.oldSelection,
      i ∉ namedSubtrees st.1.assembly (seriesPropertyNames repository)) &&
    safeCalls rest ((buildDataAssemblyFromDataObjectRepo repository fileName st.1).2, st.2)
  | PluginCall.selection (SelectionCall.select node) :: rest, st =>
    decide (node ∈ st.1.assembly.doc.ids) &&
    (match selectNodeId st.1.assembly node st.2 with
      | some s2 => safeCalls rest (st.1, s2)
      | none => true)
  | PluginCall.selection SelectionCall.clear :: rest, st =>
    safeCalls rest (st.1, clearSelection st.2)

/-- The time indices `searchTimeSeries` records while it visits the time series: for every
series, in turn, those of its supported properties that have a parented node in the tree as
it is when the series is visited. -/
def recordedTimes (fileName : String) : List TimeSeries → Catalog → String → List Nat
  | [], _, _ => []
  | ts :: rest, c, msg =>
    (ts.properties.filter (groupable c.assembly)).filterMap
        (fun p => p.timestampIndex.toOption) ++
      recordedTimes fileName rest (searchTimeSeriesOne fileName ts c msg).2
        (searchTimeSeriesOne fileName ts c msg).1

/-- A repository with two trajectories: the first has a frame `f1` whose
`getValuesPropertySet` raises, and the completion `c1`; the second, `t2`, belongs to the
wellbore `w2`. -/
def repoFrameRaises : DataObjectRepository :=
  { emptyRepository with
    wellboreTrajectoryRepresentationSet :=
      [{ uuid := "t1", title := "Traj", xmlTag := "WellboreTrajectoryRepresentation",
         isPartial := false, representationSetRepresentationSet := RsrList.nil,
         wellbore := sampleWellbore,
         wellboreFrameRepresentationSet :=
           [{ uuid := "f1", title := "Log", xmlTag := "WellboreFrameRepresentation",
              isMarkerFrame := false, valuesPropertySet := Except.error "no property",
              wellboreMarkerSet := [] }] },
       { uuid := "t2", title := "Traj2", xmlTag := "WellboreTrajectoryRepresentation",
         isPartial := false, representationSetRepresentationSet := RsrList.nil,
         wellbore := { uuid := "w2", title := "Well2", isWellboreFeature := true,
                       witsmlWellbore := none },
         wellboreFrameRepresentationSet := [] }] }

/-- A repository with two 2D grids: `getValuesPropertySet` raises for the first, `g1`; the
second, `g2`, has one property. -/
def repoPropertiesRaise : DataObjectRepository :=
  { emptyRepository with
    horizonGrid2dRepresentationSet :=
      [{ uuid := "g1", title := "A", xmlTag := "Grid2dRepresentation", isPartial := false,
         kind := RepKind.Grid2d, valuesPropertySet := Except.error "no property",
         subRepresentationSet := Except.ok [] },
       { uuid := "g2", title := "B", xmlTag := "Grid2dRepresentation", isPartial := false,
         kind := RepKind.Grid2d,
         valuesPropertySet := Except.ok
           [{ uuid := "p0", title := "Poro", xmlTag := "ContinuousProperty" }],
         subRepresentationSet := Except.ok [] }] }

/-- A repository whose time series lists four properties with the time indices 2, 0, 2 and 7;
the first three are properties of the grid `g1`, the last one, `px`, has no node. -/
def repoTimes : DataObjectRepository :=
  { emptyRepository with
    horizonGrid2dRepresentationSet :=
      [{ uuid := "g1", title := "Top", xmlTag := "Grid2dRepresentation", isPartial := false,
         kind := RepKind.Grid2d,
         valuesPropertySet := Except.ok
           [{ uuid := "p0", title := "Poro", xmlTag := "ContinuousProperty" },
            { uuid := "p1", title := "Poro", xmlTag := "ContinuousProperty" },
            { uuid := "p2", title := "Poro", xmlTag := "ContinuousProperty" }],
         subRepresentationSet := Except.ok [] }]
    timeSeriesSet := Except.ok
      [{ uuid := "ts", xmlTag := "TimeSeries",
         propertySet := Except.ok
           [{ uuid := "p0", title := "Poro", xmlTag := "ContinuousProperty",
              timestampIndex := Except.ok 2 },
            { uuid := "p1", title := "Poro", xmlTag := "ContinuousProperty",
              timestampIndex := Except.ok 0 },
            { uuid := "p2", title := "Poro", xmlTag := "ContinuousProperty",
              timestampIndex := Except.ok 2 },
            { uuid := "px", title := "Poro", xmlTag := "ContinuousProperty",
              timestampIndex := Except.ok 7 }] }] }

/-- A repository with two 2D grids and no time series: `g1` has the properties `p0` and `p1`,
`g2` has none. -/
def repoTwoGrids : DataObjectRepository :=
  { emptyRepository with
    horizonGrid2dRepresentationSet :=
      [{ uuid := "g1", title := "A", xmlTag := "Grid2dRepresentation", isPartial := false,
         kind := RepKind.Grid2d,
         valuesPropertySet := Except.ok
           [{ uuid := "p0", title := "Poro", xmlTag := "ContinuousProperty" },
            { uuid := "p1", title := "Poro", xmlTag := "ContinuousProperty" }],
         subRepresentationSet := Except.ok [] },
       { uuid := "g2", title := "B", xmlTag := "Grid2dRepresentation", isPartial := false,
         kind := RepKind.Grid2d, valuesPropertySet := Except.ok [],
         subRepresentationSet := Except.ok [] }] }

/-- The repository `repoTwoGrids` with a time series of the two properties of `g1`. -/
def repoTwoGridsSeries : DataObjectRepository :=
  { repoTwoGrids with
    timeSeriesSet := Except.ok
      [{ uuid := "ts", xmlTag := "TimeSeries",
         propertySet := Except.ok
           [{ uuid := "p0", title := "Poro", xmlTag := "ContinuousProperty",
              timestampIndex := Except.ok 0 },
            { uuid := "p1", title := "Poro", xmlTag := "ContinuousProperty",
              timestampIndex := Except.ok 1 }] }] }

/-! ## Name sanitizer: proofs -/

theorem getD_lt_of_pairwise (a : List Char) (hs : a.Pairwise (· < ·)) (d : Char) (i j : Nat)
    (hij : i < j) (hj : j < a.length) : a.getD i d < a.getD j d := by
  have hi : i < a.length := lt_trans hij hj
  rw [List.getD_eq_getElem _ _ hi, List.getD_eq_getElem _ _ hj]
  exact (List.pairwise_iff_getElem.mp hs) i j hi hj hij

theorem lower_bound_loop_spec (a : List Char) (val : Char) (hs : a.Pairwise (· < ·)) :
    ∀ (fuel first len : Nat), len ≤ fuel → first + len ≤ a.length →
      (∀ i, i < first → a.getD i (Char.ofNat 0) < val) →
      (∀ i, first + len ≤ i → i < a.length → ¬ a.getD i (Char.ofNat 0) < val) →
      lower_bound_loop a val fuel first len ≤ a.length ∧
      (∀ i, i < lower_bound_loop a val fuel first len → a.getD i (Char.ofNat 0) < val) ∧
      (∀ i, lower_bound_loop a val fuel first len ≤ i → i < a.length →
        ¬ a.getD i (Char.ofNat 0) < val) := by
  intro fuel
  induction fuel with
  | zero =>
    intro first len hlen hbound hlo hhi
    have h0 : len = 0 := by omega
    subst h0
    simp only [lower_bound_loop]
    exact ⟨by omega, hlo, fun i hi => hhi i (by omega)⟩
  | succ fuel ih =>
    intro first len hlen hbound hlo hhi
    simp only [lower_bound_loop]
    by_cases hpos : 0 < len
    · rw [if_pos hpos]
      by_cases hmid : a.getD (first + len / 2) (Char.ofNat 0) < val
      · rw [if_pos hmid]
        have hhalf : len / 2 < len := Nat.div_lt_self hpos (by decide)
        apply ih
        · omega
        · omega
        · intro i hi
          rcases Nat.lt_or_ge i (first + len / 2) with h | h
          · exact lt_trans (getD_lt_of_pairwise a hs _ i _ h (by omega)) hmid
          · have : i = first + len / 2 := by omega
            rw [this]; exact hmid
        · intro i hi hil
          exact hhi i (by omega) hil
      · rw [if_neg hmid]
        have hhalf : len / 2 < len := Nat.div_lt_self hpos (by decide)
        apply ih
        · omega
        · omega
        · exact hlo
        · intro i hi hil hlt
          rcases Nat.eq_or_lt_of_le hi with h | h
          · rw [← h] at hlt; exact hmid hlt
          · exact hmid (lt_trans (getD_lt_of_pairwise a hs _ _ i h hil) hlt)
    · rw [if_neg hpos]
      have h0 : len = 0 := by omega
      subst h0
      exact ⟨by omega, hlo, fun i hi => hhi i (by omega)⟩

theorem binary_search_eq_mem (a : List Char) (hs : a.Pairwise (· < ·)) (val : Char) :
    binary_search a val = decide (val ∈ a) := by
  have hspec := lower_bound_loop_spec a val hs a.length 0 a.length (le_refl _) (by omega)
    (fun i hi => absurd hi (Nat.not_lt_zero i)) (fun i hi hil => absurd hil (by omega))
  obtain ⟨hle, hlo, hhi⟩ := hspec
  have hiff : binary_search a val = true ↔ val ∈ a := by
    unfold binary_search lower_bound
    simp only [Bool.and_eq_true, decide_eq_true_eq, Bool.not_eq_true', decide_eq_false_iff_not]
    constructor
    · rintro ⟨hne, hnlt⟩
      have hr : lower_bound_loop a val a.length 0 a.length < a.length := lt_of_le_of_ne hle hne
      have hge := hhi _ (le_refl _) hr
      have heq : a.getD (lower_bound_loop a val a.length 0 a.length) (Char.ofNat 0) = val :=
        le_antisymm (not_lt.mp hnlt) (not_lt.mp hge)
      rw [← heq, List.getD_eq_getElem _ _ hr]
      exact List.getElem_mem _
    · intro hmem
      obtain ⟨j, hj, hjv⟩ := List.getElem_of_mem hmem
      have hjD : a.getD j (Char.ofNat 0) = val := by rw [List.getD_eq_getElem _ _ hj]; exact hjv
      have hrj : lower_bound_loop a val a.length 0 a.length ≤ j := by
        by_contra hcon
        have := hlo j (by omega)
        rw [hjD] at this
        exact lt_irrefl _ this
      have hr : lower_bound_loop a val a.length 0 a.length < a.length := lt_of_le_of_lt hrj hj
      refine ⟨by omega, ?_⟩
      rcases Nat.eq_or_lt_of_le hrj with h | h
      · rw [h, hjD]; exact lt_irrefl _
      · have := getD_lt_of_pairwise a hs (Char.ofNat 0) _ j h hj
        rw [hjD] at this
        exact absurd this (hhi _ (le_refl _) hr)
  by_cases h : val ∈ a
  · rw [hiff.mpr h]; simp [h]
  · have : binary_search a val = false := by
      cases hb : binary_search a val
      · rfl
      · exact absurd (hiff.mp hb) h
    rw [this]; simp [h]

theorem sorted_valid_chars_pairwise : sorted_valid_chars.Pairwise (· < ·) := by
  unfold sorted_valid_chars
  decide


theorem char_le_toNat (c d : Char) : c ≤ d ↔ c.toNat ≤ d.toNat := by
  rw [Char.le_def]; exact Iff.rfl

theorem isNameChar_toNat_lt (c : Char) (h : isNameChar c = true) : c.toNat < 128 := by
  unfold isNameChar at h
  simp only [Bool.or_eq_true, Bool.and_eq_true, decide_eq_true_eq, beq_iff_eq] at h
  rcases h with ((((⟨_, h⟩ | ⟨_, h⟩) | ⟨_, h⟩) | h) | h) | h
  · have := (char_le_toNat _ _).mp h; exact lt_of_le_of_lt this (by decide)
  · have := (char_le_toNat _ _).mp h; exact lt_of_le_of_lt this (by decide)
  · have := (char_le_toNat _ _).mp h; exact lt_of_le_of_lt this (by decide)
  · subst h; decide
  · subst h; decide
  · subst h; decide

theorem isNameChar_ascii : ∀ n, n < 128 →
    (isNameChar (Char.ofNat n) = true → Char.ofNat n ∈ sorted_valid_chars) := by
  decide

theorem mem_sorted_valid_chars (c : Char) : c ∈ sorted_valid_chars ↔ isNameChar c = true := by
  constructor
  · revert c
    unfold sorted_valid_chars
    decide
  · intro h
    have := isNameChar_ascii c.toNat (isNameChar_toNat_lt c h)
    rw [Char.ofNat_toNat] at this
    exact this h

theorem binary_search_sorted_valid_chars (c : Char) :
    binary_search sorted_valid_chars c = isNameChar c := by
  rw [binary_search_eq_mem _ sorted_valid_chars_pairwise]
  cases h : isNameChar c
  · simp only [decide_eq_false_iff_not]
    intro hm; rw [(mem_sorted_valid_chars c).mp hm] at h; exact Bool.noConfusion h
  · simp only [decide_eq_true_eq]
    exact (mem_sorted_valid_chars c).mpr h


theorem foldl_append_filter (p : Char → Bool) (l acc : List Char) :
    l.foldl (fun result c => if p c then result ++ [c] else result) acc = acc ++ l.filter p := by
  induction l generalizing acc with
  | nil => simp
  | cons x xs ih =>
    simp only [List.foldl_cons, List.filter_cons]
    rw [ih]
    cases p x <;> simp

theorem MakeValidNodeName_loop_eq (name : List Char) :
    MakeValidNodeName_loop name = name.filter isNameChar := by
  unfold MakeValidNodeName_loop
  have hfun : (fun (result : List Char) (c : Char) =>
      if binary_search sorted_valid_chars c then result ++ [c] else result) =
      (fun result c => if isNameChar c then result ++ [c] else result) := by
    funext result c
    rw [binary_search_sorted_valid_chars]
  rw [hfun, foldl_append_filter]
  simp

theorem badFirstChar_eq (c : Char) : badFirstChar c = !isNameStart c := by
  unfold badFirstChar isNameStart
  by_cases h1 : 'A' ≤ c <;> by_cases h2 : c ≤ 'Z' <;> by_cases h3 : 'a' ≤ c <;>
    by_cases h4 : c ≤ 'z' <;> by_cases h5 : c = '_' <;>
    simp [bne, h1, h2, h3, h4, h5, not_lt.mpr, not_le.mp, lt_of_not_le]

theorem isNameChar_of_isNameStart (c : Char) (h : isNameStart c = true) : isNameChar c = true := by
  unfold isNameStart at h
  unfold isNameChar
  simp only [Bool.or_eq_true] at h ⊢
  rcases h with (h | h) | h
  · exact Or.inl (Or.inl (Or.inl (Or.inl (Or.inl h))))
  · exact Or.inl (Or.inl (Or.inl (Or.inl (Or.inr h))))
  · exact Or.inl (Or.inl (Or.inr h))

theorem MakeValidNodeName_eq_spec (s : String) :
    MakeValidNodeName s = if s = "" then "" else specNodeName s := by
  unfold MakeValidNodeName specNodeName filterNameChars
  by_cases hs : s.data = []
  · have : s = "" := String.ext hs
    simp [this]
  · have hne : s ≠ "" := fun h => hs (by rw [h])
    rw [if_neg hs, if_neg hne, MakeValidNodeName_loop_eq]
    cases hf : s.data.filter isNameChar with
    | nil => rfl
    | cons c rest =>
      simp only [badFirstChar_eq]
      cases isNameStart c <;> simp

/-- C1 (as stated) fails on the empty string: the function returns the empty string where
the claim announces an underscore. -/
theorem C1_counterexample :
    MakeValidNodeName "" = "" ∧ specNodeName "" = "_" ∧ MakeValidNodeName "" ≠ specNodeName "" := by
  decide

/-- C1 (amended): for every non-empty input `s`, `MakeValidNodeName(s)` is the filtered form
`f(s)` when `f(s)` starts with an ASCII letter or an underscore and an underscore followed by
`f(s)` otherwise (also when `f(s)` is empty); the empty input gives the empty string. -/
theorem C1_MakeValidNodeName_amended (s : String) :
    MakeValidNodeName s = if s = "" then "" else specNodeName s :=
  MakeValidNodeName_eq_spec s

/-- Every character of `MakeValidNodeName(s)` is in `[A-Za-z0-9_.-]` and, when the result is
not empty, its first character is an ASCII letter or an underscore. -/
theorem MakeValidNodeName_chars (s : String) :
    (∀ c ∈ (MakeValidNodeName s).data, isNameChar c = true) ∧
    (∀ c rest, (MakeValidNodeName s).data = c :: rest → isNameStart c = true) := by
  rw [MakeValidNodeName_eq_spec]
  by_cases hs : s = ""
  · rw [if_pos hs]
    exact ⟨fun c hc => by simp at hc, fun c rest h => by simp at h⟩
  · rw [if_neg hs]
    unfold specNodeName filterNameChars
    cases hf : s.data.filter isNameChar with
    | nil =>
      refine ⟨fun c hc => ?_, fun c rest h => ?_⟩
      · have : c = '_' := by simpa using hc
        subst this; decide
      · have : c = '_' := by
          have h2 : ("_" ++ String.mk []).data = c :: rest := h
          simp at h2
          exact h2.1.symm
        subst this; decide
    | cons x rest =>
      have hall : ∀ c ∈ x :: rest, isNameChar c = true := by
        intro c hc
        rw [← hf] at hc
        exact (List.mem_filter.mp hc).2
      cases hx : isNameStart x
      · refine ⟨fun c hc => ?_, fun c r h => ?_⟩
        · have hc2 : c ∈ '_' :: x :: rest := by simpa [hx] using hc
          rcases List.mem_cons.mp hc2 with h | h
          · subst h; decide
          · exact hall c h
        · have h2 : '_' :: x :: rest = c :: r := by simpa [hx] using h
          have : c = '_' := by injection h2 with h3 _; exact h3.symm
          subst this; decide
      · refine ⟨fun c hc => hall c (by simpa [hx] using hc), fun c r h => ?_⟩
        have h2 : x :: rest = c :: r := by simpa [hx] using h
        have : c = x := by injection h2 with h3 _; exact h3.symm
        subst this; exact hx



/-- C2, as stated, fails: the results on the empty string and on `dataset` are not names the
tree accepts. `MakeValidNodeName` gives the empty string and `dataset` back; `IsNodeNameValid`
refuses both, the empty name and the reserved name, and `AddNode` returns `-1` for them. -/
theorem C2_counterexample :
    MakeValidNodeName "" = "" ∧ vtkDataAssembly.IsNodeNameValid (MakeValidNodeName "") = false ∧
    (Catalog.initial.assembly.AddNode (MakeValidNodeName "") 0).1 = -1 ∧
    MakeValidNodeName "dataset" = "dataset" ∧
    vtkDataAssembly.IsNodeNameValid (MakeValidNodeName "dataset") = false ∧
    (Catalog.initial.assembly.AddNode (MakeValidNodeName "dataset") 0).1 = -1 := by
  decide

/-- C2 (amended): every character of `MakeValidNodeName(s)` is in `[A-Za-z0-9_.-]` and, when
the result is not empty, its first character is an ASCII letter or an underscore; the result
is empty for the empty input only; and it is a name the tree accepts (`IsNodeNameValid`)
exactly when it is neither empty nor the reserved name `dataset`. -/
theorem C2_valid (s : String) :
    (∀ c ∈ (MakeValidNodeName s).data, isNameChar c = true) ∧
    (∀ c rest, (MakeValidNodeName s).data = c :: rest → isNameStart c = true) ∧
    (MakeValidNodeName s = "" ↔ s = "") ∧
    (vtkDataAssembly.IsNodeNameValid (MakeValidNodeName s) = true ↔
      (MakeValidNodeName s ≠ "" ∧ MakeValidNodeName s ≠ "dataset")) := by
  obtain ⟨h1, h2⟩ := MakeValidNodeName_chars s
  refine ⟨h1, h2, ?_, ?_⟩
  · constructor
    · intro h
      by_contra hs
      rw [MakeValidNodeName_eq_spec, if_neg hs] at h
      unfold specNodeName at h
      have hd := congrArg String.data h
      split at hd
      · simp at hd
      · split at hd
        · rename_i c rest heq _
          rw [heq] at hd
          simp at hd
        · simp at hd
    · intro h
      rw [h]
      decide
  · unfold vtkDataAssembly.IsNodeNameValid
    cases hN : (MakeValidNodeName s).data with
    | nil =>
      have : MakeValidNodeName s = "" := String.ext hN
      simp [this]
    | cons c rest =>
      have hne : MakeValidNodeName s ≠ "" := by
        intro e
        rw [e] at hN
        simp at hN
      have hstart := h2 c rest hN
      have hall : (c :: rest).all isNameChar = true := by
        rw [List.all_eq_true]
        intro x hx
        exact h1 x (by rw [hN]; exact hx)
      simp only [hstart, hall, Bool.and_true, decide_eq_true_eq]
      exact ⟨fun h => ⟨hne, h⟩, fun h => h.2⟩
/-! ## Sets of node ids: proofs -/

theorem mem_setInsert (a x : Int) (s : List Int) : a ∈ setInsert x s ↔ a = x ∨ a ∈ s := by
  induction s with
  | nil => simp [setInsert]
  | cons y ys ih =>
    unfold setInsert
    by_cases h1 : x < y
    · rw [if_pos h1]; simp
    · rw [if_neg h1]
      by_cases h2 : x = y
      · rw [if_pos h2]; subst h2; simp
      · rw [if_neg h2, List.mem_cons, ih, List.mem_cons]
        constructor
        · rintro (h | h | h)
          · exact Or.inr (Or.inl h)
          · exact Or.inl h
          · exact Or.inr (Or.inr h)
        · rintro (h | h | h)
          · exact Or.inr (Or.inl h)
          · exact Or.inl h
          · exact Or.inr (Or.inr h)

theorem mem_setErase (a x : Int) (s : List Int) : a ∈ setErase x s ↔ a ∈ s ∧ a ≠ x := by
  unfold setErase
  simp [List.mem_filter]

/-! ## Selection tracker: proofs -/

theorem Marked.refl (s : Selection) : Marked s s [] :=
  ⟨fun x => by simp, fun x => by simp⟩

theorem Marked.mark (s : Selection) (n : Int) : Marked s (s.mark n) [n] := by
  refine ⟨fun x => ?_, fun x => ?_⟩
  · simp only [Selection.mark, mem_setInsert, List.mem_singleton]
    exact Or.comm
  · simp only [Selection.mark, mem_setErase, List.mem_singleton]

theorem Marked.trans {s1 s2 s3 : Selection} {D1 D2 : List Int}
    (h1 : Marked s1 s2 D1) (h2 : Marked s2 s3 D2) : Marked s1 s3 (D1 ++ D2) := by
  refine ⟨fun x => ?_, fun x => ?_⟩
  · rw [h2.1, h1.1, List.mem_append, or_assoc]
  · rw [h2.2, h1.2, List.mem_append, not_or, and_assoc]

theorem Marked.congr {s1 s2 : Selection} {D1 D2 : List Int}
    (h : Marked s1 s2 D1) (hD : ∀ x, x ∈ D1 ↔ x ∈ D2) : Marked s1 s2 D2 :=
  ⟨fun x => by rw [h.1, hD], fun x => by rw [h.2, hD]⟩

/-! ## Catalog tree: structural lemmas -/

namespace Forest

theorem subtreeOf_isSome_iff (i : Int) (f : Forest) : (∃ g, subtreeOf i f = some g) ↔ i ∈ ids f := by
  induction f with
  | nil => simp [subtreeOf, ids]
  | node j n a c s ihc ihs =>
    simp only [subtreeOf, ids, List.mem_cons, List.mem_append]
    by_cases hj : j = i
    · simp [hj]
    · rw [if_neg hj]
      cases hc : subtreeOf i c with
      | some r =>
        have : i ∈ ids c := ihc.mp ⟨r, hc⟩
        simp [this]
      | none =>
        have hnc : i ∉ ids c := fun h => by
          obtain ⟨g, hg⟩ := ihc.mpr h
          rw [hc] at hg; exact Option.noConfusion hg
        simp only [ihs]
        constructor
        · intro h; exact Or.inr (Or.inr h)
        · rintro (h | h | h)
          · exact absurd h.symm hj
          · exact absurd h hnc
          · exact h

theorem subtreeOf_eq_none_iff (i : Int) (f : Forest) : subtreeOf i f = none ↔ i ∉ ids f := by
  rw [← subtreeOf_isSome_iff]
  cases subtreeOf i f <;> simp

theorem subtreeOf_ids_subset (i : Int) (f g : Forest) (h : subtreeOf i f = some g) :
    ∀ x, x ∈ ids g → x ∈ ids f := by
  induction f with
  | nil => simp [subtreeOf] at h
  | node j n a c s ihc ihs =>
    intro x hx
    simp only [subtreeOf] at h
    simp only [ids, List.mem_cons, List.mem_append]
    by_cases hj : j = i
    · rw [if_pos hj] at h
      injection h with h; subst h
      exact Or.inr (Or.inl hx)
    · rw [if_neg hj] at h
      cases hc : subtreeOf i c with
      | some r =>
        rw [hc] at h
        injection h with h; subst h
        exact Or.inr (Or.inl (ihc hc x hx))
      | none =>
        rw [hc] at h
        exact Or.inr (Or.inr (ihs h x hx))

theorem subtreeOf_size_lt (i : Int) (f g : Forest) (h : subtreeOf i f = some g) :
    size g < size f := by
  induction f with
  | nil => simp [subtreeOf] at h
  | node j n a c s ihc ihs =>
    simp only [subtreeOf] at h
    simp only [size]
    by_cases hj : j = i
    · rw [if_pos hj] at h
      injection h with h; subst h
      omega
    · rw [if_neg hj] at h
      cases hc : subtreeOf i c with
      | some r =>
        rw [hc] at h
        injection h with h; subst h
        have := ihc hc; omega
      | none =>
        rw [hc] at h
        have := ihs h; omega

theorem length_ids (f : Forest) : (ids f).length = size f := by
  induction f with
  | nil => rfl
  | node j n a c s ihc ihs =>
    simp only [ids, size, List.length_cons, List.length_append, ihc, ihs]

/-- In a forest without repeated ids, looking a node of a subtree up in the whole forest or in
the subtree gives the same children. -/
theorem subtreeOf_subtreeOf (f : Forest) (hnd : (ids f).Nodup) (n : Int) (g : Forest)
    (h : subtreeOf n f = some g) (c : Int) (hc : c ∈ ids g) :
    subtreeOf c f = subtreeOf c g := by
  induction f with
  | nil => simp [subtreeOf] at h
  | node j nm a c0 s ihc ihs =>
    simp only [ids] at hnd
    obtain ⟨hj, hcs⟩ := List.nodup_cons.mp hnd
    obtain ⟨hndc, hnds, hdisj⟩ := List.nodup_append.mp hcs
    simp only [List.mem_append, not_or] at hj
    simp only [subtreeOf] at h
    by_cases hjn : j = n
    · rw [if_pos hjn] at h
      injection h with h; subst h
      have hjc : j ≠ c := fun e => hj.1 (e ▸ hc)
      obtain ⟨r, hr⟩ := (subtreeOf_isSome_iff c c0).mpr hc
      simp only [subtreeOf, if_neg hjc, hr]
    · rw [if_neg hjn] at h
      cases hc0 : subtreeOf n c0 with
      | some r =>
        rw [hc0] at h
        injection h with h; subst h
        have hcc0 : c ∈ ids c0 := subtreeOf_ids_subset n c0 r hc0 c hc
        have hjc : j ≠ c := fun e => hj.1 (e ▸ hcc0)
        obtain ⟨r2, hr2⟩ := (subtreeOf_isSome_iff c c0).mpr hcc0
        simp only [subtreeOf, if_neg hjc, hr2]
        rw [← hr2]
        exact ihc hndc hc0
      | none =>
        rw [hc0] at h
        have hcs2 : c ∈ ids s := subtreeOf_ids_subset n s g h c hc
        have hjc : j ≠ c := fun e => hj.2 (e ▸ hcs2)
        have hcn : subtreeOf c c0 = none :=
          (subtreeOf_eq_none_iff c c0).mpr (fun hin => hdisj hin hcs2)
        simp only [subtreeOf, if_neg hjc, hcn]
        exact ihs hnds h

theorem parentOf_some_mem (i p r : Int) (f : Forest) (h : parentOf i p f = some r) :
    i ∈ ids f ∧ (r = p ∨ r ∈ ids f) := by
  induction f generalizing p with
  | nil => simp [parentOf] at h
  | node j n a c s ihc ihs =>
    simp only [parentOf] at h
    simp only [ids, List.mem_cons, List.mem_append]
    by_cases hj : j = i
    · rw [if_pos hj] at h
      injection h with h
      exact ⟨Or.inl hj.symm, Or.inl h.symm⟩
    · rw [if_neg hj] at h
      cases hc : parentOf i j c with
      | some r2 =>
        rw [hc] at h
        injection h with h; subst h
        obtain ⟨h1, h2⟩ := ihc j hc
        refine ⟨Or.inr (Or.inl h1), Or.inr ?_⟩
        rcases h2 with h2 | h2
        · exact Or.inl h2
        · exact Or.inr (Or.inl h2)
      | none =>
        rw [hc] at h
        obtain ⟨h1, h2⟩ := ihs p h
        refine ⟨Or.inr (Or.inr h1), ?_⟩
        rcases h2 with h2 | h2
        · exact Or.inl h2
        · exact Or.inr (Or.inr (Or.inr h2))

theorem parentOf_eq_none_iff (i p : Int) (f : Forest) : parentOf i p f = none ↔ i ∉ ids f := by
  induction f generalizing p with
  | nil => simp [parentOf, ids]
  | node j n a c s ihc ihs =>
    simp only [parentOf, ids, List.mem_cons, List.mem_append, not_or]
    by_cases hj : j = i
    · simp [hj]
    · rw [if_neg hj]
      cases hc : parentOf i j c with
      | some r2 =>
        have := (parentOf_some_mem i j r2 c hc).1
        simp [this]
      | none =>
        have hnc := (ihc j).mp hc
        simp only [ihs]
        exact ⟨fun h => ⟨fun e => hj e.symm, hnc, h⟩, fun h => h.2.2⟩

/-- In a forest without repeated ids the parent found for `d` has `d` in its subtree. -/
theorem parentOf_subtreeOf (f : Forest) (hnd : (ids f).Nodup) (q : Int) (hq : q ∉ ids f)
    (d n : Int) (h : parentOf d q f = some n) (hn : n ≠ q) :
    ∃ g, subtreeOf n f = some g ∧ d ∈ ids g := by
  induction f generalizing q with
  | nil => simp [parentOf] at h
  | node j nm a c s ihc ihs =>
    simp only [ids] at hnd hq
    obtain ⟨hj, hcs⟩ := List.nodup_cons.mp hnd
    obtain ⟨hndc, hnds, hdisj⟩ := List.nodup_append.mp hcs
    simp only [List.mem_append, not_or] at hj
    simp only [List.mem_cons, List.mem_append, not_or] at hq
    simp only [parentOf] at h
    by_cases hjd : j = d
    · rw [if_pos hjd] at h
      injection h with h
      exact absurd h.symm hn
    · rw [if_neg hjd] at h
      cases hc : parentOf d j c with
      | some r =>
        rw [hc] at h
        injection h with h; subst h
        by_cases hjr : j = r
        · refine ⟨c, ?_, (parentOf_some_mem d j r c hc).1⟩
          simp only [subtreeOf, if_pos hjr]
        · obtain ⟨g, hg, hdg⟩ := ihc hndc j hj.1 hc (fun e => hjr e.symm)
          refine ⟨g, ?_, hdg⟩
          simp only [subtreeOf, if_neg hjr, hg]
      | none =>
        rw [hc] at h
        obtain ⟨g, hg, hdg⟩ := ihs hnds q hq.2.2 h hn
        have hns : n ∈ ids s := (subtreeOf_isSome_iff n s).mp ⟨g, hg⟩
        have hjn : j ≠ n := fun e => hj.2 (e ▸ hns)
        have hnc : subtreeOf n c = none :=
          (subtreeOf_eq_none_iff n c).mpr (fun hin => hdisj hin hns)
        refine ⟨g, ?_, hdg⟩
        simp only [subtreeOf, if_neg hjn, hnc, hg]

/-- The parent found for a node stands before it in document order. -/
theorem parentOf_indexOf_lt (f : Forest) (q : Int) (d n : Int) (h : parentOf d q f = some n)
    (hn : n ≠ q) : List.indexOf n (ids f) < List.indexOf d (ids f) := by
  induction f generalizing q with
  | nil => simp [parentOf] at h
  | node j nm a c s ihc ihs =>
    simp only [parentOf] at h
    simp only [ids]
    by_cases hjd : j = d
    · rw [if_pos hjd] at h
      injection h with h
      exact absurd h.symm hn
    · rw [if_neg hjd] at h
      have hdj : d ≠ j := fun e => hjd e.symm
      rw [List.indexOf_cons_ne _ hjd]
      cases hc : parentOf d j c with
      | some r =>
        rw [hc] at h
        injection h with h; subst h
        have hdc := (parentOf_some_mem d j r c hc).1
        by_cases hjr : j = r
        · subst hjr
          rw [List.indexOf_cons_self]
          omega
        · rw [List.indexOf_cons_ne _ hjr]
          have hlt := ihc j hc (fun e => hjr e.symm)
          have hrc : r ∈ ids c := by
            rcases (parentOf_some_mem d j r c hc).2 with h2 | h2
            · exact absurd h2.symm hjr
            · exact h2
          rw [List.indexOf_append_of_mem hrc, List.indexOf_append_of_mem hdc]
          omega
      | none =>
        rw [hc] at h
        have hdnc : d ∉ ids c := (parentOf_eq_none_iff d j c).mp hc
        have hlt := ihs q h hn
        rw [List.indexOf_append_of_not_mem hdnc]
        have hle : List.indexOf n (j :: (ids c ++ ids s)) ≤ (ids c).length + List.indexOf n (ids s) + 1 := by
          by_cases hjr : j = n
          · subst hjr; rw [List.indexOf_cons_self]; omega
          · rw [List.indexOf_cons_ne _ hjr]
            by_cases hnc : n ∈ ids c
            · rw [List.indexOf_append_of_mem hnc]
              have := List.indexOf_lt_length.mpr hnc
              omega
            · rw [List.indexOf_append_of_not_mem hnc]
        omega

end Forest
/-! ## Catalog tree: the operations keep the tree well formed -/

namespace Forest

theorem ids_append (new f : Forest) : (append new f).ids = f.ids ++ new.ids := by
  induction f with
  | nil => simp [append, ids]
  | node j n a c s _ ihs => simp [append, ids, ihs]

theorem addChild_ids_perm (p : Int) (new f f2 : Forest) (h : addChild p new f = some f2) :
    f2.ids.Perm (f.ids ++ new.ids) := by
  induction f generalizing f2 with
  | nil => simp [addChild] at h
  | node j n a c s ihc ihs =>
    simp only [addChild] at h
    by_cases hj : j = p
    · rw [if_pos hj] at h
      injection h with h
      subst h
      simp only [ids, ids_append, List.cons_append, List.append_assoc]
      exact List.Perm.cons _ (List.Perm.append_left _ List.perm_append_comm)
    · rw [if_neg hj] at h
      cases hc : addChild p new c with
      | some c2 =>
        rw [hc] at h
        injection h with h
        subst h
        have := ihc c2 hc
        simp only [ids, List.cons_append, List.append_assoc]
        refine List.Perm.cons _ ?_
        refine (List.Perm.append_right _ this).trans ?_
        rw [List.append_assoc]
        exact List.Perm.append_left _ List.perm_append_comm
      | none =>
        rw [hc] at h
        cases hs : addChild p new s with
        | some s2 =>
          rw [hs] at h
          injection h with h
          subst h
          have := ihs s2 hs
          simp only [ids, List.cons_append, List.append_assoc]
          exact List.Perm.cons _ (List.Perm.append_left _ this)
        | none => rw [hs] at h; exact Option.noConfusion h

theorem remove_ids_sublist (i : Int) (f f2 : Forest) (h : remove i f = some f2) :
    f2.ids.Sublist f.ids := by
  induction f generalizing f2 with
  | nil => simp [remove] at h
  | node j n a c s ihc ihs =>
    simp only [remove] at h
    by_cases hj : j = i
    · rw [if_pos hj] at h
      injection h with h
      subst h
      simp only [ids]
      exact List.Sublist.cons _ (List.sublist_append_right _ _)
    · rw [if_neg hj] at h
      cases hc : remove i c with
      | some c2 =>
        rw [hc] at h
        injection h with h
        subst h
        simp only [ids]
        exact List.Sublist.cons₂ _ (List.Sublist.append (ihc c2 hc) (List.Sublist.refl _))
      | none =>
        rw [hc] at h
        cases hs : remove i s with
        | some s2 =>
          rw [hs] at h
          injection h with h
          subst h
          simp only [ids]
          exact List.Sublist.cons₂ _ (List.Sublist.append (List.Sublist.refl _) (ihs s2 hs))
        | none => rw [hs] at h; exact Option.noConfusion h

theorem setAttr_ids (i : Int) (k : String) (v : AttrValue) (f f2 : Forest)
    (h : setAttr i k v f = some f2) : f2.ids = f.ids := by
  induction f generalizing f2 with
  | nil => simp [setAttr] at h
  | node j n a c s ihc ihs =>
    simp only [setAttr] at h
    by_cases hj : j = i
    · rw [if_pos hj] at h
      injection h with h
      subst h
      rfl
    · rw [if_neg hj] at h
      cases hc : setAttr i k v c with
      | some c2 =>
        rw [hc] at h
        injection h with h
        subst h
        simp only [ids, ihc c2 hc]
      | none =>
        rw [hc] at h
        cases hs : setAttr i k v s with
        | some s2 =>
          rw [hs] at h
          injection h with h
          subst h
          simp only [ids, ihs s2 hs]
        | none => rw [hs] at h; exact Option.noConfusion h

end Forest

open vtkDataAssembly

theorem rooted_iff (t : vtkDataAssembly) :
    t.rooted = true ↔ ∃ n a c, t.doc = Forest.node 0 n a c Forest.nil := by
  unfold rooted
  cases hd : t.doc with
  | nil => simp
  | node i n a c s =>
    cases s with
    | nil =>
      simp only [decide_eq_true_eq]
      constructor
      · intro h; subst h; exact ⟨n, a, c, rfl⟩
      · rintro ⟨n2, a2, c2, h⟩
        injection h
    | node _ _ _ _ _ =>
      simp only [Bool.false_eq_true, false_iff, not_exists]
      intro n2 a2 c2 h
      injection h with _ _ _ _ h5
      exact Forest.noConfusion h5

/-- The assembly VTK creates is well formed. -/
theorem wf_New (rootName : String) : (New rootName).wf := by
  refine ⟨rfl, ?_, ?_⟩
  · simp [New, Forest.ids]
  · intro i hi
    have : i = 0 := by simpa [New, Forest.ids] using hi
    subst this
    simp [New]

/-- `AddNode` keeps an assembly well formed. -/
theorem wf_AddNode (t : vtkDataAssembly) (hwf : t.wf) (name : String) (parent : Int) :
    (t.AddNode name parent).2.wf := by
  unfold AddNode
  by_cases hv : IsNodeNameValid name = true
  · rw [if_pos hv]
    cases hadd : Forest.addChild parent
        (Forest.node (t.MaxUniqueId + 1) name [] Forest.nil Forest.nil) t.doc with
    | none => exact hwf
    | some d =>
      have hperm := Forest.addChild_ids_perm _ _ _ _ hadd
      simp only [Forest.ids, List.append_nil] at hperm
      obtain ⟨hr, hnd, hb⟩ := hwf
      obtain ⟨n, a, c, hdoc⟩ := (rooted_iff t).mp hr
      have h0 : (0 : Int) ∈ t.doc.ids := by rw [hdoc]; simp [Forest.ids]
      have hM : 0 ≤ t.MaxUniqueId := (hb 0 h0).2
      refine ⟨?_, ?_, ?_⟩
      · apply (rooted_iff _).mpr
        rw [hdoc] at hadd
        simp only [Forest.addChild] at hadd
        by_cases hp : (0 : Int) = parent
        · rw [if_pos hp] at hadd
          injection hadd with hadd
          exact ⟨_, _, _, hadd.symm⟩
        · rw [if_neg hp] at hadd
          cases hc : Forest.addChild parent
              (Forest.node (t.MaxUniqueId + 1) name [] Forest.nil Forest.nil) c with
          | some c2 =>
            rw [hc] at hadd
            injection hadd with hadd
            exact ⟨_, _, _, hadd.symm⟩
          | none =>
            rw [hc] at hadd
            simp [Forest.addChild] at hadd
      · show d.ids.Nodup
        rw [hperm.nodup_iff]
        rw [List.nodup_append]
        refine ⟨hnd, by simp, ?_⟩
        intro x hx hx2
        have : x = t.MaxUniqueId + 1 := by simpa using hx2
        have := (hb x hx).2
        omega
      · intro i hi
        have hi2 : i ∈ t.doc.ids ++ [t.MaxUniqueId + 1] := hperm.mem_iff.mp hi
        show 0 ≤ i ∧ i ≤ t.MaxUniqueId + 1
        rcases List.mem_append.mp hi2 with h | h
        · have := hb i h
          omega
        · have : i = t.MaxUniqueId + 1 := by simpa using h
          omega
  · rw [if_neg hv]
    exact hwf

/-- `SetAttribute` keeps an assembly well formed. -/
theorem wf_SetAttribute (t : vtkDataAssembly) (hwf : t.wf) (id : Int) (name : String)
    (value : AttrValue) : (t.SetAttribute id name value).wf := by
  unfold SetAttribute
  cases hs : t.doc.setAttr id name value with
  | none => exact hwf
  | some d =>
    have hids := Forest.setAttr_ids _ _ _ _ _ hs
    obtain ⟨hr, hnd, hb⟩ := hwf
    obtain ⟨n, a, c, hdoc⟩ := (rooted_iff t).mp hr
    refine ⟨?_, ?_, ?_⟩
    · apply (rooted_iff _).mpr
      rw [hdoc] at hs
      simp only [Forest.setAttr] at hs
      by_cases hp : (0 : Int) = id
      · rw [if_pos hp] at hs
        injection hs with hs
        exact ⟨_, _, _, hs.symm⟩
      · rw [if_neg hp] at hs
        cases hc : Forest.setAttr id name value c with
        | some c2 =>
          rw [hc] at hs
          injection hs with hs
          exact ⟨_, _, _, hs.symm⟩
        | none =>
          rw [hc] at hs
          simp [Forest.setAttr] at hs
    · show d.ids.Nodup
      rw [hids]; exact hnd
    · intro i hi
      have hi2 : i ∈ d.ids := hi
      rw [hids] at hi2
      exact hb i hi2

/-- `RemoveNode` keeps an assembly well formed. -/
theorem wf_RemoveNode (t : vtkDataAssembly) (hwf : t.wf) (id : Int) : (t.RemoveNode id).2.wf := by
  unfold RemoveNode
  by_cases h0 : id = 0
  · rw [if_pos h0]; exact hwf
  · rw [if_neg h0]
    cases hs : t.doc.remove id with
    | none => exact hwf
    | some d =>
      have hsub := Forest.remove_ids_sublist _ _ _ hs
      obtain ⟨hr, hnd, hb⟩ := hwf
      obtain ⟨n, a, c, hdoc⟩ := (rooted_iff t).mp hr
      refine ⟨?_, ?_, ?_⟩
      · apply (rooted_iff _).mpr
        rw [hdoc] at hs
        simp only [Forest.remove] at hs
        have hp : ¬ (0 : Int) = id := fun e => h0 e.symm
        rw [if_neg hp] at hs
        cases hc : Forest.remove id c with
        | some c2 =>
          rw [hc] at hs
          injection hs with hs
          exact ⟨_, _, _, hs.symm⟩
        | none =>
          rw [hc] at hs
          simp [Forest.remove] at hs
      · exact hnd.sublist hsub
      · intro i hi
        exact hb i (hsub.subset hi)

/-! ## Catalog builder: every run leaves a well-formed tree -/

theorem wf_setLabelAndType (t : vtkDataAssembly) (hwf : t.wf) (id : Int) (label : String)
    (ty : TreeViewNodeType) : (setLabelAndType t id label ty).wf :=
  wf_SetAttribute _ (wf_SetAttribute _ hwf _ _ _) _ _ _

theorem wf_searchPropertiesLoop (node_parent : Int) (l : List Property) :
    ∀ t : vtkDataAssembly, t.wf → (searchPropertiesLoop node_parent l t).wf := by
  induction l with
  | nil => intro t h; exact h
  | cons p rest ih =>
    intro t h
    simp only [searchPropertiesLoop]
    split
    · exact ih _ (wf_setLabelAndType _ (wf_AddNode _ h _ _) _ _ _)
    · exact ih _ h

theorem wf_searchProperties (r : AbstractRepresentation) (node_parent : Int) (t : vtkDataAssembly)
    (h : t.wf) : (searchProperties r node_parent t).2.wf := by
  unfold searchProperties
  split
  · exact wf_searchPropertiesLoop _ _ _ h
  · exact h

theorem wf_searchRepresentationsNode (r : AbstractRepresentation) (idNode : Int)
    (t : vtkDataAssembly) (h : t.wf) (res : Int × vtkDataAssembly)
    (hres : searchRepresentationsNode r idNode t = Except.ok res) : res.2.wf := by
  unfold searchRepresentationsNode at hres
  by_cases hp : r.isPartial = true
  · rw [if_pos hp] at hres
    by_cases hf : t.FindFirstNodeWithName ("_" ++ r.uuid) = -1
    · rw [if_pos hf] at hres
      exact Except.noConfusion hres
    · rw [if_neg hf] at hres
      injection hres with hres; subst hres; exact h
  · rw [if_neg hp] at hres
    dsimp only at hres
    by_cases hf : t.FindFirstNodeWithName ("_" ++ r.uuid) = -1
    · rw [if_pos hf] at hres
      injection hres with hres; subst hres
      exact wf_setLabelAndType _ (wf_AddNode _ h _ _) _ _ _
    · rw [if_neg hf] at hres
      injection hres with hres; subst hres; exact h

theorem wf_searchRepresentationsOfSub (r : AbstractRepresentation) (idNode : Int)
    (t : vtkDataAssembly) (h : t.wf) : (searchRepresentationsOfSub r idNode t).2.wf := by
  unfold searchRepresentationsOfSub
  split
  · exact h
  · next res hres => exact wf_searchProperties _ _ _ (wf_searchRepresentationsNode _ _ _ h _ hres)

theorem wf_searchSubRepresentationLoop (parent : Int) (l : List AbstractRepresentation) :
    ∀ (message : String) (t : vtkDataAssembly), t.wf →
      (searchSubRepresentationLoop parent l message t).2.wf := by
  induction l with
  | nil => intro m t h; exact h
  | cons b rest ih =>
    intro m t h
    simp only [searchSubRepresentationLoop]
    exact ih _ _ (wf_searchRepresentationsOfSub _ _ _ h)

theorem wf_searchSubRepresentation (r : Representation) (node_parent : Int) (t : vtkDataAssembly)
    (h : t.wf) : (searchSubRepresentation r node_parent t).2.wf := by
  unfold searchSubRepresentation
  split
  · exact wf_searchSubRepresentationLoop _ _ _ _ h
  · exact h

theorem wf_searchRepresentations (r : Representation) (idNode : Int) (t : vtkDataAssembly)
    (h : t.wf) : (searchRepresentations r idNode t).2.wf := by
  unfold searchRepresentations
  split
  · exact h
  · next res hres =>
    have h1 := wf_searchRepresentationsNode _ _ _ h _ hres
    apply wf_searchProperties
    split
    · exact wf_searchSubRepresentation _ _ _ h1
    · exact h1

theorem wf_searchRepresentationsAll (l : List Representation) :
    ∀ (message : String) (t : vtkDataAssembly), t.wf →
      (searchRepresentationsAll l message t).2.wf := by
  induction l with
  | nil => intro m t h; exact h
  | cons b rest ih =>
    intro m t h
    simp only [searchRepresentationsAll]
    exact ih _ _ (wf_searchRepresentations _ _ _ h)

theorem wf_searchRepresentationSetRepresentation (l : RsrList) :
    ∀ (idNode : Int) (t : vtkDataAssembly), t.wf →
      (searchRepresentationSetRepresentation l idNode t).2.wf := by
  induction l with
  | nil => intro i t h; exact h
  | cons uuid title parents tail ihp iht =>
    intro i t h
    simp only [searchRepresentationSetRepresentation]
    apply iht
    split
    · split
      · exact wf_setLabelAndType _ (wf_AddNode _ (ihp _ _ h) _ _) _ _ _
      · exact ihp _ _ h
    · exact h

theorem wf_frameChannelsLoop (frame_idNode idNode : Int) (l : List Property) :
    ∀ t : vtkDataAssembly, t.wf → (frameChannelsLoop frame_idNode idNode l t).wf := by
  induction l with
  | nil => intro t h; exact h
  | cons p rest ih =>
    intro t h
    simp only [frameChannelsLoop]
    exact ih _ (wf_SetAttribute _ (wf_SetAttribute _ (wf_SetAttribute _ (wf_AddNode _ h _ _)
      _ _ _) _ _ _) _ _ _)

theorem wf_frameMarkersLoop (markerFrame_idNode idNode : Int) (l : List WellboreMarker) :
    ∀ t : vtkDataAssembly, t.wf → (frameMarkersLoop markerFrame_idNode idNode l t).wf := by
  induction l with
  | nil => intro t h; exact h
  | cons p rest ih =>
    intro t h
    simp only [frameMarkersLoop]
    exact ih _ (wf_SetAttribute _ (wf_SetAttribute _ (wf_SetAttribute _ (wf_AddNode _ h _ _)
      _ _ _) _ _ _) _ _ _)

theorem wf_wellboreFramesLoop (idNodeInit idNode : Int) (l : List WellboreFrameRepresentation) :
    ∀ t : vtkDataAssembly, t.wf → (wellboreFramesLoop idNodeInit idNode l t).2.wf := by
  induction l with
  | nil => intro t h; exact h
  | cons f rest ih =>
    intro t h
    simp only [wellboreFramesLoop]
    have h2 := wf_SetAttribute _ (wf_SetAttribute _ (wf_AddNode t h ("_" ++ f.uuid) idNodeInit)
      (t.AddNode ("_" ++ f.uuid) idNodeInit).1 "label"
      (AttrValue.text (MakeValidNodeName (SimplifyXmlTag f.xmlTag ++ "_" ++ f.title))))
      (t.AddNode ("_" ++ f.uuid) idNodeInit).1 "traj" (AttrValue.int idNode)
    split
    · split
      · exact ih _ (wf_frameMarkersLoop _ _ _ _ (wf_SetAttribute _ h2 _ _ _))
      · split
        · exact wf_SetAttribute _ h2 _ _ _
        · exact ih _ (wf_frameChannelsLoop _ _ _ _ (wf_SetAttribute _ h2 _ _ _))
    · exact ih _ h

theorem wf_perforationsLoop (completionUuid : String) (idNode_completion : Int)
    (l : List PerforationConnection) :
    ∀ t : vtkDataAssembly, t.wf → (perforationsLoop completionUuid idNode_completion l t).wf := by
  induction l with
  | nil => intro t h; exact h
  | cons p rest ih =>
    intro t h
    simp only [perforationsLoop]
    exact ih _ (wf_SetAttribute _ (wf_SetAttribute _ (wf_SetAttribute _ (wf_SetAttribute _
      (wf_SetAttribute _ (wf_SetAttribute _ (wf_AddNode _ h _ _) _ _ _) _ _ _) _ _ _) _ _ _)
      _ _ _) _ _ _)

theorem wf_completionsLoop (idNodeInit : Int) (l : List WellboreCompletion) :
    ∀ t : vtkDataAssembly, t.wf → (completionsLoop idNodeInit l t).wf := by
  induction l with
  | nil => intro t h; exact h
  | cons p rest ih =>
    intro t h
    simp only [completionsLoop]
    exact ih _ (wf_perforationsLoop _ _ _ _ (wf_setLabelAndType _ (wf_AddNode _ h _ _) _ _ _))

theorem wf_rsrFold (l : List RsrList) :
    ∀ (acc : Int × vtkDataAssembly), acc.2.wf →
      (l.foldl (fun acc rsr => searchRepresentationSetRepresentation rsr 0 acc.2) acc).2.wf := by
  induction l with
  | nil => intro acc h; exact h
  | cons r rest ih =>
    intro acc h
    simp only [List.foldl_cons]
    exact ih _ (wf_searchRepresentationSetRepresentation _ _ _ h)

theorem wf_trajectoryNode (w : WellboreTrajectoryRepresentation) (t : vtkDataAssembly)
    (h : t.wf) : (trajectoryNode w t).2.2.wf := by
  unfold trajectoryNode
  have h0 := wf_rsrFold w.representationSetRepresentationSet.items (0, t) h
  by_cases hf : t.FindFirstNodeWithName ("_" ++ w.uuid) = -1
  · rw [if_pos hf]
    dsimp only
    generalize (w.representationSetRepresentationSet.items.foldl
      (fun acc rsr => searchRepresentationSetRepresentation rsr 0 acc.2) (0, t)) = r0 at h0 ⊢
    by_cases hw : r0.2.FindFirstNodeWithName ("_" ++ w.wellbore.uuid) = -1
    · simp only [hw, if_true]
      have h1 := wf_setLabelAndType _ (wf_AddNode _ h0 ("_" ++ w.wellbore.uuid) r0.1)
        (r0.2.AddNode ("_" ++ w.wellbore.uuid) r0.1).1
        ("Wellbore_" ++ MakeValidNodeName w.wellbore.title) TreeViewNodeType.Wellbore
      by_cases hp : w.isPartial = true
      · simp only [hp, if_true]
        split
        · exact h1
        · exact h1
      · simp only [hp]
        exact wf_setLabelAndType _ (wf_AddNode _ h1 _ _) _ _ _
    · simp only [hw, if_false]
      by_cases hp : w.isPartial = true
      · simp only [hp, if_true]
        split
        · exact h0
        · exact h0
      · simp only [hp]
        exact wf_setLabelAndType _ (wf_AddNode _ h0 _ _) _ _ _
  · rw [if_neg hf]
    exact h

theorem wf_searchWellboreTrajectoryLoop (l : List WellboreTrajectoryRepresentation) :
    ∀ (result : String) (t : vtkDataAssembly), t.wf →
      (searchWellboreTrajectoryLoop l result t).2.wf := by
  induction l with
  | nil => intro r t h; exact h
  | cons w rest ih =>
    intro r t h
    simp only [searchWellboreTrajectoryLoop]
    have h1 := wf_trajectoryNode w t h
    rcases htn : trajectoryNode w t with ⟨o, msg, t1⟩
    rw [htn] at h1
    cases o with
    | none => exact ih _ _ h1
    | some ids =>
      simp only
      have h2 := wf_wellboreFramesLoop ids.1 ids.2 w.wellboreFrameRepresentationSet t1 h1
      rcases hfl : wellboreFramesLoop ids.1 ids.2 w.wellboreFrameRepresentationSet t1 with ⟨e, t2⟩
      rw [hfl] at h2
      cases e with
      | some e => exact h2
      | none =>
        simp only
        apply ih
        split
        · split
          · exact wf_completionsLoop _ _ _ h2
          · exact h2
        · exact h2

theorem wf_searchWellboreTrajectory (repository : DataObjectRepository) (t : vtkDataAssembly)
    (h : t.wf) : (searchWellboreTrajectory repository t).2.wf :=
  wf_searchWellboreTrajectoryLoop _ _ _ h

theorem wf_removeGroupNodes (l : List Int) :
    ∀ (nodeParent : Int) (t : vtkDataAssembly), t.wf → (removeGroupNodes l nodeParent t).2.wf := by
  induction l with
  | nil => intro p t h; exact h
  | cons n rest ih =>
    intro p t h
    simp only [removeGroupNodes]
    exact ih _ _ (wf_RemoveNode _ h _)

theorem wf_groupLoop (seriesUuid seriesXmlTag : String) (l : List (String × List Int)) :
    ∀ t : vtkDataAssembly, t.wf → (groupLoop seriesUuid seriesXmlTag l t).wf := by
  induction l with
  | nil => intro t h; exact h
  | cons n rest ih =>
    intro t h
    simp only [groupLoop]
    exact ih _ (wf_setLabelAndType _ (wf_AddNode _ (wf_removeGroupNodes _ _ _ h) _ _) _ _ _)

theorem wf_searchTimeSeriesOne (fileName : String) (ts : TimeSeries) (c : Catalog)
    (return_message : String) (h : c.assembly.wf) :
    (searchTimeSeriesOne fileName ts c return_message).2.assembly.wf := by
  unfold searchTimeSeriesOne
  dsimp only
  split
  · exact h
  · split
    · exact h
    · exact wf_groupLoop _ _ _ _ h

theorem wf_searchTimeSeriesLoop (fileName : String) (l : List TimeSeries) :
    ∀ (c : Catalog) (return_message : String), c.assembly.wf →
      (searchTimeSeriesLoop fileName l c return_message).2.assembly.wf := by
  induction l with
  | nil => intro c m h; exact h
  | cons ts rest ih =>
    intro c m h
    simp only [searchTimeSeriesLoop]
    exact ih _ _ (wf_searchTimeSeriesOne _ _ _ _ h)

theorem wf_searchTimeSeries (repository : DataObjectRepository) (fileName : String) (c : Catalog)
    (h : c.assembly.wf) : (searchTimeSeries repository fileName c).2.assembly.wf := by
  unfold searchTimeSeries
  dsimp only
  split
  · exact h
  · exact wf_searchTimeSeriesLoop _ _ _ _ h

/-- Every run of the builder on a well-formed tree leaves a well-formed tree, also when an
exception ends it. -/
theorem wf_buildDataAssemblyFromDataObjectRepo (repository : DataObjectRepository)
    (fileName : String) (c : Catalog) (h : c.assembly.wf) :
    (buildDataAssemblyFromDataObjectRepo repository fileName c).2.assembly.wf := by
  unfold buildDataAssemblyFromDataObjectRepo
  dsimp only
  have h1 := wf_searchRepresentationsAll (allReps repository) "" c.assembly h
  have h2 := wf_searchWellboreTrajectory repository _ h1
  rcases hsw : searchWellboreTrajectory repository
      (searchRepresentationsAll (allReps repository) "" c.assembly).2 with ⟨e, t2⟩
  rw [hsw] at h2
  cases e with
  | error e => exact h2
  | ok msg => exact wf_searchTimeSeries _ _ _ h2

/-- The tree of a new plugin is well formed. -/
theorem wf_Catalog_initial : Catalog.initial.assembly.wf :=
  wf_New "data"

/-! ## Selection tracker: what one call marks -/

theorem GetParent_indexOf_lt (t : vtkDataAssembly) (n : Int) (h : t.GetParent n > 0) :
    List.indexOf (t.GetParent n) t.doc.ids < List.indexOf n t.doc.ids := by
  unfold GetParent at h ⊢
  cases hp : t.doc.parentOf n (-1) with
  | none => rw [hp] at h; simp at h
  | some r =>
    rw [hp] at h
    simp only [Option.getD_some] at h ⊢
    exact Forest.parentOf_indexOf_lt t.doc (-1) n r hp (by omega)

theorem selectNodeIdParent_marked (t : vtkDataAssembly) :
    ∀ (fuel : Nat) (node : Int) (s : Selection), List.indexOf node t.doc.ids < fuel →
      ∃ s2, selectNodeIdParent t fuel node s = some s2 ∧ Marked s s2 (ancestorsUpTo t fuel node) := by
  intro fuel
  induction fuel with
  | zero => intro node s h; omega
  | succ fuel ih =>
    intro node s h
    simp only [selectNodeIdParent, ancestorsUpTo]
    by_cases hp : t.GetParent node > 0
    · rw [if_pos hp, if_pos hp]
      have hlt := GetParent_indexOf_lt t node hp
      obtain ⟨s2, hs2, hm⟩ := ih (t.GetParent node) (s.mark (t.GetParent node)) (by omega)
      exact ⟨s2, hs2, (Marked.mark s _).trans hm⟩
    · rw [if_neg hp, if_neg hp]
      exact ⟨s, rfl, Marked.refl s⟩

theorem indexOf_lt_size_succ (t : vtkDataAssembly) (n : Int) :
    List.indexOf n t.doc.ids < t.doc.size + 1 := by
  have := @List.indexOf_le_length _ _ n t.doc.ids
  rw [Forest.length_ids] at this
  omega

/-- A fold of steps that each mark a set of nodes inside `L` marks a set inside `L` that
holds the nodes folded over. -/
theorem foldlM_marked (step : Selection → Int → Option Selection) (L : List Int) :
    ∀ (l : List Int) (s : Selection),
      (∀ c ∈ l, ∀ acc, ∃ acc2 D, step acc c = some acc2 ∧ Marked acc acc2 D ∧ c ∈ D ∧
        ∀ x ∈ D, x ∈ L) →
      ∃ s2 D, l.foldlM step s = some s2 ∧ Marked s s2 D ∧ (∀ x ∈ l, x ∈ D) ∧ ∀ x ∈ D, x ∈ L := by
  intro l
  induction l with
  | nil =>
    intro s _
    exact ⟨s, [], rfl, Marked.refl s, fun x hx => by simp at hx, fun x hx => by simp at hx⟩
  | cons c cs ih =>
    intro s hstep
    obtain ⟨acc2, D1, h1, hm1, hc1, hL1⟩ := hstep c (List.mem_cons_self _ _) s
    obtain ⟨s2, D2, h2, hm2, hcs2, hL2⟩ := ih acc2 (fun c2 hc2 => hstep c2 (List.mem_cons_of_mem _ hc2))
    refine ⟨s2, D1 ++ D2, ?_, hm1.trans hm2, ?_, ?_⟩
    · simp only [List.foldlM_cons, h1]
      exact h2
    · intro x hx
      rcases List.mem_cons.mp hx with h | h
      · subst h; exact List.mem_append_left _ hc1
      · exact List.mem_append_right _ (hcs2 x h)
    · intro x hx
      rcases List.mem_append.mp hx with h | h
      · exact hL1 x h
      · exact hL2 x h

theorem selectNodeIdChildren_marked (t : vtkDataAssembly) (hnd : t.doc.ids.Nodup) :
    ∀ (fuel : Nat) (node : Int) (s : Selection), 0 < fuel →
      (∀ g, t.doc.subtreeOf node = some g → g.size < fuel) →
      ∃ s2, selectNodeIdChildren t fuel node s = some s2 ∧
        Marked s s2 (t.GetChildNodes node true) := by
  intro fuel
  induction fuel with
  | zero => intro node s h; omega
  | succ fuel ih =>
    intro node s _ hsize
    simp only [selectNodeIdChildren]
    cases hsub : t.doc.subtreeOf node with
    | none =>
      simp only [GetChildNodes, hsub]
      exact ⟨s, rfl, Marked.refl s⟩
    | some g =>
      have hg := hsize g hsub
      have hL : t.GetChildNodes node true = g.ids := by simp [GetChildNodes, hsub]
      rw [hL]
      have hstep : ∀ c ∈ g.ids, ∀ acc, ∃ acc2 D,
          selectNodeIdChildren t fuel c (acc.mark c) = some acc2 ∧ Marked acc acc2 D ∧ c ∈ D ∧
            ∀ x ∈ D, x ∈ g.ids := by
        intro c hc acc
        have heq := Forest.subtreeOf_subtreeOf t.doc hnd node g hsub c hc
        obtain ⟨g2, hg2⟩ := (Forest.subtreeOf_isSome_iff c g).mpr hc
        have hg2doc : t.doc.subtreeOf c = some g2 := by rw [heq, hg2]
        have hlt : g2.size < g.size := Forest.subtreeOf_size_lt c g g2 hg2
        have hpos : 0 < g.size := by omega
        obtain ⟨acc2, hacc2, hm⟩ := ih c (acc.mark c) (by omega) (fun g3 hg3 => by
          rw [hg2doc] at hg3; injection hg3 with hg3; subst hg3; omega)
        have hL2 : t.GetChildNodes c true = g2.ids := by simp [GetChildNodes, hg2doc]
        rw [hL2] at hm
        refine ⟨acc2, [c] ++ g2.ids, hacc2, (Marked.mark acc c).trans hm, by simp, ?_⟩
        intro x hx
        rcases List.mem_append.mp hx with h | h
        · have : x = c := by simpa using h
          subst this; exact hc
        · exact Forest.subtreeOf_ids_subset c g g2 hg2 x h
      obtain ⟨s2, D, hs2, hm, hsubD, hDsub⟩ := foldlM_marked _ g.ids g.ids s hstep
      exact ⟨s2, hs2, hm.congr (fun x => ⟨hDsub x, hsubD x⟩)⟩

theorem selectNodeId_marked (t : vtkDataAssembly) (hnd : t.doc.ids.Nodup) (node : Int)
    (s : Selection) : ∃ s2, selectNodeId t node s = some s2 ∧ Marked s s2 (closureOf t node) := by
  have hchildren : ∀ s1 : Selection, ∃ s2, selectNodeIdChildren t (t.doc.size + 1) node s1 = some s2 ∧
      Marked s1 s2 (t.GetChildNodes node true) := by
    intro s1
    apply selectNodeIdChildren_marked t hnd _ node s1 (by omega)
    intro g hg
    have := Forest.subtreeOf_size_lt node t.doc g hg
    omega
  unfold selectNodeId closureOf
  by_cases h0 : node ≠ 0
  · simp only [if_pos h0]
    obtain ⟨s1, hs1, hm1⟩ := selectNodeIdParent_marked t (t.doc.size + 1) node s
      (indexOf_lt_size_succ t node)
    obtain ⟨s2, hs2, hm2⟩ := hchildren (s1.mark node)
    refine ⟨s2, ?_, (hm1.trans (Marked.mark s1 node)).trans hm2⟩
    simp only [hs1, Option.map_some', Option.some_bind, hs2]
  · simp only [if_neg h0]
    obtain ⟨s2, hs2, hm2⟩ := hchildren s
    refine ⟨s2, ?_, ?_⟩
    · simp only [Option.some_bind, hs2]
    · simpa using hm2

theorem selectNodeIds_marked (t : vtkDataAssembly) (hnd : t.doc.ids.Nodup) :
    ∀ (nodes : List Int) (s : Selection), ∃ s2, selectNodeIds t nodes s = some s2 ∧
      Marked s s2 (nodes.flatMap (closureOf t)) := by
  intro nodes
  induction nodes with
  | nil => intro s; exact ⟨s, rfl, Marked.refl s⟩
  | cons n ns ih =>
    intro s
    obtain ⟨s1, hs1, hm1⟩ := selectNodeId_marked t hnd n s
    obtain ⟨s2, hs2, hm2⟩ := ih s1
    refine ⟨s2, ?_, ?_⟩
    · unfold selectNodeIds at hs2 ⊢
      simp only [List.foldlM_cons, hs1]
      exact hs2
    · simpa [List.flatMap_cons] using hm1.trans hm2

theorem wf_neg_one_not_mem (t : vtkDataAssembly) (hwf : t.wf) : (-1 : Int) ∉ t.doc.ids := by
  intro h
  have := (hwf.2.2 (-1) h).1
  omega

theorem GetParent_root (t : vtkDataAssembly) (hwf : t.wf) : t.GetParent 0 = -1 := by
  have hr := hwf.1
  unfold rooted at hr
  unfold GetParent
  cases hd : t.doc with
  | nil => rw [hd] at hr; simp at hr
  | node i n a c s =>
    rw [hd] at hr
    cases s with
    | nil =>
      have hi : i = 0 := by simpa using hr
      subst hi
      simp [Forest.parentOf]
    | node _ _ _ _ _ => simp at hr

theorem GetParent_mem (t : vtkDataAssembly) (n p : Int) (h : t.GetParent n = p) (hp : p ≠ -1) :
    t.doc.parentOf n (-1) = some p ∧ n ∈ t.doc.ids ∧ p ∈ t.doc.ids := by
  unfold GetParent at h
  cases hq : t.doc.parentOf n (-1) with
  | none => rw [hq] at h; simp at h; exact absurd h.symm hp
  | some r =>
    rw [hq] at h
    simp only [Option.getD_some] at h
    subst h
    obtain ⟨h1, h2⟩ := Forest.parentOf_some_mem n (-1) r t.doc hq
    refine ⟨rfl, h1, ?_⟩
    rcases h2 with h2 | h2
    · exact absurd h2 hp
    · exact h2

theorem mem_ancestorsUpTo_of_IsAncestor (t : vtkDataAssembly) (hwf : t.wf) (a n : Int)
    (h : IsAncestor t a n) (ha : a ≠ 0) :
    ∀ fuel, List.indexOf n t.doc.ids < fuel → a ∈ ancestorsUpTo t fuel n := by
  induction h with
  | @parent n p hp hne =>
    intro fuel hf
    cases fuel with
    | zero => omega
    | succ fuel =>
      have hmem := (GetParent_mem t n p hp hne).2.2
      have hpos : t.GetParent n > 0 := by
        have := (hwf.2.2 p hmem).1
        rw [hp]; omega
      have hpos2 : p > 0 := by rw [hp] at hpos; exact hpos
      simp only [ancestorsUpTo, hp, if_pos hpos2]
      exact List.mem_cons_self _ _
  | @step a p n hanc hp hne ih =>
    intro fuel hf
    cases fuel with
    | zero => omega
    | succ fuel =>
      have hmem := (GetParent_mem t n p hp hne).2.2
      have hp0 : p ≠ 0 := by
        intro h0
        subst h0
        have hroot := GetParent_root t hwf
        cases hanc with
        | parent h1 h2 => rw [hroot] at h1; exact h2 h1.symm
        | step _ h1 h2 => rw [hroot] at h1; exact h2 h1.symm
      have hpos : t.GetParent n > 0 := by
        have := (hwf.2.2 p hmem).1
        rw [hp]; omega
      have hlt := GetParent_indexOf_lt t n hpos
      have hpos2 : p > 0 := by rw [hp] at hpos; exact hpos
      simp only [ancestorsUpTo, hp, if_pos hpos2]
      rw [hp] at hlt
      exact List.mem_cons_of_mem _ (ih ha fuel (by omega))

theorem mem_GetChildNodes_of_IsAncestor (t : vtkDataAssembly) (hwf : t.wf) (n d : Int)
    (h : IsAncestor t n d) : d ∈ t.GetChildNodes n true := by
  have hnd := hwf.2.1
  have hneg := wf_neg_one_not_mem t hwf
  induction h with
  | @parent d p hp hne =>
    obtain ⟨hpar, _, _⟩ := GetParent_mem t d p hp hne
    obtain ⟨g, hg, hdg⟩ := Forest.parentOf_subtreeOf t.doc hnd (-1) hneg d p hpar hne
    simp only [GetChildNodes, hg, if_true]
    exact hdg
  | @step a p d hanc hp hne ih =>
    obtain ⟨hpar, _, _⟩ := GetParent_mem t d p hp hne
    obtain ⟨g, hg, hdg⟩ := Forest.parentOf_subtreeOf t.doc hnd (-1) hneg d p hpar hne
    unfold GetChildNodes at ih ⊢
    cases ha : t.doc.subtreeOf a with
    | none => rw [ha] at ih; simp at ih
    | some ga =>
      rw [ha] at ih
      simp only [if_true] at ih ⊢
      have heq := Forest.subtreeOf_subtreeOf t.doc hnd a ga ha p ih
      rw [hg] at heq
      exact Forest.subtreeOf_ids_subset p ga g heq.symm d hdg

theorem ancestorsUpTo_pos (t : vtkDataAssembly) :
    ∀ (fuel : Nat) (n x : Int), x ∈ ancestorsUpTo t fuel n → 0 < x := by
  intro fuel
  induction fuel with
  | zero => intro n x h; simp [ancestorsUpTo] at h
  | succ fuel ih =>
    intro n x h
    simp only [ancestorsUpTo] at h
    by_cases hp : t.GetParent n > 0
    · rw [if_pos hp] at h
      rcases List.mem_cons.mp h with h | h
      · rw [h]; exact hp
      · exact ih _ x h
    · rw [if_neg hp] at h; simp at h

theorem zero_not_mem_GetChildNodes (t : vtkDataAssembly) (hwf : t.wf) (n : Int) :
    (0 : Int) ∉ t.GetChildNodes n true := by
  have hr := hwf.1
  have hnd := hwf.2.1
  unfold rooted at hr
  unfold GetChildNodes
  cases hd : t.doc with
  | nil => simp [Forest.subtreeOf]
  | node i nm a c s =>
    rw [hd] at hr hnd
    cases s with
    | node _ _ _ _ _ => simp at hr
    | nil =>
      have hi : i = 0 := by simpa using hr
      subst hi
      simp only [Forest.ids, List.append_nil] at hnd
      have h0c : (0 : Int) ∉ c.ids := (List.nodup_cons.mp hnd).1
      simp only [Forest.subtreeOf]
      by_cases hn : (0 : Int) = n
      · rw [if_pos hn]; simpa using h0c
      · rw [if_neg hn]
        cases hc : Forest.subtreeOf n c with
        | some r =>
          simp only [if_true]
          exact fun h => h0c (Forest.subtreeOf_ids_subset n c r hc 0 h)
        | none => simp

theorem zero_not_mem_closureOf (t : vtkDataAssembly) (hwf : t.wf) (n : Int) :
    (0 : Int) ∉ closureOf t n := by
  unfold closureOf
  intro h
  rcases List.mem_append.mp h with h | h
  · by_cases hn : n ≠ 0
    · rw [if_pos hn] at h
      rcases List.mem_append.mp h with h | h
      · have := ancestorsUpTo_pos t _ n 0 h; omega
      · have : (0 : Int) = n := by simpa using h
        exact hn this.symm
    · rw [if_neg hn] at h; simp at h
  · exact zero_not_mem_GetChildNodes t hwf n h

namespace Forest

/-- In a forest without repeated ids, the parent of a node of a subtree is the same whether it
is looked up in the whole forest or in the subtree. -/
theorem parentOf_subtreeOf_eq (f : Forest) (hnd : (ids f).Nodup) (p0 n : Int) (g : Forest)
    (h : subtreeOf n f = some g) (x : Int) (hx : x ∈ ids g) :
    parentOf x p0 f = parentOf x n g := by
  induction f generalizing p0 with
  | nil => simp [subtreeOf] at h
  | node j nm a c s ihc ihs =>
    simp only [ids] at hnd
    obtain ⟨hj, hcs⟩ := List.nodup_cons.mp hnd
    obtain ⟨hndc, hnds, hdisj⟩ := List.nodup_append.mp hcs
    simp only [List.mem_append, not_or] at hj
    simp only [subtreeOf] at h
    by_cases hjn : j = n
    · rw [if_pos hjn] at h
      injection h with h; subst h
      have hjx : j ≠ x := fun e => hj.1 (e ▸ hx)
      have hsome : parentOf x j c ≠ none := fun e => (parentOf_eq_none_iff x j c).mp e hx
      simp only [parentOf, if_neg hjx]
      cases hp : parentOf x j c with
      | none => exact absurd hp hsome
      | some r => rw [← hjn, hp]
    · rw [if_neg hjn] at h
      cases hc0 : subtreeOf n c with
      | some r =>
        rw [hc0] at h
        injection h with h; subst h
        have hxc : x ∈ ids c := subtreeOf_ids_subset n c r hc0 x hx
        have hjx : j ≠ x := fun e => hj.1 (e ▸ hxc)
        have hsome : parentOf x j c ≠ none := fun e => (parentOf_eq_none_iff x j c).mp e hxc
        simp only [parentOf, if_neg hjx]
        cases hp : parentOf x j c with
        | none => exact absurd hp hsome
        | some q =>
          have := ihc hndc j hc0
          rw [hp] at this
          exact this
      | none =>
        rw [hc0] at h
        have hxs : x ∈ ids s := subtreeOf_ids_subset n s g h x hx
        have hjx : j ≠ x := fun e => hj.2 (e ▸ hxs)
        have hnone : parentOf x j c = none :=
          (parentOf_eq_none_iff x j c).mpr (fun hin => hdisj hin hxs)
        simp only [parentOf, if_neg hjx, hnone]
        exact ihs hnds p0 h

end Forest

theorem IsAncestor_of_mem_ancestorsUpTo (t : vtkDataAssembly) :
    ∀ (fuel : Nat) (n x : Int), x ∈ ancestorsUpTo t fuel n → IsAncestor t x n := by
  intro fuel
  induction fuel with
  | zero => intro n x h; simp [ancestorsUpTo] at h
  | succ fuel ih =>
    intro n x h
    simp only [ancestorsUpTo] at h
    by_cases hp : t.GetParent n > 0
    · rw [if_pos hp] at h
      have hne : t.GetParent n ≠ -1 := by omega
      rcases List.mem_cons.mp h with h | h
      · rw [h]; exact IsAncestor.parent rfl hne
      · exact IsAncestor.step (ih _ x h) rfl hne
    · rw [if_neg hp] at h; simp at h

theorem IsAncestor_of_mem_GetChildNodes (t : vtkDataAssembly) (hwf : t.wf) (n : Int) :
    ∀ (m : Nat) (x : Int), List.indexOf x t.doc.ids = m → x ∈ t.GetChildNodes n true →
      IsAncestor t n x := by
  have hnd := hwf.2.1
  have hneg := wf_neg_one_not_mem t hwf
  intro m
  induction m using Nat.strong_induction_on with
  | _ m ih =>
    intro x hm hx
    unfold GetChildNodes at hx
    cases hg : t.doc.subtreeOf n with
    | none => rw [hg] at hx; simp at hx
    | some g =>
      rw [hg] at hx
      simp only [if_true] at hx
      have hn : n ∈ t.doc.ids := (Forest.subtreeOf_isSome_iff n t.doc).mp ⟨g, hg⟩
      have hn1 : n ≠ -1 := fun e => hneg (e ▸ hn)
      have heq := Forest.parentOf_subtreeOf_eq t.doc hnd (-1) n g hg x hx
      cases hp : Forest.parentOf x n g with
      | none => exact absurd hx ((Forest.parentOf_eq_none_iff x n g).mp hp)
      | some q =>
        rw [hp] at heq
        have hGP : t.GetParent x = q := by simp [GetParent, heq]
        by_cases hqn : q = n
        · rw [hqn] at hGP
          exact IsAncestor.parent hGP hn1
        · have hqg : q ∈ g.ids := by
            rcases (Forest.parentOf_some_mem x n q g hp).2 with h | h
            · exact absurd h hqn
            · exact h
          have hqdoc : q ∈ t.doc.ids := Forest.subtreeOf_ids_subset n t.doc g hg q hqg
          have hq1 : q ≠ -1 := fun e => hneg (e ▸ hqdoc)
          have hlt := Forest.parentOf_indexOf_lt t.doc (-1) x q heq hq1
          have hchild : q ∈ t.GetChildNodes n true := by
            simp only [GetChildNodes, hg, if_true]; exact hqg
          exact IsAncestor.step (ih _ (by omega) q rfl hchild) hGP hq1

/-- On a well-formed tree, the nodes one call `selectNodeId(n)` marks are `n` itself unless it
is the root, the ancestors of `n` other than the root and the descendants of `n`. -/
theorem mem_closureOf_iff (t : vtkDataAssembly) (hwf : t.wf) (n x : Int) :
    x ∈ closureOf t n ↔
      (x = n ∧ n ≠ 0) ∨ (IsAncestor t x n ∧ x ≠ 0) ∨ IsAncestor t n x := by
  have hroot : ∀ a, ¬ IsAncestor t a 0 := by
    intro a ha
    have hr := GetParent_root t hwf
    cases ha with
    | parent h1 h2 => rw [hr] at h1; exact h2 h1.symm
    | step _ h1 h2 => rw [hr] at h1; exact h2 h1.symm
  constructor
  · intro h
    unfold closureOf at h
    rcases List.mem_append.mp h with h | h
    · by_cases hn : n ≠ 0
      · rw [if_pos hn] at h
        rcases List.mem_append.mp h with h | h
        · have hpos := ancestorsUpTo_pos t _ n x h
          exact Or.inr (Or.inl ⟨IsAncestor_of_mem_ancestorsUpTo t _ n x h, by omega⟩)
        · have : x = n := by simpa using h
          exact Or.inl ⟨this, hn⟩
      · rw [if_neg hn] at h; simp at h
    · exact Or.inr (Or.inr (IsAncestor_of_mem_GetChildNodes t hwf n _ x rfl h))
  · rintro (⟨hx, hn⟩ | ⟨ha, hx0⟩ | hd)
    · unfold closureOf
      rw [if_pos hn, hx]
      simp
    · have hn : n ≠ 0 := fun e => hroot x (e ▸ ha)
      unfold closureOf
      rw [if_pos hn]
      have := mem_ancestorsUpTo_of_IsAncestor t hwf x n ha hx0 _ (indexOf_lt_size_succ t n)
      simp [this]
    · unfold closureOf
      exact List.mem_append_right _ (mem_GetChildNodes_of_IsAncestor t hwf n x hd)

/-- C3 (as stated) fails: the root is an ancestor of node 1 and `selectNodeId(1)` leaves it
out of the current selection. -/
theorem C3_counterexample :
    IsAncestor sampleTree 0 1 ∧
    selectNodeId sampleTree 1 ⟨[], []⟩ = some ⟨[1, 2], []⟩ ∧
    (0 : Int) ∉ ([1, 2] : List Int) := by
  refine ⟨IsAncestor.parent (by decide) (by decide), by decide, by decide⟩

/-- C3 (amended): on a well-formed tree `selectNodeId(N)` returns, and afterwards the current
selection holds every descendant of `N`, every ancestor of `N` except the root and, unless `N`
is the root, `N` itself; the root (id 0) is not added. -/
theorem C3_selection_closure (t : vtkDataAssembly) (hwf : t.wf) (N : Int) (s : Selection) :
    ∃ s2, selectNodeId t N s = some s2 ∧
      (N ≠ 0 → N ∈ s2.currentSelection) ∧
      (∀ a, IsAncestor t a N → a ≠ 0 → a ∈ s2.currentSelection) ∧
      (∀ d, IsAncestor t N d → d ∈ s2.currentSelection) ∧
      ((0 : Int) ∈ s2.currentSelection → (0 : Int) ∈ s.currentSelection) := by
  obtain ⟨s2, hs2, hm⟩ := selectNodeId_marked t hwf.2.1 N s
  refine ⟨s2, hs2, ?_, ?_, ?_, ?_⟩
  · intro hN
    rw [hm.1]
    right
    unfold closureOf
    rw [if_pos hN]
    simp
  · intro a ha ha0
    rw [hm.1]
    right
    have hN : N ≠ 0 := by
      intro h0
      subst h0
      have hroot := GetParent_root t hwf
      cases ha with
      | parent h1 h2 => rw [hroot] at h1; exact h2 h1.symm
      | step _ h1 h2 => rw [hroot] at h1; exact h2 h1.symm
    unfold closureOf
    rw [if_pos hN]
    have := mem_ancestorsUpTo_of_IsAncestor t hwf a N ha ha0 _ (indexOf_lt_size_succ t N)
    simp [this]
  · intro d hd
    rw [hm.1]
    right
    unfold closureOf
    exact List.mem_append_right _ (mem_GetChildNodes_of_IsAncestor t hwf N d hd)
  · intro h0
    rcases (hm.1 0).mp h0 with h | h
    · exact h
    · exact absurd h (zero_not_mem_closureOf t hwf N)

/-- C3 (amended) on `sampleTree`, for node 2. -/
theorem C3_selection_closure_witness :
    sampleTree.wf ∧
    ∃ s2, selectNodeId sampleTree 2 ⟨[], [1, 2, 3]⟩ = some s2 ∧
      ((2 : Int) ≠ 0 → (2 : Int) ∈ s2.currentSelection) ∧
      (∀ a, IsAncestor sampleTree a 2 → a ≠ 0 → a ∈ s2.currentSelection) ∧
      (∀ d, IsAncestor sampleTree 2 d → d ∈ s2.currentSelection) ∧
      ((0 : Int) ∈ s2.currentSelection → (0 : Int) ∈ ([] : List Int)) :=
  ⟨by decide, C3_selection_closure sampleTree (by decide) 2 ⟨[], [1, 2, 3]⟩⟩

/-- C4: on a well-formed tree, `clearSelection()` followed by `selectNodeId(n1)` ...
`selectNodeId(nk)` returns; afterwards the previous selection holds exactly the nodes that were
current before the clear and are not current now, and the current selection holds exactly the
nodes the calls put there: each `ni`, its ancestors and its descendants, the root (id 0) left
out. When the root was not current before the clear (it never is after calls of the plugin),
the previous selection is the old current one minus the `ni`, their ancestors and their
descendants. With no call the previous selection is the old current one and the current is
empty. -/
theorem C4_diff_correctness (t : vtkDataAssembly) (hwf : t.wf) (s : Selection) (nodes : List Int) :
    ∃ s2, selectNodeIds t nodes (clearSelection s) = some s2 ∧
      (∀ x, x ∈ s2.oldSelection ↔ x ∈ s.currentSelection ∧ x ∉ s2.currentSelection) ∧
      (∀ x, x ∈ s2.currentSelection ↔
        ∃ n ∈ nodes, (x = n ∧ n ≠ 0) ∨ (IsAncestor t x n ∧ x ≠ 0) ∨ IsAncestor t n x) ∧
      ((0 : Int) ∉ s.currentSelection → ∀ x, x ∈ s2.oldSelection ↔
        x ∈ s.currentSelection ∧ ¬ ∃ n ∈ nodes, x = n ∨ IsAncestor t x n ∨ IsAncestor t n x) ∧
      (nodes = [] → s2.oldSelection = s.currentSelection ∧ s2.currentSelection = []) := by
  obtain ⟨s2, hs2, hm⟩ := selectNodeIds_marked t hwf.2.1 nodes (clearSelection s)
  have hcur : ∀ x, x ∈ s2.currentSelection ↔ x ∈ nodes.flatMap (closureOf t) := by
    intro x
    rw [hm.1]
    simp [clearSelection]
  have hold : ∀ x, x ∈ s2.oldSelection ↔ x ∈ s.currentSelection ∧ x ∉ s2.currentSelection := by
    intro x
    rw [hm.2, hcur]
    simp [clearSelection]
  have hcur2 : ∀ x, x ∈ s2.currentSelection ↔
      ∃ n ∈ nodes, (x = n ∧ n ≠ 0) ∨ (IsAncestor t x n ∧ x ≠ 0) ∨ IsAncestor t n x := by
    intro x
    rw [hcur, List.mem_flatMap]
    constructor
    · rintro ⟨n, hn, hx⟩
      exact ⟨n, hn, (mem_closureOf_iff t hwf n x).mp hx⟩
    · rintro ⟨n, hn, hx⟩
      exact ⟨n, hn, (mem_closureOf_iff t hwf n x).mpr hx⟩
  refine ⟨s2, hs2, hold, hcur2, ?_, ?_⟩
  · intro h0 x
    rw [hold, hcur2]
    constructor
    · rintro ⟨hx, hnot⟩
      have hx0 : x ≠ 0 := fun e => h0 (e ▸ hx)
      refine ⟨hx, ?_⟩
      rintro ⟨n, hn, h⟩
      apply hnot
      refine ⟨n, hn, ?_⟩
      rcases h with h | h | h
      · exact Or.inl ⟨h, fun e => hx0 (h.trans e)⟩
      · exact Or.inr (Or.inl ⟨h, hx0⟩)
      · exact Or.inr (Or.inr h)
    · rintro ⟨hx, hnot⟩
      refine ⟨hx, ?_⟩
      rintro ⟨n, hn, h⟩
      apply hnot
      refine ⟨n, hn, ?_⟩
      rcases h with h | h | h
      · exact Or.inl h.1
      · exact Or.inr (Or.inl h.1)
      · exact Or.inr (Or.inr h)
  · intro hnil
    subst hnil
    have : s2 = clearSelection s := by
      have h := hs2
      simp only [selectNodeIds, List.foldlM_nil] at h
      injection h with h
      exact h.symm
    subst this
    exact ⟨rfl, rfl⟩

/-- C4 on `sampleTree`: nodes 1 and 3 were current, node 2 is selected after the clear. -/
theorem C4_diff_correctness_witness :
    sampleTree.wf ∧
    ∃ s2, selectNodeIds sampleTree [2] (clearSelection ⟨[1, 3], []⟩) = some s2 ∧
      (∀ x, x ∈ s2.oldSelection ↔ x ∈ ([1, 3] : List Int) ∧ x ∉ s2.currentSelection) ∧
      (∀ x, x ∈ s2.currentSelection ↔
        ∃ n ∈ ([2] : List Int),
          (x = n ∧ n ≠ 0) ∨ (IsAncestor sampleTree x n ∧ x ≠ 0) ∨ IsAncestor sampleTree n x) ∧
      ((0 : Int) ∉ ([1, 3] : List Int) → ∀ x, x ∈ s2.oldSelection ↔
        x ∈ ([1, 3] : List Int) ∧
          ¬ ∃ n ∈ ([2] : List Int),
            x = n ∨ IsAncestor sampleTree x n ∨ IsAncestor sampleTree n x) ∧
      (([2] : List Int) = [] → s2.oldSelection = [1, 3] ∧ s2.currentSelection = []) :=
  ⟨by decide, C4_diff_correctness sampleTree (by decide) ⟨[1, 3], []⟩ [2]⟩

/-- C5: on a well-formed tree, after `clearSelection()` followed by any finite sequence of
`selectNodeId` calls (which returns), no node is both in the current and in the previous
selection. -/
theorem C5_current_previous_disjoint (t : vtkDataAssembly) (hwf : t.wf) (s : Selection)
    (nodes : List Int) :
    ∃ s2, selectNodeIds t nodes (clearSelection s) = some s2 ∧
      ∀ x, x ∈ s2.currentSelection → x ∉ s2.oldSelection := by
  obtain ⟨s2, hs2, hm⟩ := selectNodeIds_marked t hwf.2.1 nodes (clearSelection s)
  refine ⟨s2, hs2, ?_⟩
  intro x hx hold
  have h1 := (hm.2 x).mp hold
  rcases (hm.1 x).mp hx with h | h
  · simp [clearSelection] at h
  · exact h1.2 h

/-- C5 on `sampleTree`: nodes 1 and 3 were current, nodes 2 and 3 are selected after the
clear. -/
theorem C5_current_previous_disjoint_witness :
    sampleTree.wf ∧
    ∃ s2, selectNodeIds sampleTree [2, 3] (clearSelection ⟨[1, 3], []⟩) = some s2 ∧
      ∀ x, x ∈ s2.currentSelection → x ∉ s2.oldSelection :=
  ⟨by decide, C5_current_previous_disjoint sampleTree (by decide) ⟨[1, 3], []⟩ [2, 3]⟩

/-! ## Lifecycle cache: proofs -/

theorem mapFind_mapSet_self {V : Type} (k : Int) (v : Option V) (m : List (Int × Option V)) :
    mapFind k (mapSet k v m) = some v := by
  induction m with
  | nil => simp [mapSet, mapFind]
  | cons kv rest ih =>
    obtain ⟨k0, v0⟩ := kv
    unfold mapSet
    by_cases h1 : k < k0
    · simp [h1, mapFind]
    · rw [if_neg h1]
      by_cases h2 : k0 = k
      · simp [h2, mapFind]
      · simp [h2, mapFind, ih]

theorem mapFind_mapSet_ne {V : Type} (k k2 : Int) (hne : k2 ≠ k) (v : Option V)
    (m : List (Int × Option V)) : mapFind k2 (mapSet k v m) = mapFind k2 m := by
  induction m with
  | nil => simp [mapSet, mapFind, hne.symm]
  | cons kv rest ih =>
    obtain ⟨k0, v0⟩ := kv
    unfold mapSet
    by_cases h1 : k < k0
    · simp [h1, mapFind, hne.symm]
    · rw [if_neg h1]
      by_cases h2 : k0 = k
      · subst h2
        simp [mapFind, hne.symm]
      · rw [if_neg h2]
        simp only [mapFind]
        by_cases h3 : k0 = k2
        · simp [h3]
        · simp [h3, ih]

theorem mem_keys_mapSet {V : Type} (k : Int) (v : Option V) (m : List (Int × Option V)) (x : Int) :
    x ∈ (mapSet k v m).map Prod.fst ↔ x = k ∨ x ∈ m.map Prod.fst := by
  induction m with
  | nil => simp [mapSet]
  | cons kv rest ih =>
    obtain ⟨k0, v0⟩ := kv
    unfold mapSet
    by_cases h1 : k < k0
    · simp [h1]
    · rw [if_neg h1]
      by_cases h2 : k0 = k
      · subst h2; simp
      · rw [if_neg h2]
        simp only [List.map_cons, List.mem_cons, ih]
        constructor
        · rintro (h | h | h)
          · exact Or.inr (Or.inl h)
          · exact Or.inl h
          · exact Or.inr (Or.inr h)
        · rintro (h | h | h)
          · exact Or.inr (Or.inl h)
          · exact Or.inl h
          · exact Or.inr (Or.inr h)

theorem keysSorted_mapSet {V : Type} (k : Int) (v : Option V) (m : List (Int × Option V))
    (h : (m.map Prod.fst).Pairwise (· < ·)) : ((mapSet k v m).map Prod.fst).Pairwise (· < ·) := by
  induction m with
  | nil => simp [mapSet]
  | cons kv rest ih =>
    obtain ⟨k0, v0⟩ := kv
    simp only [List.map_cons, List.pairwise_cons] at h
    unfold mapSet
    by_cases h1 : k < k0
    · rw [if_pos h1]
      simp only [List.map_cons, List.pairwise_cons, List.mem_cons]
      refine ⟨?_, h.1, h.2⟩
      rintro x (hx | hx)
      · rw [hx]; exact h1
      · exact lt_trans h1 (h.1 x hx)
    · rw [if_neg h1]
      by_cases h2 : k0 = k
      · subst h2
        rw [if_pos rfl]
        simp only [List.map_cons, List.pairwise_cons]
        exact h
      · rw [if_neg h2]
        simp only [List.map_cons, List.pairwise_cons]
        refine ⟨?_, ih h.2⟩
        intro x hx
        rcases (mem_keys_mapSet k v rest x).mp hx with hx | hx
        · rw [hx]; omega
        · exact h.1 x hx

theorem mapFind_some_mem_keys {V : Type} (k : Int) (m : List (Int × Option V)) (v : Option V)
    (h : mapFind k m = some v) : k ∈ m.map Prod.fst := by
  induction m with
  | nil => simp [mapFind] at h
  | cons kv rest ih =>
    obtain ⟨k0, v0⟩ := kv
    simp only [mapFind] at h
    by_cases h2 : k0 = k
    · simp [h2]
    · rw [if_neg h2] at h
      simp [ih h]

/-- A key bound in a map with increasing keys has exactly one entry. -/
theorem count_key_eq_one {V : Type} (k : Int) (m : List (Int × Option V)) (v : Option V)
    (hs : (m.map Prod.fst).Pairwise (· < ·)) (h : mapFind k m = some v) :
    (m.filter (fun kv => decide (kv.1 = k))).length = 1 := by
  induction m with
  | nil => simp [mapFind] at h
  | cons kv rest ih =>
    obtain ⟨k0, v0⟩ := kv
    simp only [List.map_cons, List.pairwise_cons] at hs
    simp only [mapFind] at h
    by_cases h2 : k0 = k
    · subst h2
      have hrest : rest.filter (fun kv => decide (kv.1 = k0)) = [] := by
        rw [List.filter_eq_nil_iff]
        intro kv hkv
        have := hs.1 kv.1 (List.mem_map_of_mem Prod.fst hkv)
        simp only [decide_eq_true_eq]
        omega
      simp [List.filter_cons, hrest]
    · rw [if_neg h2] at h
      simp [List.filter_cons, h2, ih hs.2 h]

theorem drop_underscore (u : String) : String.mk (("_" ++ u).data.drop 1) = u := by
  show String.mk (("_".data ++ u.data).drop 1) = u
  rfl

theorem mapTouch_of_some {V : Type} (k : Int) (m : List (Int × Option V)) (e : Option V)
    (h : mapFind k m = some e) : mapTouch k m = m := by
  simp [mapTouch, h]

/-- One run of the SubRepresentation branch followed by the final store, for a node other than
the node of the supporting grid. -/
theorem storeRep_initSubRepMapper (t : vtkDataAssembly) (c : Cache) (su gu : String)
    (gcls scls : MapperClass) (n : Int) (hne : n ≠ t.FindFirstNodeWithName ("_" ++ gu))
    (hs : (c.nodeIdToMapper.map Prod.fst).Pairwise (· < ·)) :
    (((storeRep n (initSubRepMapper t c su gu gcls scls)).nodeIdToMapper.map Prod.fst).Pairwise
      (· < ·)) ∧
    (mapFind (t.FindFirstNodeWithName ("_" ++ gu)) c.nodeIdToMapper = none →
      mapFind (t.FindFirstNodeWithName ("_" ++ gu))
          (storeRep n (initSubRepMapper t c su gu gcls scls)).nodeIdToMapper =
        some (some { address := c.nextAddress, cls := gcls, uuid := gu, supportingGrid := none,
                     dataArrays := [], markers := [], loaded := false }) ∧
      mapFind n (storeRep n (initSubRepMapper t c su gu gcls scls)).nodeIdToMapper =
        some (some { address := c.nextAddress + 1, cls := scls, uuid := su,
                     supportingGrid := some c.nextAddress,
                     dataArrays := [], markers := [], loaded := false }) ∧
      (storeRep n (initSubRepMapper t c su gu gcls scls)).nextAddress = c.nextAddress + 2) ∧
    (∀ e, mapFind (t.FindFirstNodeWithName ("_" ++ gu)) c.nodeIdToMapper = some e →
      mapFind (t.FindFirstNodeWithName ("_" ++ gu))
          (storeRep n (initSubRepMapper t c su gu gcls scls)).nodeIdToMapper = some e ∧
      mapFind n (storeRep n (initSubRepMapper t c su gu gcls scls)).nodeIdToMapper =
        some (some { address := c.nextAddress, cls := scls, uuid := su,
                     supportingGrid := castTo gcls e,
                     dataArrays := [], markers := [], loaded := false }) ∧
      (storeRep n (initSubRepMapper t c su gu gcls scls)).nextAddress = c.nextAddress + 1) := by
  have hne2 : t.FindFirstNodeWithName ("_" ++ gu) ≠ n := fun h => hne h.symm
  cases hf : mapFind (t.FindFirstNodeWithName ("_" ++ gu)) c.nodeIdToMapper with
  | none =>
    refine ⟨?_, fun _ => ⟨?_, ?_, ?_⟩, fun e he => Option.noConfusion he⟩
    · simp only [storeRep, initSubRepMapper, hf, Cache.newMapper]
      rw [mapTouch_of_some _ _ _ (mapFind_mapSet_self _ _ _)]
      exact keysSorted_mapSet _ _ _ (keysSorted_mapSet _ _ _ hs)
    · simp only [storeRep, initSubRepMapper, hf, Cache.newMapper]
      rw [mapTouch_of_some _ _ _ (mapFind_mapSet_self _ _ _)]
      rw [mapFind_mapSet_ne _ _ hne2, mapFind_mapSet_self]
    · simp only [storeRep, initSubRepMapper, hf, Cache.newMapper]
      rw [mapTouch_of_some _ _ _ (mapFind_mapSet_self _ _ _)]
      rw [mapFind_mapSet_self]
      simp [mapAt, mapFind_mapSet_self, castTo]
    · simp only [storeRep, initSubRepMapper, hf, Cache.newMapper]
  | some e0 =>
    refine ⟨?_, fun h => Option.noConfusion h, fun e he => ?_⟩
    · simp only [storeRep, initSubRepMapper, hf, Cache.newMapper]
      rw [mapTouch_of_some _ _ _ hf]
      exact keysSorted_mapSet _ _ _ hs
    · injection he with he
      subst he
      refine ⟨?_, ?_, ?_⟩
      · simp only [storeRep, initSubRepMapper, hf, Cache.newMapper]
        rw [mapTouch_of_some _ _ _ hf, mapFind_mapSet_ne _ _ hne2, hf]
      · simp only [storeRep, initSubRepMapper, hf, Cache.newMapper]
        rw [mapTouch_of_some _ _ _ hf, mapFind_mapSet_self]
        simp [mapAt, hf]
      · simp only [storeRep, initSubRepMapper, hf, Cache.newMapper]

/-- `initMapper` on the node of a sub-representation of a grid runs the SubRepresentation
branch for the class of the grid. -/
theorem initMapper_subRepresentation (repository : DataObjectRepository) (t : vtkDataAssembly)
    (c : Cache) (n : Int) (u : String) (r : AbstractRepresentation) (gu gt : String) (gk : RepKind)
    (hn : t.GetNodeName n = some ("_" ++ u))
    (ho : repository.getDataObjectByUuid u = some (DataObject.representation r))
    (hk : r.kind = RepKind.SubRepresentation gu gt gk)
    (hgk : gk = RepKind.IjkGrid ∨ gk = RepKind.UnstructuredGrid) :
    initMapper repository t TreeViewNodeType.Representation n c =
      storeRep n (initSubRepMapper t c r.uuid gu (gridMapperClass gk) (subRepMapperClass gk)) := by
  unfold initMapper
  simp only [hn, Option.getD_some, drop_underscore, ho, true_or, if_true, initRepresentationMapper, hk]
  rcases hgk with h | h
  · subst h; rfl
  · subst h; rfl

theorem mapFind_mapErase_ne {V : Type} (k k2 : Int) (hne : k2 ≠ k) (m : List (Int × Option V)) :
    mapFind k2 (mapErase k m) = mapFind k2 m := by
  induction m with
  | nil => rfl
  | cons kv rest ih =>
    obtain ⟨k0, v0⟩ := kv
    unfold mapErase at ih ⊢
    rw [List.filter_cons]
    by_cases h1 : k0 = k
    · subst h1
      have hd : decide ((k0, v0).1 ≠ k0) = false := by simp
      have h2 : ¬ k0 = k2 := fun e => hne e.symm
      rw [hd]
      simp only [Bool.false_eq_true, if_false, mapFind, if_neg h2]
      exact ih
    · have hd : decide ((k0, v0).1 ≠ k) = true := by simp [h1]
      rw [hd]
      simp only [if_true, mapFind]
      by_cases h2 : k0 = k2
      · rw [if_pos h2, if_pos h2]
      · rw [if_neg h2, if_neg h2]
        exact ih

/-- No branch of the loop body of `deleteMapper` takes a key other than the node at hand out
of the converter map: an entry under another key is still there afterwards. -/
theorem deleteMapperOne_keeps_other_keys (t : vtkDataAssembly) (p_time : Nat) (w_nodeId : Int)
    (s s2 : Lifecycle) (h : deleteMapperOne t p_time w_nodeId s = some s2) (k : Int)
    (hk : k ≠ w_nodeId) (hin : mapFind k s.cache.nodeIdToMapper ≠ none) :
    mapFind k s2.cache.nodeIdToMapper ≠ none := by
  have hset : ∀ (key : Int) (v : Option Mapper),
      mapFind k (mapSet key v s.cache.nodeIdToMapper) ≠ none := by
    intro key v
    by_cases hkk : k = key
    · subst hkk; rw [mapFind_mapSet_self]; simp
    · rw [mapFind_mapSet_ne _ _ hkk]; exact hin
  have herase : mapFind k (mapErase w_nodeId s.cache.nodeIdToMapper) ≠ none := by
    rw [mapFind_mapErase_ne _ _ hk]; exact hin
  have hdel : ∀ (e : Option Mapper),
      (s.cache.delete (fun (m : Mapper) => m.address) e).nodeIdToMapper = s.cache.nodeIdToMapper := by
    intro e; cases e <;> rfl
  have hdelSet : ∀ (e : Option MapperSet),
      (s.cache.delete (fun (m : MapperSet) => m.address) e).nodeIdToMapper =
        s.cache.nodeIdToMapper := by
    intro e; cases e <;> rfl
  unfold deleteMapperOne at h
  cases hty : nodeType t w_nodeId with
  | none =>
    simp only [hty] at h
    injection h with h; subst h; exact hin
  | some ty =>
    cases ty <;> simp only [hty] at h
    case Unknown => injection h with h; subst h; exact hin
    case Collection => injection h with h; subst h; exact hin
    case Wellbore => injection h with h; subst h; exact hin
    case TimeSeries =>
      split at h
      · exact Option.noConfusion h
      · split at h
        · injection h with h; subst h; exact hin
        · exact Option.noConfusion h
        · injection h with h; subst h; exact hset _ _
    case Properties =>
      split at h
      · injection h with h; subst h; exact hin
      · exact Option.noConfusion h
      · injection h with h; subst h; exact hset _ _
    case WellboreMarker =>
      split at h
      · injection h with h; subst h; exact hin
      · exact Option.noConfusion h
      · injection h with h; subst h; exact hset _ _
    case SubRepresentation =>
      split at h
      · injection h with h; subst h
        simp only [hdel]; exact herase
      · injection h with h; subst h; exact hin
    case Representation =>
      split at h
      · injection h with h; subst h
        simp only [hdel]; exact herase
      · injection h with h; subst h; exact hin
    case WellboreTrajectory =>
      split at h
      · injection h with h; subst h
        simp only [hdel]; exact herase
      · injection h with h; subst h; exact hin
    case WellboreFrame =>
      split at h
      · injection h with h; subst h
        simp only [hdel]; exact herase
      · injection h with h; subst h; exact hin
    case WellboreChannel =>
      split at h
      · injection h with h; subst h
        simp only [hdel]; exact herase
      · injection h with h; subst h; exact hin
    case WellboreMarkerFrame =>
      split at h
      · injection h with h; subst h
        simp only [hdel]; exact herase
      · injection h with h; subst h; exact hin
    case Perforation =>
      split at h
      · injection h with h; subst h; exact hin
      · exact Option.noConfusion h
      · injection h with h; subst h; exact hin
    case WellboreCompletion =>
      split at h
      · injection h with h; subst h
        simp only [hdelSet]; exact hin
      · injection h with h; subst h; exact hin

/-- C8: let S1 and S2 be two sub-representations of the same grid G (an IJK or an unstructured
grid), on distinct nodes other than the node of G, and let the cache hold no converter for G.
After `initMapper` on S1 and then on S2 the converter map has exactly one entry under the id of
the node of G; it holds the converter of G that the first call created (the second call left
it as it was), both sub-representation converters point to it, and three converters were built
in all (one for G, one for each sub-representation). -/
theorem C8_shared_converter_created_once (repository : DataObjectRepository)
    (t : vtkDataAssembly) (c : Cache) (n1 n2 : Int) (u1 u2 : String)
    (r1 r2 : AbstractRepresentation) (gu gt1 gt2 : String) (gk : RepKind)
    (hn1 : t.GetNodeName n1 = some ("_" ++ u1)) (hn2 : t.GetNodeName n2 = some ("_" ++ u2))
    (ho1 : repository.getDataObjectByUuid u1 = some (DataObject.representation r1))
    (ho2 : repository.getDataObjectByUuid u2 = some (DataObject.representation r2))
    (hk1 : r1.kind = RepKind.SubRepresentation gu gt1 gk)
    (hk2 : r2.kind = RepKind.SubRepresentation gu gt2 gk)
    (hgk : gk = RepKind.IjkGrid ∨ gk = RepKind.UnstructuredGrid)
    (hg1 : n1 ≠ t.FindFirstNodeWithName ("_" ++ gu))
    (hg2 : n2 ≠ t.FindFirstNodeWithName ("_" ++ gu)) (h12 : n1 ≠ n2)
    (habsent : mapFind (t.FindFirstNodeWithName ("_" ++ gu)) c.nodeIdToMapper = none)
    (hsorted : (c.nodeIdToMapper.map Prod.fst).Pairwise (· < ·)) :
    ∃ g m1 m2,
      mapFind (t.FindFirstNodeWithName ("_" ++ gu))
        (initMapper repository t TreeViewNodeType.Representation n1 c).nodeIdToMapper =
          some (some g) ∧
      mapFind (t.FindFirstNodeWithName ("_" ++ gu))
        (initMapper repository t TreeViewNodeType.Representation n2
          (initMapper repository t TreeViewNodeType.Representation n1 c)).nodeIdToMapper =
          some (some g) ∧
      g.uuid = gu ∧ g.cls = gridMapperClass gk ∧ g.address = c.nextAddress ∧
      ((initMapper repository t TreeViewNodeType.Representation n2
          (initMapper repository t TreeViewNodeType.Representation n1 c)).nodeIdToMapper.filter
        (fun kv => decide (kv.1 = t.FindFirstNodeWithName ("_" ++ gu)))).length = 1 ∧
      mapFind n1 (initMapper repository t TreeViewNodeType.Representation n2
          (initMapper repository t TreeViewNodeType.Representation n1 c)).nodeIdToMapper =
          some (some m1) ∧
      mapFind n2 (initMapper repository t TreeViewNodeType.Representation n2
          (initMapper repository t TreeViewNodeType.Representation n1 c)).nodeIdToMapper =
          some (some m2) ∧
      m1.supportingGrid = some g.address ∧ m2.supportingGrid = some g.address ∧
      m1.address ≠ m2.address ∧
      (initMapper repository t TreeViewNodeType.Representation n2
          (initMapper repository t TreeViewNodeType.Representation n1 c)).nextAddress =
        c.nextAddress + 3 := by
  have e1 := initMapper_subRepresentation repository t c n1 u1 r1 gu gt1 gk hn1 ho1 hk1 hgk
  obtain ⟨hs1, hnone1, _⟩ := storeRep_initSubRepMapper t c r1.uuid gu (gridMapperClass gk)
    (subRepMapperClass gk) n1 hg1 hsorted
  obtain ⟨hG1, hS1, hA1⟩ := hnone1 habsent
  rw [← e1] at hs1 hG1 hS1 hA1
  have e2 := initMapper_subRepresentation repository t
    (initMapper repository t TreeViewNodeType.Representation n1 c) n2 u2 r2 gu gt2 gk hn2 ho2 hk2 hgk
  obtain ⟨hs2, _, hsome2⟩ := storeRep_initSubRepMapper t
    (initMapper repository t TreeViewNodeType.Representation n1 c) r2.uuid gu (gridMapperClass gk)
    (subRepMapperClass gk) n2 hg2 hs1
  obtain ⟨hG2, hS2, hA2⟩ := hsome2 _ hG1
  rw [← e2] at hs2 hG2 hS2 hA2
  have hS1keep : mapFind n1 (initMapper repository t TreeViewNodeType.Representation n2
      (initMapper repository t TreeViewNodeType.Representation n1 c)).nodeIdToMapper =
      mapFind n1 (initMapper repository t TreeViewNodeType.Representation n1 c).nodeIdToMapper := by
    rw [e2]
    have hG1b : mapFind (t.FindFirstNodeWithName ("_" ++ gu))
        (initMapper repository t TreeViewNodeType.Representation n1 c).nodeIdToMapper =
        some (some { address := c.nextAddress, cls := gridMapperClass gk, uuid := gu,
                     supportingGrid := none, dataArrays := [], markers := [], loaded := false }) :=
      hG1
    simp only [storeRep, initSubRepMapper, hG1b, Cache.newMapper]
    rw [mapTouch_of_some _ _ _ hG1b, mapFind_mapSet_ne _ _ h12]
  refine ⟨{ address := c.nextAddress, cls := gridMapperClass gk, uuid := gu,
            supportingGrid := none, dataArrays := [], markers := [], loaded := false },
    { address := c.nextAddress + 1, cls := subRepMapperClass gk, uuid := r1.uuid,
      supportingGrid := some c.nextAddress, dataArrays := [], markers := [], loaded := false },
    { address := (initMapper repository t TreeViewNodeType.Representation n1 c).nextAddress,
      cls := subRepMapperClass gk, uuid := r2.uuid,
      supportingGrid := castTo (gridMapperClass gk)
        (some { address := c.nextAddress, cls := gridMapperClass gk, uuid := gu,
                supportingGrid := none, dataArrays := [], markers := [], loaded := false }),
      dataArrays := [], markers := [], loaded := false },
    hG1, hG2, rfl, rfl, rfl, count_key_eq_one _ _ _ hs2 hG2, ?_, hS2, rfl, ?_, ?_, ?_⟩
  · rw [hS1keep]; exact hS1
  · simp [castTo]
  · simp only [hA1]; omega
  · rw [hA2, hA1]

/-! ## Sorting by title -/

theorem compareLess_iff_lt (a b : List Char) : compareLess a b = true ↔ List.lt a b := by
  induction a generalizing b with
  | nil =>
    cases b with
    | nil => simp only [compareLess]; constructor
             · intro h; cases h
             · intro h; cases h
    | cons y ys => simp only [compareLess]; exact ⟨fun _ => List.lt.nil y ys, fun _ => trivial⟩
  | cons x xs ih =>
    cases b with
    | nil => simp only [compareLess]; constructor
             · intro h; cases h
             · intro h; cases h
    | cons y ys =>
      simp only [compareLess]
      by_cases h1 : x < y
      · rw [if_pos h1]; exact ⟨fun _ => List.lt.head xs ys h1, fun _ => rfl⟩
      · rw [if_neg h1]
        by_cases h2 : y < x
        · rw [if_pos h2]
          constructor
          · intro h; cases h
          · intro h
            cases h with
            | head _ _ h => exact absurd h h1
            | tail _ h _ => exact absurd h2 h
        · rw [if_neg h2, ih ys]
          constructor
          · intro h; exact List.lt.tail h1 h2 h
          · intro h
            cases h with
            | head _ _ h => exact absurd h h1
            | tail _ _ h => exact h

theorem stringLess_iff_lt (a b : String) : stringLess a b = true ↔ a < b := by
  rw [String.lt_iff_toList_lt, stringLess, compareLess_iff_lt, List.lt_iff_lex_lt]
  exact Iff.rfl

theorem compareLess_irrefl (a : List Char) : compareLess a a = false := by
  induction a with
  | nil => rfl
  | cons x xs ih => simp [compareLess, ih]

theorem compareLess_trans (a b c : List Char) (h1 : compareLess a b = true)
    (h2 : compareLess b c = true) : compareLess a c = true := by
  induction a generalizing b c with
  | nil =>
    cases b with
    | nil => simp [compareLess] at h1
    | cons y ys =>
      cases c with
      | nil => simp [compareLess] at h2
      | cons z zs => simp [compareLess]
  | cons x xs ih =>
    cases b with
    | nil => simp [compareLess] at h1
    | cons y ys =>
      cases c with
      | nil => simp [compareLess] at h2
      | cons z zs =>
        simp only [compareLess] at h1 h2 ⊢
        rcases lt_trichotomy x y with hxy | hxy | hxy
        · rcases lt_trichotomy y z with hyz | hyz | hyz
          · rw [if_pos (lt_trans hxy hyz)]
          · subst hyz; rw [if_pos hxy]
          · rw [if_neg (lt_asymm hyz), if_pos hyz] at h2
            exact absurd h2 (by simp)
        · subst hxy
          rw [if_neg (lt_irrefl x), if_neg (lt_irrefl x)] at h1
          rcases lt_trichotomy x z with hyz | hyz | hyz
          · rw [if_pos hyz]
          · subst hyz
            rw [if_neg (lt_irrefl x), if_neg (lt_irrefl x)] at h2 ⊢
            exact ih ys zs h1 h2
          · rw [if_neg (lt_asymm hyz), if_pos hyz] at h2
            exact absurd h2 (by simp)
        · rw [if_neg (lt_asymm hxy), if_pos hxy] at h1
          exact absurd h1 (by simp)

theorem compareLess_asymm (a b : List Char) (h1 : compareLess a b = true) :
    compareLess b a = false := by
  cases h : compareLess b a with
  | false => rfl
  | true =>
    have := compareLess_trans a b a h1 h
    rw [compareLess_irrefl] at this
    exact absurd this (by simp)

theorem insertByTitle_perm {α : Type} (title : α → String) (x : α) (l : List α) :
    (insertByTitle title x l).Perm (x :: l) := by
  induction l with
  | nil => exact List.Perm.refl _
  | cons y ys ih =>
    simp only [insertByTitle]
    by_cases h : stringLess (title x) (title y) = true
    · rw [if_pos h]
    · rw [if_neg h]
      exact ((List.Perm.cons y ih).trans (List.Perm.swap x y ys))

theorem foldl_insertByTitle_perm {α : Type} (title : α → String) (l acc : List α) :
    (l.foldl (fun acc x => insertByTitle title x acc) acc).Perm (acc ++ l) := by
  induction l generalizing acc with
  | nil => simp
  | cons x xs ih =>
    simp only [List.foldl_cons]
    refine (ih _).trans ?_
    refine ((insertByTitle_perm title x acc).append_right xs).trans ?_
    simp only [List.cons_append]
    exact (List.perm_middle).symm

theorem sortByTitle_perm {α : Type} (title : α → String) (l : List α) :
    (sortByTitle title l).Perm l := by
  simpa [sortByTitle] using foldl_insertByTitle_perm title l []

theorem insertByTitle_sorted {α : Type} (title : α → String) (x : α) (l : List α)
    (hl : l.Pairwise (fun a b => stringLess (title b) (title a) = false)) :
    (insertByTitle title x l).Pairwise (fun a b => stringLess (title b) (title a) = false) := by
  induction l with
  | nil => simp [insertByTitle]
  | cons y ys ih =>
    rw [List.pairwise_cons] at hl
    simp only [insertByTitle]
    by_cases h : stringLess (title x) (title y) = true
    · rw [if_pos h, List.pairwise_cons, List.pairwise_cons]
      refine ⟨?_, hl.1, hl.2⟩
      intro z hz
      rcases List.mem_cons.1 hz with hzy | hzy
      · subst hzy
        exact compareLess_asymm _ _ h
      · cases hzx : stringLess (title z) (title x) with
        | false => rfl
        | true =>
          have := compareLess_trans _ _ _ hzx h
          have h3 := hl.1 z hzy
          simp only [stringLess] at h3
          rw [h3] at this
          exact absurd this (by simp)
    · rw [if_neg h, List.pairwise_cons]
      refine ⟨?_, ih hl.2⟩
      intro z hz
      rcases List.mem_cons.1 ((insertByTitle_perm title x ys).subset hz) with hzx | hzy
      · subst hzx
        simpa using h
      · exact hl.1 z hzy

theorem foldl_insertByTitle_sorted {α : Type} (title : α → String) (l acc : List α)
    (hacc : acc.Pairwise (fun a b => stringLess (title b) (title a) = false)) :
    (l.foldl (fun acc x => insertByTitle title x acc) acc).Pairwise
      (fun a b => stringLess (title b) (title a) = false) := by
  induction l generalizing acc with
  | nil => simpa using hacc
  | cons x xs ih =>
    simp only [List.foldl_cons]
    exact ih _ (insertByTitle_sorted title x acc hacc)

theorem sortByTitle_sorted {α : Type} (title : α → String) (l : List α) :
    (sortByTitle title l).Pairwise (fun a b => ¬ title b < title a) := by
  have h := foldl_insertByTitle_sorted title l [] List.Pairwise.nil
  refine List.Pairwise.imp ?_ h
  intro a b hab hlt
  rw [← stringLess_iff_lt, hab] at hlt
  exact absurd hlt (by simp)

/-- C17: the list `buildDataAssemblyFromDataObjectRepo` visits is the sorted 2D grids, then
the sorted IJK grids, the sorted polyline sets, the sorted triangulated sets and the sorted
unstructured grids; each sorted list is a permutation of its source in which no element has a
title smaller (in the order `<` of strings, which is `compareLess` on the characters) than the
title of an element before it. -/
theorem C17_visiting_order (repository : DataObjectRepository) :
    allReps repository =
      sortByTitle (fun r => r.title) repository.horizonGrid2dRepresentationSet ++
      sortByTitle (fun r => r.title) repository.ijkGridRepresentationSet ++
      sortByTitle (fun r => r.title) repository.allPolylineSetRepresentationSet ++
      sortByTitle (fun r => r.title) repository.allTriangulatedSetRepresentationSet ++
      sortByTitle (fun r => r.title) repository.unstructuredGridRepresentationSet ∧
    (∀ source : List Representation,
      (sortByTitle (fun r => r.title) source).Perm source ∧
      (sortByTitle (fun r => r.title) source).Pairwise (fun a b => ¬ b.title < a.title)) ∧
    (∀ a b : String, a < b ↔ compareLess a.data b.data = true) := by
  refine ⟨?_, ?_, ?_⟩
  · simp [allReps, sortAndAdd]
  · intro source
    exact ⟨sortByTitle_perm _ source, sortByTitle_sorted _ source⟩
  · intro a b
    exact (stringLess_iff_lt a b).symm

/-! ## Claims settled by running the model -/

set_option maxRecDepth 100000

/-- C8 on the catalog of a grid with two sub-representations (nodes 2 and 3), from an empty
cache. -/
theorem C8_shared_converter_created_once_witness :
    treeGridTwoSubReps.GetNodeName 2 = some ("_" ++ "s1") ∧
    treeGridTwoSubReps.GetNodeName 3 = some ("_" ++ "s2") ∧
    treeGridTwoSubReps.FindFirstNodeWithName ("_" ++ "g") = 1 ∧
    ∃ g m1 m2,
      mapFind (treeGridTwoSubReps.FindFirstNodeWithName ("_" ++ "g"))
        (initMapper repoGridTwoSubReps treeGridTwoSubReps TreeViewNodeType.Representation 2
          Cache.empty).nodeIdToMapper = some (some g) ∧
      mapFind (treeGridTwoSubReps.FindFirstNodeWithName ("_" ++ "g"))
        (initMapper repoGridTwoSubReps treeGridTwoSubReps TreeViewNodeType.Representation 3
          (initMapper repoGridTwoSubReps treeGridTwoSubReps TreeViewNodeType.Representation 2
            Cache.empty)).nodeIdToMapper = some (some g) ∧
      g.uuid = "g" ∧ g.cls = gridMapperClass RepKind.IjkGrid ∧
      g.address = Cache.empty.nextAddress ∧
      ((initMapper repoGridTwoSubReps treeGridTwoSubReps TreeViewNodeType.Representation 3
          (initMapper repoGridTwoSubReps treeGridTwoSubReps TreeViewNodeType.Representation 2
            Cache.empty)).nodeIdToMapper.filter
        (fun kv => decide (kv.1 = treeGridTwoSubReps.FindFirstNodeWithName ("_" ++ "g")))).length
          = 1 ∧
      mapFind 2 (initMapper repoGridTwoSubReps treeGridTwoSubReps TreeViewNodeType.Representation 3
          (initMapper repoGridTwoSubReps treeGridTwoSubReps TreeViewNodeType.Representation 2
            Cache.empty)).nodeIdToMapper = some (some m1) ∧
      mapFind 3 (initMapper repoGridTwoSubReps treeGridTwoSubReps TreeViewNodeType.Representation 3
          (initMapper repoGridTwoSubReps treeGridTwoSubReps TreeViewNodeType.Representation 2
            Cache.empty)).nodeIdToMapper = some (some m2) ∧
      m1.supportingGrid = some g.address ∧ m2.supportingGrid = some g.address ∧
      m1.address ≠ m2.address ∧
      (initMapper repoGridTwoSubReps treeGridTwoSubReps TreeViewNodeType.Representation 3
          (initMapper repoGridTwoSubReps treeGridTwoSubReps TreeViewNodeType.Representation 2
            Cache.empty)).nextAddress = Cache.empty.nextAddress + 3 :=
  ⟨by decide, by decide, by decide,
    C8_shared_converter_created_once repoGridTwoSubReps treeGridTwoSubReps Cache.empty 2 3
      "s1" "s2" (sampleSubRep "s1" "A") (sampleSubRep "s2" "B") "g" "Grid" "Grid" RepKind.IjkGrid
      (by decide) (by decide) rfl rfl rfl rfl (Or.inl rfl) (by decide) (by decide) (by decide)
      (by decide) (by decide)⟩

/-- C6 (the code departs from it): a second run of `buildDataAssemblyFromDataObjectRepo` adds
nodes. With one wellbore, one trajectory and one completion, the second run adds a second node
`_c1` (and its perforation) under the root; with one grid whose property `Poro` is recorded at
two time steps, the second run adds a second grouped node `_tsTimeSeries_Poro`. -/
theorem C6_second_build_adds_nodes :
    (buildDataAssemblyFromDataObjectRepo repoOneTrajectory "" Catalog.initial).2.assembly.doc.names
      = ["data", "_w1", "_t1", "_c1", "_c1_p1"] ∧
    (buildDataAssemblyFromDataObjectRepo repoOneTrajectory ""
      (buildDataAssemblyFromDataObjectRepo repoOneTrajectory "" Catalog.initial).2).2.assembly.doc.names
      = ["data", "_w1", "_t1", "_c1", "_c1_p1", "_c1", "_c1_p1"] ∧
    (buildDataAssemblyFromDataObjectRepo repoOneTrajectory ""
      (buildDataAssemblyFromDataObjectRepo repoOneTrajectory "" Catalog.initial).2).2.assembly.GetParent 5
      = 0 ∧
    (buildDataAssemblyFromDataObjectRepo repoTimeSeries "" Catalog.initial).2.assembly.doc.names
      = ["data", "_g1", "_tsTimeSeries_Poro"] ∧
    (buildDataAssemblyFromDataObjectRepo repoTimeSeries ""
      (buildDataAssemblyFromDataObjectRepo repoTimeSeries "" Catalog.initial).2).2.assembly.doc.names
      = ["data", "_g1", "_tsTimeSeries_Poro", "_tsTimeSeries_Poro"] := by
  decide

/-- C7 (the code departs from it): after one build over a repository in which a wellbore with
one completion has two trajectories, two nodes carry the name `_c1` of the completion and two
the name `_c1_p1` of its perforation. -/
theorem C7_two_nodes_for_one_completion :
    (buildDataAssemblyFromDataObjectRepo repoTwoTrajectories "" Catalog.initial).2.assembly.doc.names
      = ["data", "_w1", "_t1", "_c1", "_c1_p1", "_t2", "_c1", "_c1_p1"] ∧
    ¬ (buildDataAssemblyFromDataObjectRepo repoTwoTrajectories ""
        Catalog.initial).2.assembly.doc.names.Nodup := by
  decide

/-- C9 (the code departs from it): on the catalog of a grid (node 1) with two
sub-representations (nodes 2 and 3, both tagged `Representation` by the builder), with the
converters of the two sub-representations created, tearing down node 2 and then node 3 leaves
the converter of the grid in the map under key 1: it is the only entry left. -/
theorem C9_grid_converter_not_evicted :
    nodeType treeGridTwoSubReps 2 = some TreeViewNodeType.Representation ∧
    nodeType treeGridTwoSubReps 3 = some TreeViewNodeType.Representation ∧
    (initSelection repoGridTwoSubReps treeGridTwoSubReps [2, 3] Cache.empty).nodeIdToMapper.map
      Prod.fst = [1, 2, 3] ∧
    ((deleteMapper treeGridTwoSubReps 0 [2]
        { cache := initSelection repoGridTwoSubReps treeGridTwoSubReps [2, 3] Cache.empty,
          timeSeriesIndex := [] }).map
      (fun s => s.cache.nodeIdToMapper.map Prod.fst)) = some [1, 3] ∧
    (((deleteMapper treeGridTwoSubReps 0 [2]
        { cache := initSelection repoGridTwoSubReps treeGridTwoSubReps [2, 3] Cache.empty,
          timeSeriesIndex := [] }).bind
      (fun s => deleteMapper treeGridTwoSubReps 0 [3] s)).map
      (fun s => (s.cache.nodeIdToMapper.map Prod.fst, s.cache.deleted))) = some ([1], [2, 3]) := by
  decide

/-- C10 (the code departs from it): with the grid (node 1) and one of its sub-representations
(node 2) materialized, deselecting the grid alone puts node 1 in the previous selection and
keeps node 2 in the current one; `deleteMapper` then deletes the converter of the grid (address
1) and erases its entry, while the map still holds the sub-representation converter built on
it. -/
theorem C10_grid_converter_deleted_under_dependent :
    selectNodeIds treeGridTwoSubReps [2] (clearSelection ⟨[1, 2], []⟩) = some ⟨[2], [1]⟩ ∧
    (initSelection repoGridTwoSubReps treeGridTwoSubReps [1, 2] Cache.empty).nodeIdToMapper.map
      (fun kv => (kv.1, kv.2.map (fun m => (m.address, m.supportingGrid)))) =
        [(1, some (1, none)), (2, some (2, some 1))] ∧
    ((deleteMapper treeGridTwoSubReps 0 [1]
        { cache := initSelection repoGridTwoSubReps treeGridTwoSubReps [1, 2] Cache.empty,
          timeSeriesIndex := [] }).map
      (fun s => (s.cache.nodeIdToMapper.map
          (fun kv => (kv.1, kv.2.map (fun m => (m.address, m.supportingGrid)))),
        s.cache.deleted))) = some ([(2, some (2, some 1))], [1]) := by
  decide

/-! ## Claims on the materialization and on the builder, settled by evaluation or directly -/

/-- C11 (the code departs from it): `initMapper` on a `WellboreCompletion` node writes a key in
both maps. On the catalog of one wellbore with one completion (node 3), from empty maps,
`initMapper(WellboreCompletion, 3)` leaves the key 3 in the converter-set map (with the new
converter-set) and in the single-converter map (with a null pointer); the same holds after
the node is selected and `getVtkPartitionedDatasSetCollection` has run. -/
theorem C11_completion_key_in_both_maps :
    nodeType treeOneTrajectory 3 = some TreeViewNodeType.WellboreCompletion ∧
    (initMapper repoOneTrajectory treeOneTrajectory TreeViewNodeType.WellboreCompletion 3
      Cache.empty).nodeIdToMapperSet.map Prod.fst = [3] ∧
    (initMapper repoOneTrajectory treeOneTrajectory TreeViewNodeType.WellboreCompletion 3
      Cache.empty).nodeIdToMapper = [(3, none)] ∧
    materializeCompletion.map (fun r =>
      (r.2.1.cache.nodeIdToMapper.map Prod.fst, r.2.1.cache.nodeIdToMapperSet.map Prod.fst))
      = some ([3], [3]) := by
  decide

/-- C12 (the code departs from it): on the catalog of one wellbore with one completion, the
completion node 3 is selected and materialized, then the selection is cleared and the
collection is materialized again. Node 3 is then in the previous selection and not in the
current one, the converter-set map has no entry left, and the single-converter map still has
the key 3. -/
theorem C12_completion_key_survives_teardown :
    materializeCompletionThenClear.map (fun r =>
      (r.1, r.2.1.cache.nodeIdToMapper.map Prod.fst, r.2.1.cache.nodeIdToMapperSet.map Prod.fst))
      = some (⟨[], [1, 3, 4]⟩, [3], []) := by
  decide

/-- C13 (the code departs from it): on the catalog of a grid (node 1) whose property `Poro` is
recorded at the time indices 0 (property `p0`) and 1 (property `p1`) of one series (grouped
node 4), both time indices resolve through the index map; with both nodes selected, a
materialization at index 0, the selection cleared and the same nodes selected again (nothing
is then in the previous selection), the materialization at index 1 leaves the converter of
the grid with `p0` and `p1` both attached. -/
theorem C13_array_of_first_time_stays_attached :
    timeSeriesIndexGet ("00000000-0000-0000-0000-0000000000ts", "TimeSeries_Poro", 0)
      catalogSeries.timeSeriesIndex = "p0" ∧
    timeSeriesIndexGet ("00000000-0000-0000-0000-0000000000ts", "TimeSeries_Poro", 1)
      catalogSeries.timeSeriesIndex = "p1" ∧
    (seriesSwitch 0 0).map (fun r => attachedArrays 1 r.2.1) = some (some ["p0"]) ∧
    (seriesSwitch 0 1).map (fun r => (r.1, attachedArrays 1 r.2.1, r.2.2))
      = some (⟨[1, 4], []⟩, some ["p0", "p1"], [⟨0, 1, "g1"⟩]) := by
  decide

theorem existsUuid_iff (l : List PerforationMapper) (u : String) :
    l.any (fun q => q.uuid == u) = true ↔ ∃ q ∈ l, q.uuid = u := by
  simp [List.any_eq_true]

/-- C14: `addPerforation` appends the new entry at the end when no entry of the list has its
id and leaves the list as it is otherwise; adding the same entry twice gives what adding it
once gives; a list without two entries of the same id stays so. -/
theorem C14_addPerforation_idempotent (m : MapperSet) (p : PerforationMapper) :
    ((∀ q ∈ m.list_perforation, q.uuid ≠ p.uuid) →
      (m.addPerforation p).list_perforation = m.list_perforation ++ [p]) ∧
    ((∃ q ∈ m.list_perforation, q.uuid = p.uuid) →
      (m.addPerforation p).list_perforation = m.list_perforation) ∧
    (m.addPerforation p).addPerforation p = m.addPerforation p ∧
    ((m.list_perforation.map (fun q => q.uuid)).Nodup →
      ((m.addPerforation p).list_perforation.map (fun q => q.uuid)).Nodup) := by
  by_cases h : m.list_perforation.any (fun q => q.uuid == p.uuid) = true
  · have hex := (existsUuid_iff _ _).1 h
    refine ⟨?_, ?_, ?_, ?_⟩
    · intro hno
      obtain ⟨q, hq, hqu⟩ := hex
      exact absurd hqu (hno q hq)
    · intro _
      simp [MapperSet.addPerforation, h]
    · simp [MapperSet.addPerforation, h]
    · intro hnd
      simpa [MapperSet.addPerforation, h] using hnd
  · have hno : ∀ q ∈ m.list_perforation, q.uuid ≠ p.uuid := by
      intro q hq hqu
      exact h ((existsUuid_iff _ _).2 ⟨q, hq, hqu⟩)
    refine ⟨?_, ?_, ?_, ?_⟩
    · intro _
      simp [MapperSet.addPerforation, h]
    · intro hex
      exact absurd ((existsUuid_iff _ _).2 hex) h
    · have h2 : (m.list_perforation ++ [p]).any (fun q => q.uuid == p.uuid) = true := by
        simp
      simp only [MapperSet.addPerforation, if_neg h, if_pos h2]
    · intro hnd
      simp only [MapperSet.addPerforation, if_neg h, List.map_append, List.map_cons, List.map_nil]
      rw [List.nodup_append]
      refine ⟨hnd, List.nodup_singleton _, ?_⟩
      intro a ha hb
      rw [List.mem_singleton] at hb
      obtain ⟨q, hq, hqa⟩ := List.mem_map.1 ha
      exact hno q hq (hqa.trans hb)


/-- C14 at a concrete converter-set: a new id is appended, a known id changes nothing, the ids
stay distinct. -/
theorem C14_addPerforation_idempotent_witness :
    (MapperSet.addPerforation ⟨1, "c1", [⟨"p1", "Perfo_p1", "", WellboreStatut.GazInjecter⟩], true⟩
        ⟨"p2", "Perfo_p2", "", WellboreStatut.GazInjecter⟩).list_perforation
      = [⟨"p1", "Perfo_p1", "", WellboreStatut.GazInjecter⟩] ++
        [⟨"p2", "Perfo_p2", "", WellboreStatut.GazInjecter⟩] ∧
    (MapperSet.addPerforation ⟨1, "c1", [⟨"p1", "Perfo_p1", "", WellboreStatut.GazInjecter⟩], true⟩
        ⟨"p1", "Other", "", WellboreStatut.GazInjecter⟩).list_perforation
      = [⟨"p1", "Perfo_p1", "", WellboreStatut.GazInjecter⟩] ∧
    ((MapperSet.addPerforation ⟨1, "c1", [⟨"p1", "Perfo_p1", "", WellboreStatut.GazInjecter⟩], true⟩
        ⟨"p2", "Perfo_p2", "", WellboreStatut.GazInjecter⟩).list_perforation.map
          (fun q => q.uuid)).Nodup :=
  ⟨(C14_addPerforation_idempotent _ _).1 (by decide),
   (C14_addPerforation_idempotent _ _).2.1 ⟨_, List.mem_singleton.2 rfl, rfl⟩,
   (C14_addPerforation_idempotent _ _).2.2.2 (by decide)⟩

/-- C15 (the code departs from it): the node `searchRepresentations` inserts for a full
sub-representation is tagged `Representation`. Visited on an empty tree, the
sub-representation `s1` of the grid `g` gets node 1 with the type `Representation`; in the
catalog built from the grid and its two sub-representations, the nodes `_s1` and `_s2` have
the type `Representation`. -/
theorem C15_subrepresentation_tagged_representation :
    (sampleSubRep "s1" "A").isPartial = false ∧
    (sampleSubRep "s1" "A").kind = RepKind.SubRepresentation "g" "Grid" RepKind.IjkGrid ∧
    ((searchRepresentationsNode (sampleSubRep "s1" "A") 0 Catalog.initial.assembly).toOption.map
      (fun r => (r.1, r.2.GetNodeName r.1, nodeType r.2 r.1)))
      = some (1, some "_s1", some TreeViewNodeType.Representation) ∧
    [2, 3].map (fun n => (treeGridTwoSubReps.GetNodeName n, nodeType treeGridTwoSubReps n))
      = [(some "_s1", some TreeViewNodeType.Representation),
         (some "_s2", some TreeViewNodeType.Representation)] := by
  decide

/-- C16 (the code departs from it): `initMapper` called with the type `WellboreMarkerFrame`
changes neither map, whatever the repository, the tree, the node and the maps. In the catalog
of a trajectory with a marker frame `mf`, node 3 has the type `WellboreMarkerFrame` and names
that marker frame; `initMapper` leaves the empty maps empty, where the call with the type
`WellboreMarker` on the same node stores a marker-frame converter; the materialization with
node 3 selected then calls `loadVtkObject` through the null pointer it reads under key 3. -/
theorem C16_no_converter_for_marker_frame_node :
    (∀ (repository : DataObjectRepository) (t : vtkDataAssembly) (node_id : Int) (c : Cache),
      initMapper repository t TreeViewNodeType.WellboreMarkerFrame node_id c = c) ∧
    nodeType treeMarkerFrame 3 = some TreeViewNodeType.WellboreMarkerFrame ∧
    treeMarkerFrame.GetNodeName 3 = some "_mf" ∧
    ((repoMarkerFrame.getDataObjectByUuid "mf").map (fun o =>
      match o with
      | DataObject.wellboreFrame f => f.isMarkerFrame
      | _ => false)) = some true ∧
    (initMapper repoMarkerFrame treeMarkerFrame TreeViewNodeType.WellboreMarkerFrame 3
      Cache.empty).nodeIdToMapper = [] ∧
    (initMapper repoMarkerFrame treeMarkerFrame TreeViewNodeType.WellboreMarker 3
      Cache.empty).nodeIdToMapper.map (fun kv => (kv.1, kv.2.map (fun m => m.cls)))
      = [(3, some MapperClass.ResqmlWellboreMarkerFrameToVtkPartitionedDataSet)] ∧
    materializeMarkerFrame = none := by
  refine ⟨?_, by decide, by decide, by decide, by decide, by decide, by decide⟩
  intro repository t node_id c
  simp [initMapper]

/-- C18: for a partial representation whose name is not in the tree, `searchRepresentations`
returns the text `Partial representation with UUID "<uuid>" is not loaded.` followed by a
newline, and the tree it was given; so does the visit of a sub-representation. -/
theorem C18_partial_representation_skipped (a : AbstractRepresentation)
    (subs : Except String (List AbstractRepresentation)) (idNode : Int) (t : vtkDataAssembly)
    (hstub : a.isPartial = true)
    (habsent : t.FindFirstNodeWithName ("_" ++ a.uuid) = -1) :
    searchRepresentations { toAbstractRepresentation := a, subRepresentationSet := subs } idNode t
      = ("Partial representation with UUID \"" ++ a.uuid ++ "\" is not loaded.\n", t) ∧
    searchRepresentationsOfSub a idNode t
      = ("Partial representation with UUID \"" ++ a.uuid ++ "\" is not loaded.\n", t) := by
  have h : searchRepresentationsNode a idNode t
      = Except.error ("Partial representation with UUID \"" ++ a.uuid ++
        "\" is not loaded.\n") := by
    simp [searchRepresentationsNode, hstub, habsent]
  constructor
  · simp only [searchRepresentations, h]
  · simp only [searchRepresentationsOfSub, h]

/-- C18 at a concrete input: a partial representation `sp` visited on the catalog that holds
the grid `g` alone. -/
theorem C18_partial_representation_skipped_witness :
    searchRepresentations
      { toAbstractRepresentation :=
          { uuid := "sp", title := "A", xmlTag := "SubRepresentation", isPartial := true,
            kind := RepKind.Other, valuesPropertySet := Except.ok [] },
        subRepresentationSet := Except.ok [] } 0 treePartialSubRep
      = ("Partial representation with UUID \"" ++ "sp" ++ "\" is not loaded.\n",
         treePartialSubRep) ∧
    searchRepresentationsOfSub
        { uuid := "sp", title := "A", xmlTag := "SubRepresentation", isPartial := true,
          kind := RepKind.Other, valuesPropertySet := Except.ok [] } 0 treePartialSubRep
      = ("Partial representation with UUID \"" ++ "sp" ++ "\" is not loaded.\n",
         treePartialSubRep) :=
  C18_partial_representation_skipped _ _ 0 treePartialSubRep rfl (by decide)

/-- C19 (the code departs from it): the diagnostics of the sub-representations are dropped.
For the IJK grid `g` with one partial sub-representation `sp` that has no node, the loop of
`searchSubRepresentation` gathers the text `Partial representation with UUID "sp" is not
loaded.`, and `searchSubRepresentation`, `searchRepresentations` and
`buildDataAssemblyFromDataObjectRepo` all return the empty text. -/
theorem C19_subrepresentation_diagnostics_dropped :
    (gridPartialSubRep.subRepresentationSet.toOption.map (fun l =>
      (searchSubRepresentationLoop 1 (sortByTitle (fun b => b.title) l) ""
        treePartialSubRep).1))
      = some "Partial representation with UUID \"sp\" is not loaded.\n" ∧
    (searchSubRepresentation gridPartialSubRep 1 treePartialSubRep).1 = "" ∧
    (searchRepresentations gridPartialSubRep 0 Catalog.initial.assembly).1 = "" ∧
    (searchRepresentations gridPartialSubRep 0 Catalog.initial.assembly).2.doc.names
      = ["data", "_g"] ∧
    (buildDataAssemblyFromDataObjectRepo repoPartialSubRep "" Catalog.initial).1.toOption
      = some "" := by
  decide

/-! ## The time-series grouping pass -/

namespace Forest

theorem rows_ids (p : Int) (f : Forest) : (rows p f).map (fun r => r.id) = f.ids := by
  induction f generalizing p with
  | nil => rfl
  | node i n a c s ihc ihs => simp [rows, ids, ihc, ihs]

theorem nameOf_eq_rows (i p : Int) (f : Forest) :
    nameOf i f = ((rows p f).find? (fun r => r.id == i)).map (fun r => r.name) := by
  induction f generalizing p with
  | nil => rfl
  | node j n a c s ihc ihs =>
    simp only [nameOf, rows, List.find?_cons]
    by_cases h : j = i
    · simp [h]
    · have hb : (j == i) = false := by simpa using h
      rw [if_neg h, hb, List.find?_append, ihc j, ihs p]
      cases List.find? (fun r => r.id == i) (rows j c) <;> simp

theorem parentOf_eq_rows (i p : Int) (f : Forest) :
    parentOf i p f = ((rows p f).find? (fun r => r.id == i)).map (fun r => r.parent) := by
  induction f generalizing p with
  | nil => rfl
  | node j n a c s ihc ihs =>
    simp only [parentOf, rows, List.find?_cons]
    by_cases h : j = i
    · simp [h]
    · have hb : (j == i) = false := by simpa using h
      rw [if_neg h, hb, List.find?_append, ihc j, ihs p]
      cases List.find? (fun r => r.id == i) (rows j c) <;> simp

theorem findName_eq_rows (nm : String) (p : Int) (f : Forest) :
    findName nm f = ((rows p f).find? (fun r => r.name == nm)).map (fun r => r.id) := by
  induction f generalizing p with
  | nil => rfl
  | node j n a c s ihc ihs =>
    simp only [findName, rows, List.find?_cons]
    by_cases h : n = nm
    · simp [h]
    · have hb : (n == nm) = false := by simpa using h
      rw [if_neg h, hb, List.find?_append, ihc j, ihs p]
      cases List.find? (fun r => r.name == nm) (rows j c) <;> simp

theorem rows_append (p : Int) (new f : Forest) :
    rows p (append new f) = rows p f ++ rows p new := by
  induction f with
  | nil => rfl
  | node j n a c s _ ihs => simp [append, rows, ihs]

theorem remove_eq_none_iff (i : Int) (f : Forest) : remove i f = none ↔ i ∉ f.ids := by
  induction f with
  | nil => simp [remove, ids]
  | node j n a c s ihc ihs =>
    simp only [remove, ids, List.mem_cons, List.mem_append, not_or]
    by_cases h : j = i
    · simp [h]
    · rw [if_neg h]
      cases hc : remove i c with
      | some c2 =>
        have : ¬ (i ∉ c.ids) := by rw [← ihc, hc]; simp
        simp [this]
      | none =>
        have hic : i ∉ c.ids := ihc.1 hc
        cases hs : remove i s with
        | some s2 =>
          have : ¬ (i ∉ s.ids) := by rw [← ihs, hs]; simp
          simp [this]
        | none =>
          have his : i ∉ s.ids := ihs.1 hs
          simp [hic, his, Ne.symm h]

theorem addChild_eq_none_iff (P : Int) (new f : Forest) :
    addChild P new f = none ↔ P ∉ f.ids := by
  induction f with
  | nil => simp [addChild, ids]
  | node j n a c s ihc ihs =>
    simp only [addChild, ids, List.mem_cons, List.mem_append, not_or]
    by_cases h : j = P
    · simp [h]
    · rw [if_neg h]
      cases hc : addChild P new c with
      | some c2 =>
        have : ¬ (P ∉ c.ids) := by rw [← ihc, hc]; simp
        simp [this]
      | none =>
        have hic : P ∉ c.ids := ihc.1 hc
        cases hs : addChild P new s with
        | some s2 =>
          have : ¬ (P ∉ s.ids) := by rw [← ihs, hs]; simp
          simp [this]
        | none =>
          have his : P ∉ s.ids := ihs.1 hs
          simp [hic, his, Ne.symm h]

theorem setAttr_eq_none_iff (i : Int) (k : String) (v : AttrValue) (f : Forest) :
    setAttr i k v f = none ↔ i ∉ f.ids := by
  induction f with
  | nil => simp [setAttr, ids]
  | node j n a c s ihc ihs =>
    simp only [setAttr, ids, List.mem_cons, List.mem_append, not_or]
    by_cases h : j = i
    · simp [h]
    · rw [if_neg h]
      cases hc : setAttr i k v c with
      | some c2 =>
        have : ¬ (i ∉ c.ids) := by rw [← ihc, hc]; simp
        simp [this]
      | none =>
        have hic : i ∉ c.ids := ihc.1 hc
        cases hs : setAttr i k v s with
        | some s2 =>
          have : ¬ (i ∉ s.ids) := by rw [← ihs, hs]; simp
          simp [this]
        | none =>
          have his : i ∉ s.ids := ihs.1 hs
          simp [hic, his, Ne.symm h]

end Forest

namespace Forest

theorem mem_ids_of_mem_rows {p : Int} {f : Forest} {r : Row} (h : r ∈ rows p f) :
    r.id ∈ f.ids := by
  rw [← rows_ids p f]
  exact List.mem_map_of_mem _ h

theorem addChild_rows (P m : Int) (nm : String) (a : List (String × AttrValue)) (f : Forest)
    (p : Int) (hmem : P ∈ f.ids) :
    ∃ f2, addChild P (node m nm a nil nil) f = some f2 ∧
      (rows p f2).Perm (⟨m, nm, a, P⟩ :: rows p f) := by
  induction f generalizing p with
  | nil => simp [ids] at hmem
  | node j n2 a2 c s ihc ihs =>
    by_cases h : j = P
    · subst h
      refine ⟨node j n2 a2 (append (node m nm a nil nil) c) s, by simp [addChild], ?_⟩
      simp only [rows, rows_append, List.append_nil]
      refine (List.Perm.cons _ ?_).trans (List.Perm.swap _ _ _)
      rw [List.append_assoc]
      refine (List.perm_append_comm).trans ?_
      simp only [List.append_assoc, List.singleton_append]
      refine (List.perm_append_comm).trans ?_
      simp
    · simp only [ids, List.mem_cons, List.mem_append] at hmem
      by_cases hic : P ∈ c.ids
      · obtain ⟨c2, hc2, hr2⟩ := ihc j hic
        refine ⟨node j n2 a2 c2 s, by simp [addChild, h, hc2], ?_⟩
        simp only [rows]
        refine (List.Perm.cons _ (hr2.append_right _)).trans ?_
        simp only [List.cons_append]
        exact List.Perm.swap _ _ _
      · have his : P ∈ s.ids := by
          rcases hmem with e | e | e
          · exact absurd e.symm h
          · exact absurd e hic
          · exact e
        obtain ⟨s2, hs2, hr2⟩ := ihs p his
        have hcn : addChild P (node m nm a nil nil) c = none :=
          (addChild_eq_none_iff P _ c).2 hic
        refine ⟨node j n2 a2 c s2, by simp [addChild, h, hcn, hs2], ?_⟩
        simp only [rows]
        refine (List.Perm.cons _ (hr2.append_left _)).trans ?_
        refine (List.Perm.cons _ (List.perm_middle)).trans ?_
        exact List.Perm.swap _ _ _

theorem map_setRow_of_not_mem (i p : Int) (k : String) (v : AttrValue) (f : Forest)
    (h : i ∉ f.ids) : (rows p f).map (setRow i k v) = rows p f := by
  have hall : ∀ r ∈ rows p f, setRow i k v r = id r := by
    intro r hr
    have : r.id ≠ i := fun e => h (e ▸ mem_ids_of_mem_rows hr)
    simp [setRow, this]
  rw [List.map_congr_left hall, List.map_id]

theorem setAttr_rows (i : Int) (k : String) (v : AttrValue) (f : Forest) (p : Int)
    (hnd : f.ids.Nodup) (hmem : i ∈ f.ids) :
    ∃ f2, setAttr i k v f = some f2 ∧ rows p f2 = (rows p f).map (setRow i k v) := by
  induction f generalizing p with
  | nil => simp [ids] at hmem
  | node j nm a c s ihc ihs =>
    simp only [ids, List.nodup_cons, List.mem_append, not_or, List.nodup_append] at hnd
    obtain ⟨⟨hjc, hjs⟩, hndc, hnds, hdisj⟩ := hnd
    by_cases h : j = i
    · subst h
      refine ⟨node j nm (setAttrList k v a) c s, by simp [setAttr], ?_⟩
      simp [rows, setRow, map_setRow_of_not_mem j _ k v _ hjc, map_setRow_of_not_mem j _ k v _ hjs]
    · simp only [ids, List.mem_cons, List.mem_append] at hmem
      by_cases hic : i ∈ c.ids
      · obtain ⟨c2, hc2, hr2⟩ := ihc j hndc hic
        have his : i ∉ s.ids := fun e => hdisj hic e
        refine ⟨node j nm a c2 s, by simp [setAttr, h, hc2], ?_⟩
        simp [rows, hr2, setRow, h, map_setRow_of_not_mem i p k v s his]
      · have his : i ∈ s.ids := by
          rcases hmem with e | e | e
          · exact absurd e.symm h
          · exact absurd e hic
          · exact e
        obtain ⟨s2, hs2, hr2⟩ := ihs p hnds his
        have hcn : setAttr i k v c = none := (setAttr_eq_none_iff i k v c).2 hic
        refine ⟨node j nm a c s2, by simp [setAttr, h, hcn, hs2], ?_⟩
        simp [rows, hr2, setRow, h, map_setRow_of_not_mem i j k v c hic]

end Forest

/-! ### Lists of rows -/

theorem find_id_of_mem (l : List Row) (hnd : (l.map (fun r => r.id)).Nodup) (r : Row)
    (hr : r ∈ l) : l.find? (fun x => x.id == r.id) = some r := by
  induction l with
  | nil => simp at hr
  | cons x xs ih =>
    simp only [List.map_cons, List.nodup_cons] at hnd
    rcases List.mem_cons.1 hr with e | e
    · subst e; simp
    · have hne : x.id ≠ r.id := fun h => hnd.1 (h ▸ List.mem_map_of_mem _ e)
      have hb : (x.id == r.id) = false := by simpa using hne
      rw [List.find?_cons, hb]
      exact ih hnd.2 e

namespace vtkDataAssembly

theorem rows_map_id (t : vtkDataAssembly) : t.rows.map (fun r => r.id) = t.doc.ids :=
  Forest.rows_ids _ _

theorem rows_id_nodup (t : vtkDataAssembly) (hwf : t.wf) :
    (t.rows.map (fun r => r.id)).Nodup := by
  rw [rows_map_id]; exact hwf.2.1

theorem mem_ids_iff_row (t : vtkDataAssembly) (i : Int) :
    i ∈ t.doc.ids ↔ ∃ r ∈ t.rows, r.id = i := by
  rw [← rows_map_id, List.mem_map]

theorem GetParent_of_row (t : vtkDataAssembly) (hwf : t.wf) (r : Row) (hr : r ∈ t.rows) :
    t.GetParent r.id = r.parent := by
  unfold GetParent
  rw [Forest.parentOf_eq_rows]
  have := find_id_of_mem t.rows (rows_id_nodup t hwf) r hr
  unfold rows at this
  rw [this]; rfl

theorem GetNodeName_of_row (t : vtkDataAssembly) (hwf : t.wf) (r : Row) (hr : r ∈ t.rows) :
    t.GetNodeName r.id = some r.name := by
  unfold GetNodeName
  rw [Forest.nameOf_eq_rows r.id (-1)]
  have := find_id_of_mem t.rows (rows_id_nodup t hwf) r hr
  unfold rows at this
  rw [this]; rfl

theorem row_of_FindFirstNodeWithName (t : vtkDataAssembly) (nm : String)
    (h : t.FindFirstNodeWithName nm ≠ -1) :
    ∃ r ∈ t.rows, r.id = t.FindFirstNodeWithName nm ∧ r.name = nm := by
  unfold FindFirstNodeWithName at h ⊢
  rw [Forest.findName_eq_rows nm (-1)] at h ⊢
  cases hf : List.find? (fun r => r.name == nm) (Forest.rows (-1) t.doc) with
  | none => rw [hf] at h; exact absurd rfl h
  | some r =>
    refine ⟨r, List.mem_of_find?_eq_some hf, rfl, ?_⟩
    have := List.find?_some hf
    simpa using this

theorem SetAttribute_rows (t : vtkDataAssembly) (hwf : t.wf) (i : Int) (k : String)
    (v : AttrValue) (hmem : i ∈ t.doc.ids) :
    (t.SetAttribute i k v).rows = t.rows.map (Forest.setRow i k v) ∧
    (t.SetAttribute i k v).MaxUniqueId = t.MaxUniqueId := by
  obtain ⟨f2, hf2, hr2⟩ := Forest.setAttr_rows i k v t.doc (-1) hwf.2.1 hmem
  simp only [SetAttribute, hf2]
  exact ⟨hr2, trivial⟩

end vtkDataAssembly

theorem Forest.parent_of_row (p : Int) (f : Forest) :
    ∀ r ∈ Forest.rows p f, r.parent = p ∨ r.parent ∈ f.ids := by
  induction f generalizing p with
  | nil => intro r hr; simp [Forest.rows] at hr
  | node j n a c s ihc ihs =>
    intro r hr
    simp only [Forest.rows, List.mem_cons, List.mem_append] at hr
    rcases hr with e | e | e
    · subst e; exact Or.inl rfl
    · rcases ihc j r e with h | h
      · exact Or.inr (by simp [Forest.ids, h])
      · exact Or.inr (by simp [Forest.ids, h])
    · rcases ihs p r e with h | h
      · exact Or.inl h
      · exact Or.inr (by simp [Forest.ids, h])

namespace vtkDataAssembly

end vtkDataAssembly

theorem nodeSetPush_flat (title : String) (n : Int) (M : List (String × List Int)) :
    ((nodeSetPush title n M).flatMap (fun pr => pr.2)).Perm
      (M.flatMap (fun pr => pr.2) ++ [n]) := by
  induction M with
  | nil => simp [nodeSetPush]
  | cons kv rest ih =>
    obtain ⟨k, v⟩ := kv
    simp only [nodeSetPush]
    by_cases h1 : stringLess title k = true
    · rw [if_pos h1]
      simp only [List.flatMap_cons]
      exact (List.perm_append_singleton _ _).symm.trans (by simp)
    · rw [if_neg h1]
      by_cases h2 : title = k
      · rw [if_pos h2]
        simp only [List.flatMap_cons, List.append_assoc]
        exact List.Perm.append_left _ List.perm_append_comm
      · rw [if_neg h2]
        simp only [List.flatMap_cons, List.append_assoc]
        exact List.Perm.append_left _ ih

theorem timeSeriesScanLoop_spec (su tag : String) (t : vtkDataAssembly)
    (props : List TimeSeriesProperty) :
    ∀ st : TimeSeriesScan,
      (∀ p ∈ props, groupable t p = true → ∃ k, p.timestampIndex = Except.ok k) →
      (timeSeriesScanLoop su tag t props st).1 = none ∧
      (timeSeriesScanLoop su tag t props st).2.propertyName_to_nodeSet =
        (props.filter (groupable t)).foldl
          (fun M p => nodeSetPush p.title (propertyNode t p) M) st.propertyName_to_nodeSet := by
  induction props with
  | nil => intro st _; exact ⟨rfl, rfl⟩
  | cons p rest ih =>
    intro st hok
    have hrest : ∀ q ∈ rest, groupable t q = true → ∃ k, q.timestampIndex = Except.ok k :=
      fun q hq => hok q (List.mem_cons_of_mem _ hq)
    unfold timeSeriesScanLoop
    by_cases hs : p.xmlTag = ContinuousProperty_XML_TAG ∨ p.xmlTag = DiscreteProperty_XML_TAG
    · rw [if_pos hs]
      by_cases hn : t.FindFirstNodeWithName ("_" ++ p.uuid) = -1
      · simp only [hn, if_true]
        have hg : groupable t p = false := by
          simp [groupable, propertyNode, hn]
        rw [List.filter_cons, hg]
        exact ih _ hrest
      · simp only [hn, if_false]
        by_cases hp : t.GetParent (t.FindFirstNodeWithName ("_" ++ p.uuid)) = -1
        · have hg : groupable t p = false := by
            simp [groupable, propertyNode, hp]
          simp only [ne_eq, hp, not_true_eq_false, if_false]
          rw [List.filter_cons, hg]
          exact ih _ hrest
        · have hg : groupable t p = true := by
            have hs2 : (p.xmlTag = ContinuousProperty_XML_TAG ∨
                p.xmlTag = DiscreteProperty_XML_TAG) := hs
            simp [groupable, propertyNode, hn, hp]
            exact hs2
          obtain ⟨k, hk⟩ := hok p (List.mem_cons_self _ _) hg
          simp only [ne_eq, hp, not_false_eq_true, if_true, hk]
          rw [List.filter_cons, hg]
          simp only [if_true, List.foldl_cons]
          exact ih _ hrest
    · rw [if_neg hs]
      have hg : groupable t p = false := by
        have h1 : ¬ p.xmlTag = ContinuousProperty_XML_TAG := fun e => hs (Or.inl e)
        have h2 : ¬ p.xmlTag = DiscreteProperty_XML_TAG := fun e => hs (Or.inr e)
        simp [groupable, h1, h2]
      rw [List.filter_cons, hg]
      exact ih _ hrest

theorem row_unique (t : vtkDataAssembly) (hwf : t.wf) (r1 r2 : Row) (h1 : r1 ∈ t.rows)
    (h2 : r2 ∈ t.rows) (h : r1.id = r2.id) : r1 = r2 :=
  List.inj_on_of_nodup_map (rows_id_nodup t hwf) h1 h2 h

theorem GroupingInv.start (t0 : vtkDataAssembly) (hwf0 : t0.wf) : GroupingInv t0 t0 [] [] := by
  refine ⟨hwf0, le_refl _, ?_, by simp, by simp, by simp⟩
  simp

theorem MakeValidNodeName_of_valid (c : Char) (rest : List Char)
    (hall : ∀ x ∈ c :: rest, isNameChar x = true) (hstart : isNameStart c = true) :
    MakeValidNodeName (String.mk (c :: rest)) = String.mk (c :: rest) := by
  rw [MakeValidNodeName_eq_spec]
  have hne : String.mk (c :: rest) ≠ "" := by
    intro h
    have := congrArg String.data h
    simp at this
  rw [if_neg hne]
  unfold specNodeName filterNameChars
  have hf : (c :: rest).filter isNameChar = c :: rest := List.filter_eq_self.2 hall
  simp only [hf, hstart, if_true]

/-- C25: the table `sorted_valid_chars` has 65 characters in strictly increasing order of
their codes; `std::binary_search` over it accepts a character exactly when it is `-`, `.`,
a digit, an upper-case letter, `_` or a lower-case letter, and gives for every character what
a linear search over the table gives. -/
theorem C25_table_sorted_binary_search_agrees :
    sorted_valid_chars.Pairwise (fun a b => a.toNat < b.toNat) ∧
    sorted_valid_chars.length = 65 ∧
    (∀ c : Char, binary_search sorted_valid_chars c = true ↔
      (c = '-' ∨ c = '.' ∨ ('0' ≤ c ∧ c ≤ '9') ∨ ('A' ≤ c ∧ c ≤ 'Z') ∨ c = '_' ∨
        ('a' ≤ c ∧ c ≤ 'z'))) ∧
    (∀ c : Char, binary_search sorted_valid_chars c = sorted_valid_chars.any (fun x => x == c)) := by
  refine ⟨by unfold sorted_valid_chars; decide, by unfold sorted_valid_chars; decide, ?_, ?_⟩
  · intro c
    rw [binary_search_sorted_valid_chars]
    unfold isNameChar
    simp only [Bool.or_eq_true, Bool.and_eq_true, decide_eq_true_eq, beq_iff_eq]
    tauto
  · intro c
    rw [binary_search_eq_mem _ sorted_valid_chars_pairwise]
    cases h : sorted_valid_chars.any (fun x => x == c)
    · rw [List.any_eq_false] at h
      simp only [decide_eq_false_iff_not]
      intro hm
      exact h c hm (by simp)
    · rw [List.any_eq_true] at h
      obtain ⟨x, hx, hxc⟩ := h
      have : x = c := by simpa using hxc
      subst this
      simpa using hx

/-- C30: `MakeValidNodeName` applied to its own result gives that result again. -/
theorem C30_MakeValidNodeName_idempotent (s : String) :
    MakeValidNodeName (MakeValidNodeName s) = MakeValidNodeName s := by
  by_cases hs : s = ""
  · subst hs; decide
  · have h1 : MakeValidNodeName s = specNodeName s := by
      rw [MakeValidNodeName_eq_spec, if_neg hs]
    rw [h1]
    unfold specNodeName filterNameChars
    cases hf : s.data.filter isNameChar with
    | nil =>
      simp only
      decide
    | cons x rest =>
      have hall : ∀ c ∈ x :: rest, isNameChar c = true := by
        intro c hc
        rw [← hf] at hc
        exact (List.mem_filter.mp hc).2
      cases hx : isNameStart x
      · have e : "_" ++ String.mk (x :: rest) = String.mk ('_' :: x :: rest) := rfl
        simp only [hx, Bool.false_eq_true, if_false]
        rw [e]
        apply MakeValidNodeName_of_valid
        · intro c hc
          rcases List.mem_cons.1 hc with h | h
          · subst h; decide
          · exact hall c h
        · decide
      · simp only [hx, if_true]
        exact MakeValidNodeName_of_valid x rest hall hx

/-! ## Grouped node names and the perforation list -/

theorem grouped_name_data (u L : String) : ("_" ++ u ++ L).data = '_' :: (u.data ++ L.data) := by
  simp [String.data_append]

theorem grouped_name_split (u L : String) (hu : u.length = 36) :
    String.mk ((("_" ++ u ++ L).data.drop 1).take 36) = u ∧
    String.mk ((("_" ++ u ++ L).data.drop 1).drop 36) = L ∧
    ¬ (("_" ++ u ++ L).data.drop 1).length < 36 ∧
    "_" ++ String.mk (("_" ++ u ++ L).data.drop 1) = "_" ++ u ++ L := by
  have hl : u.data.length = 36 := hu
  rw [grouped_name_data]
  simp only [List.drop_succ_cons, List.drop_zero]
  refine ⟨?_, ?_, ?_, ?_⟩
  · rw [← hl, List.take_left']
    rfl
  · rw [← hl, List.drop_left']
    rfl
  · simp [hl]
  · apply String.ext
    simp [String.data_append]

theorem timeSeriesIndexGet_set (key : String × String × Nat) (value : String)
    (index : List ((String × String × Nat) × String)) :
    timeSeriesIndexGet key (timeSeriesIndexSet key value index) = value := by
  induction index with
  | nil => simp [timeSeriesIndexSet, timeSeriesIndexGet]
  | cons kv rest ih =>
    obtain ⟨k, v⟩ := kv
    unfold timeSeriesIndexSet
    by_cases h : k = key
    · rw [if_pos h]; simp [timeSeriesIndexGet]
    · rw [if_neg h]
      unfold timeSeriesIndexGet at ih ⊢
      have hb : (k == key) = false := by simpa using h
      rw [List.find?_cons]
      simp only [hb]
      exact ih

/-- C28: for a time series uuid `u` of 36 characters and a title, with
`L = MakeValidNodeName(seriesXmlTag + "_" + title)`: the name `"_" + u + L` of the grouped
node without its first character splits at offset 36 into `u` and `L`; the scan of
`searchTimeSeries` stores the uuid of a groupable property of that title under
`(u, L, timeIndex)` and a lookup under that key gives it back; `loadMapper` and the teardown
of a node of that name read the index under `(u, L, time)`. -/
theorem C28_grouped_name_round_trip (u tag title : String) (hu : u.length = 36) :
    String.mk ((("_" ++ u ++ MakeValidNodeName (tag ++ "_" ++ title)).data.drop 1).take 36)
      = u ∧
    String.mk ((("_" ++ u ++ MakeValidNodeName (tag ++ "_" ++ title)).data.drop 1).drop 36)
      = MakeValidNodeName (tag ++ "_" ++ title) ∧
    (∀ (t : vtkDataAssembly) (p : TimeSeriesProperty) (k : Nat) (st : TimeSeriesScan),
      p.title = title → groupable t p = true → p.timestampIndex = Except.ok k →
      (timeSeriesScanLoop u tag t [p] st).2.timeSeriesIndex =
        timeSeriesIndexSet (u, MakeValidNodeName (tag ++ "_" ++ title), k) p.uuid
          st.timeSeriesIndex ∧
      timeSeriesIndexGet (u, MakeValidNodeName (tag ++ "_" ++ title), k)
        (timeSeriesScanLoop u tag t [p] st).2.timeSeriesIndex = p.uuid) ∧
    (∀ (repository : DataObjectRepository) (t : vtkDataAssembly) (n : Int) (time : Nat)
      (s : Lifecycle) (m : Mapper),
      t.GetNodeName n = some ("_" ++ u ++ MakeValidNodeName (tag ++ "_" ++ title)) →
      mapAt (t.GetParent (t.FindFirstNodeWithName
        ("_" ++ u ++ MakeValidNodeName (tag ++ "_" ++ title)))) s.cache.nodeIdToMapper = some m →
      ∃ s2, loadMapper repository t TreeViewNodeType.TimeSeries n time s = some s2 ∧
        s2.timeSeriesIndex = timeSeriesIndexTouch
          (u, MakeValidNodeName (tag ++ "_" ++ title), time) s.timeSeriesIndex ∧
        mapAt (t.GetParent (t.FindFirstNodeWithName
          ("_" ++ u ++ MakeValidNodeName (tag ++ "_" ++ title)))) s2.cache.nodeIdToMapper =
          some (m.addDataArray (timeSeriesIndexGet
            (u, MakeValidNodeName (tag ++ "_" ++ title), time) s2.timeSeriesIndex))) ∧
    (∀ (t : vtkDataAssembly) (n : Int) (time : Nat) (s : Lifecycle) (m : Mapper),
      nodeType t n = some TreeViewNodeType.TimeSeries →
      t.GetNodeName n = some ("_" ++ u ++ MakeValidNodeName (tag ++ "_" ++ title)) →
      mapFind (t.GetParent (t.FindFirstNodeWithName
        ("_" ++ u ++ MakeValidNodeName (tag ++ "_" ++ title)))) s.cache.nodeIdToMapper
        = some (some m) →
      ∃ s2, deleteMapperOne t time n s = some s2 ∧
        s2.timeSeriesIndex = timeSeriesIndexTouch
          (u, MakeValidNodeName (tag ++ "_" ++ title), time) s.timeSeriesIndex ∧
        mapAt (t.GetParent (t.FindFirstNodeWithName
          ("_" ++ u ++ MakeValidNodeName (tag ++ "_" ++ title)))) s2.cache.nodeIdToMapper =
          some (m.deleteDataArray (timeSeriesIndexGet
            (u, MakeValidNodeName (tag ++ "_" ++ title), time) s2.timeSeriesIndex))) := by
  obtain ⟨h1, h2, h3, h4⟩ := grouped_name_split u (MakeValidNodeName (tag ++ "_" ++ title)) hu
  refine ⟨h1, h2, ?_, ?_, ?_⟩
  · intro t p k st hpt hg hk
    have hg2 := hg
    simp only [groupable, propertyNode, Bool.and_eq_true, Bool.or_eq_true, decide_eq_true_eq,
      bne_iff_ne, ne_eq] at hg2
    obtain ⟨⟨hs, hn⟩, hp⟩ := hg2
    have hscan : (timeSeriesScanLoop u tag t [p] st).2.timeSeriesIndex =
        timeSeriesIndexSet (u, MakeValidNodeName (tag ++ "_" ++ title), k) p.uuid
          st.timeSeriesIndex := by
      simp only [timeSeriesScanLoop, if_pos hs, hn, if_false, ne_eq, hp, not_false_eq_true,
        if_true, hk, hpt]
    exact ⟨hscan, by rw [hscan, timeSeriesIndexGet_set]⟩
  · intro repository t n time s m hname hm
    simp only [loadMapper, if_true, hname, Option.getD_some, h1, h2, h3, h4, if_false, hm]
    refine ⟨_, rfl, rfl, ?_⟩
    simp only [mapAt, mapFind_mapSet_self]
  · intro t n time s m hty hname hm
    simp only [deleteMapperOne, hty, hname, Option.getD_some, h1, h2, h3, h4, if_false, hm]
    refine ⟨_, rfl, rfl, ?_⟩
    simp only [mapAt, mapFind_mapSet_self]

/-- C29: `removePerforation(u)` leaves the entries whose id is not `u`, in their order, and no
entry with the id `u`; when no entry has the id of `p`, adding `p` and then removing its id
gives the list back. -/
theorem C29_removePerforation_undoes_add (m : MapperSet) (u : String) (p : PerforationMapper) :
    (m.removePerforation u).list_perforation =
      m.list_perforation.filter (fun q => decide (q.uuid ≠ u)) ∧
    (∀ q ∈ (m.removePerforation u).list_perforation, q.uuid ≠ u) ∧
    (m.removePerforation u).list_perforation.Sublist m.list_perforation ∧
    ((∀ q ∈ m.list_perforation, q.uuid ≠ p.uuid) →
      ((m.addPerforation p).removePerforation p.uuid).list_perforation = m.list_perforation) := by
  have hfilter : (m.removePerforation u).list_perforation =
      m.list_perforation.filter (fun q => decide (q.uuid ≠ u)) := by
    simp only [MapperSet.removePerforation]
    apply List.filter_congr
    intro q _
    by_cases h : q.uuid = u <;> simp [h]
  refine ⟨hfilter, ?_, ?_, ?_⟩
  · intro q hq
    rw [hfilter] at hq
    simpa using (List.mem_filter.1 hq).2
  · rw [hfilter]
    exact List.filter_sublist _
  · intro hno
    have hany : ¬ (m.list_perforation.any (fun q => q.uuid == p.uuid) = true) := by
      rw [List.any_eq_true]
      rintro ⟨q, hq, hqu⟩
      exact hno q hq (by simpa using hqu)
    simp only [MapperSet.addPerforation, if_neg hany, MapperSet.removePerforation,
      List.filter_append]
    have h1 : m.list_perforation.filter (fun q => !(q.uuid == p.uuid)) = m.list_perforation := by
      rw [List.filter_eq_self]
      intro q hq
      simpa using hno q hq
    rw [h1]
    simp

/-- C29 at a concrete list: `p2` is added behind `p1` and removed again. -/
theorem C29_removePerforation_undoes_add_witness :
    ((MapperSet.addPerforation
        ⟨1, "c1", [⟨"p1", "Perfo_p1", "", WellboreStatut.GazInjecter⟩], true⟩
        ⟨"p2", "Perfo_p2", "", WellboreStatut.GazInjecter⟩).removePerforation
          "p2").list_perforation
      = [⟨"p1", "Perfo_p1", "", WellboreStatut.GazInjecter⟩] :=
  (C29_removePerforation_undoes_add
    ⟨1, "c1", [⟨"p1", "Perfo_p1", "", WellboreStatut.GazInjecter⟩], true⟩ "p2"
    ⟨"p2", "Perfo_p2", "", WellboreStatut.GazInjecter⟩).2.2.2 (by decide)

/-- C28 at the uuid of the series of `repoSeries` and the title `Poro`. -/
theorem C28_grouped_name_round_trip_witness :
    String.mk ((("_" ++ "00000000-0000-0000-0000-0000000000ts" ++
        MakeValidNodeName ("TimeSeries" ++ "_" ++ "Poro")).data.drop 1).take 36)
      = "00000000-0000-0000-0000-0000000000ts" ∧
    String.mk ((("_" ++ "00000000-0000-0000-0000-0000000000ts" ++
        MakeValidNodeName ("TimeSeries" ++ "_" ++ "Poro")).data.drop 1).drop 36)
      = MakeValidNodeName ("TimeSeries" ++ "_" ++ "Poro") :=
  ⟨(C28_grouped_name_round_trip "00000000-0000-0000-0000-0000000000ts" "TimeSeries" "Poro"
      (by decide)).1,
   (C28_grouped_name_round_trip "00000000-0000-0000-0000-0000000000ts" "TimeSeries" "Poro"
      (by decide)).2.1⟩

/-! ## The current selection is closed under parents -/

theorem isAncestor_mem_ids {t : vtkDataAssembly} {a n : Int} (h : IsAncestor t a n) :
    a ∈ t.doc.ids ∧ n ∈ t.doc.ids := by
  induction h with
  | parent hp hne => exact ⟨(GetParent_mem t _ _ hp hne).2.2, (GetParent_mem t _ _ hp hne).2.1⟩
  | step _ hp hne ih => exact ⟨ih.1, (GetParent_mem t _ _ hp hne).2.1⟩

theorem isAncestor_trans {t : vtkDataAssembly} {a p n : Int} (h1 : IsAncestor t a p)
    (h2 : IsAncestor t p n) : IsAncestor t a n := by
  induction h2 with
  | parent hp hne => exact IsAncestor.step h1 hp hne
  | step _ hp hne ih => exact IsAncestor.step (ih h1) hp hne

theorem closureOf_subset_ids (t : vtkDataAssembly) (hwf : t.wf) (n : Int)
    (hn : n ∈ t.doc.ids) : ∀ x ∈ closureOf t n, x ∈ t.doc.ids := by
  intro x hx
  rcases (mem_closureOf_iff t hwf n x).1 hx with h | h | h
  · rw [h.1]; exact hn
  · exact (isAncestor_mem_ids h.1).1
  · exact (isAncestor_mem_ids h).2

/-- In a well-formed tree every node but the root has a parent. -/
theorem GetParent_ne_neg_one (t : vtkDataAssembly) (hwf : t.wf) (x : Int)
    (hx : x ∈ t.doc.ids) (h0 : x ≠ 0) : t.GetParent x ≠ -1 := by
  obtain ⟨n, a, c, hdoc⟩ := (rooted_iff t).1 hwf.1
  obtain ⟨r, hr, hrid⟩ := (mem_ids_iff_row t x).1 hx
  rw [← hrid, GetParent_of_row t hwf r hr]
  have hr2 : r ∈ Forest.rows (-1) t.doc := hr
  rw [hdoc] at hr2
  simp only [Forest.rows, List.append_nil, List.mem_cons] at hr2
  rcases hr2 with e | e
  · rw [e] at hrid; exact absurd hrid.symm h0
  · rcases Forest.parent_of_row 0 c r e with h | h
    · rw [h]; decide
    · have hmem : r.parent ∈ t.doc.ids := by
        rw [hdoc]; simp [Forest.ids, h]
      have := (hwf.2.2 _ hmem).1
      omega

/-- The nodes a call `selectNodeId` marks hold, with every node, its parent unless that is the
root. -/
theorem closureOf_parent_closed (t : vtkDataAssembly) (hwf : t.wf) (n : Int)
    (hn : n ∈ t.doc.ids) :
    ∀ x ∈ closureOf t n, t.GetParent x = 0 ∨ t.GetParent x ∈ closureOf t n := by
  intro x hx
  by_cases hp0 : t.GetParent x = 0
  · exact Or.inl hp0
  · right
    have hxid := closureOf_subset_ids t hwf n hn x hx
    have hx0 : x ≠ 0 := fun e => zero_not_mem_closureOf t hwf n (e ▸ hx)
    have hpne := GetParent_ne_neg_one t hwf x hxid hx0
    rw [mem_closureOf_iff t hwf]
    rcases (mem_closureOf_iff t hwf n x).1 hx with h | h | h
    · right; left
      exact ⟨IsAncestor.parent (by rw [h.1]) hpne, hp0⟩
    · right; left
      exact ⟨isAncestor_trans (IsAncestor.parent rfl hpne) h.1, hp0⟩
    · cases h with
      | parent hp hne =>
        left
        exact ⟨hp, fun e => hp0 (by rw [hp, e])⟩
      | step hanc hp hne =>
        right; right
        rw [hp]; exact hanc

/-- The subtree of the root of a well-formed tree: every node but the root. -/
theorem mem_GetChildNodes_root (t : vtkDataAssembly) (hwf : t.wf) (x : Int) :
    x ∈ t.GetChildNodes 0 true ↔ x ∈ t.doc.ids ∧ x ≠ 0 := by
  obtain ⟨n, a, c, hdoc⟩ := (rooted_iff t).1 hwf.1
  have hnd := hwf.2.1
  rw [hdoc] at hnd
  simp only [Forest.ids, List.append_nil, List.nodup_cons] at hnd
  simp only [GetChildNodes, hdoc, Forest.subtreeOf, if_true, Forest.ids, List.append_nil,
    List.mem_cons]
  constructor
  · intro h
    exact ⟨Or.inr h, fun e => hnd.1 (e ▸ h)⟩
  · rintro ⟨h | h, h0⟩
    · exact absurd h h0
    · exact h

theorem runSelection_closed (t : vtkDataAssembly) (hwf : t.wf) (calls : List SelectionCall) :
    ∀ s : Selection,
      selectsNodesOf t calls = true →
      ((0 : Int) ∉ s.currentSelection ∧
        ∀ x ∈ s.currentSelection, t.GetParent x = 0 ∨ t.GetParent x ∈ s.currentSelection) →
      ∃ s2, runSelection t calls s = some s2 ∧ (0 : Int) ∉ s2.currentSelection ∧
        ∀ x ∈ s2.currentSelection,
          t.GetParent x = 0 ∨ t.GetParent x ∈ s2.currentSelection := by
  induction calls with
  | nil => intro s _ h; exact ⟨s, rfl, h⟩
  | cons call rest ih =>
    intro s hlive hinv
    simp only [selectsNodesOf, List.all_cons, Bool.and_eq_true] at hlive
    have hrest : selectsNodesOf t rest = true := hlive.2
    cases call with
    | select node =>
      have hnode : node ∈ t.doc.ids := by simpa using hlive.1
      obtain ⟨s1, hs1, hm⟩ := selectNodeId_marked t hwf.2.1 node s
      have hinv1 : (0 : Int) ∉ s1.currentSelection ∧
          ∀ x ∈ s1.currentSelection,
            t.GetParent x = 0 ∨ t.GetParent x ∈ s1.currentSelection := by
        refine ⟨?_, ?_⟩
        · intro h0
          rcases (hm.1 0).1 h0 with h | h
          · exact hinv.1 h
          · exact zero_not_mem_closureOf t hwf node h
        · intro x hx
          rcases (hm.1 x).1 hx with h | h
          · rcases hinv.2 x h with h2 | h2
            · exact Or.inl h2
            · exact Or.inr ((hm.1 _).2 (Or.inl h2))
          · rcases closureOf_parent_closed t hwf node hnode x h with h2 | h2
            · exact Or.inl h2
            · exact Or.inr ((hm.1 _).2 (Or.inr h2))
      obtain ⟨s2, hs2, h2⟩ := ih s1 hrest hinv1
      exact ⟨s2, by simp only [runSelection, hs1, Option.some_bind, hs2], h2⟩
    | clear =>
      obtain ⟨s2, hs2, h2⟩ := ih (clearSelection s) hrest
        ⟨by simp [clearSelection], by simp [clearSelection]⟩
      exact ⟨s2, by simp only [runSelection, hs2], h2⟩

theorem setInsert_sorted (x : Int) (s : List Int) (hs : s.Pairwise (fun a b => a < b)) :
    (setInsert x s).Pairwise (fun a b => a < b) := by
  induction s with
  | nil => simp [setInsert]
  | cons y ys ih =>
    rw [List.pairwise_cons] at hs
    unfold setInsert
    by_cases h1 : x < y
    · rw [if_pos h1, List.pairwise_cons, List.pairwise_cons]
      refine ⟨?_, hs.1, hs.2⟩
      intro b hb
      rcases List.mem_cons.1 hb with e | e
      · rw [e]; exact h1
      · exact lt_trans h1 (hs.1 b e)
    · rw [if_neg h1]
      by_cases h2 : x = y
      · rw [if_pos h2, List.pairwise_cons]; exact hs
      · rw [if_neg h2, List.pairwise_cons]
        refine ⟨?_, ih hs.2⟩
        intro b hb
        rcases (mem_setInsert b x ys).1 hb with e | e
        · rw [e]; omega
        · exact hs.1 b e

/-- The states in which the two sets are strictly increasing lists, as `std::set` keeps
them. -/
theorem mark_sorted (s : Selection) (n : Int)
    (hs : s.currentSelection.Pairwise (fun a b => a < b) ∧
      s.oldSelection.Pairwise (fun a b => a < b)) :
    (s.mark n).currentSelection.Pairwise (fun a b => a < b) ∧
      (s.mark n).oldSelection.Pairwise (fun a b => a < b) :=
  ⟨setInsert_sorted n _ hs.1, List.Pairwise.filter _ hs.2⟩

theorem selectNodeIdParent_sorted (t : vtkDataAssembly) :
    ∀ (fuel : Nat) (node : Int) (s s2 : Selection),
      selectNodeIdParent t fuel node s = some s2 →
      (s.currentSelection.Pairwise (fun a b => a < b) ∧
        s.oldSelection.Pairwise (fun a b => a < b)) →
      (s2.currentSelection.Pairwise (fun a b => a < b) ∧
        s2.oldSelection.Pairwise (fun a b => a < b)) := by
  intro fuel
  induction fuel with
  | zero => intro node s s2 h; simp [selectNodeIdParent] at h
  | succ fuel ih =>
    intro node s s2 h hs
    simp only [selectNodeIdParent] at h
    by_cases hp : t.GetParent node > 0
    · rw [if_pos hp] at h
      exact ih _ _ _ h (mark_sorted s _ hs)
    · rw [if_neg hp] at h
      injection h with h
      rw [← h]; exact hs

theorem foldlM_sorted (step : Selection → Int → Option Selection)
    (hstep : ∀ acc c acc2, step acc c = some acc2 →
      (acc.currentSelection.Pairwise (fun a b => a < b) ∧
        acc.oldSelection.Pairwise (fun a b => a < b)) →
      (acc2.currentSelection.Pairwise (fun a b => a < b) ∧
        acc2.oldSelection.Pairwise (fun a b => a < b))) :
    ∀ (l : List Int) (s s2 : Selection), l.foldlM step s = some s2 →
      (s.currentSelection.Pairwise (fun a b => a < b) ∧
        s.oldSelection.Pairwise (fun a b => a < b)) →
      (s2.currentSelection.Pairwise (fun a b => a < b) ∧
        s2.oldSelection.Pairwise (fun a b => a < b)) := by
  intro l
  induction l with
  | nil =>
    intro s s2 h hs
    simp only [List.foldlM_nil] at h
    injection h with h
    rw [← h]; exact hs
  | cons c cs ih =>
    intro s s2 h hs
    simp only [List.foldlM_cons] at h
    cases h1 : step s c with
    | none => rw [h1] at h; simp at h
    | some acc =>
      rw [h1] at h
      exact ih acc s2 h (hstep s c acc h1 hs)

theorem selectNodeIdChildren_sorted (t : vtkDataAssembly) :
    ∀ (fuel : Nat) (node : Int) (s s2 : Selection),
      selectNodeIdChildren t fuel node s = some s2 →
      (s.currentSelection.Pairwise (fun a b => a < b) ∧
        s.oldSelection.Pairwise (fun a b => a < b)) →
      (s2.currentSelection.Pairwise (fun a b => a < b) ∧
        s2.oldSelection.Pairwise (fun a b => a < b)) := by
  intro fuel
  induction fuel with
  | zero => intro node s s2 h; simp [selectNodeIdChildren] at h
  | succ fuel ih =>
    intro node s s2 h hs
    simp only [selectNodeIdChildren] at h
    refine foldlM_sorted _ ?_ _ s s2 h hs
    intro acc c acc2 hacc hsorted
    exact ih c _ acc2 hacc (mark_sorted acc c hsorted)

theorem selectNodeId_sorted (t : vtkDataAssembly) (node : Int) (s s2 : Selection)
    (h : selectNodeId t node s = some s2)
    (hs : s.currentSelection.Pairwise (fun a b => a < b) ∧
      s.oldSelection.Pairwise (fun a b => a < b)) :
    s2.currentSelection.Pairwise (fun a b => a < b) ∧
      s2.oldSelection.Pairwise (fun a b => a < b) := by
  unfold selectNodeId at h
  by_cases h0 : node ≠ 0
  · simp only [if_pos h0] at h
    cases hp : selectNodeIdParent t (t.doc.size + 1) node s with
    | none => rw [hp] at h; simp at h
    | some s1 =>
      rw [hp] at h
      simp only [Option.map_some', Option.some_bind] at h
      exact selectNodeIdChildren_sorted t _ _ _ _ h
        (mark_sorted s1 node (selectNodeIdParent_sorted t _ _ _ _ hp hs))
  · simp only [if_neg h0, Option.some_bind] at h
    exact selectNodeIdChildren_sorted t _ _ _ _ h hs

theorem selectNodeIds_sorted (t : vtkDataAssembly) :
    ∀ (nodes : List Int) (s s2 : Selection), selectNodeIds t nodes s = some s2 →
      (s.currentSelection.Pairwise (fun a b => a < b) ∧
        s.oldSelection.Pairwise (fun a b => a < b)) →
      (s2.currentSelection.Pairwise (fun a b => a < b) ∧
        s2.oldSelection.Pairwise (fun a b => a < b)) := by
  intro nodes s s2 h hs
  unfold selectNodeIds at h
  exact foldlM_sorted _ (fun acc c acc2 hacc hsorted => selectNodeId_sorted t c acc acc2 hacc hsorted)
    nodes s s2 h hs

theorem sorted_ext (l1 l2 : List Int) (h1 : l1.Pairwise (fun a b => a < b))
    (h2 : l2.Pairwise (fun a b => a < b)) (h : ∀ x, x ∈ l1 ↔ x ∈ l2) : l1 = l2 := by
  have hn1 : l1.Nodup := h1.imp (fun hab => ne_of_lt hab)
  have hn2 : l2.Nodup := h2.imp (fun hab => ne_of_lt hab)
  have hperm : l1.Perm l2 := (List.perm_ext_iff_of_nodup hn1 hn2).2 h
  exact List.eq_of_perm_of_sorted hperm h1 h2

/-- Two runs of `selectNodeId` calls that mark the same nodes end in the same state. -/
theorem selectNodeIds_eq_of_same_marks (t : vtkDataAssembly) (hwf : t.wf) (s : Selection)
    (hs : s.currentSelection.Pairwise (fun a b => a < b) ∧
      s.oldSelection.Pairwise (fun a b => a < b))
    (l1 l2 : List Int)
    (h : ∀ x, x ∈ l1.flatMap (closureOf t) ↔ x ∈ l2.flatMap (closureOf t)) :
    selectNodeIds t l1 s = selectNodeIds t l2 s ∧ (selectNodeIds t l1 s).isSome = true := by
  obtain ⟨a, ha, hma⟩ := selectNodeIds_marked t hwf.2.1 l1 s
  obtain ⟨b, hb, hmb⟩ := selectNodeIds_marked t hwf.2.1 l2 s
  have hsa := selectNodeIds_sorted t l1 s a ha hs
  have hsb := selectNodeIds_sorted t l2 s b hb hs
  have hcur : a.currentSelection = b.currentSelection :=
    sorted_ext _ _ hsa.1 hsb.1 (fun x => by rw [hma.1, hmb.1, h])
  have hold : a.oldSelection = b.oldSelection :=
    sorted_ext _ _ hsa.2 hsb.2 (fun x => by rw [hma.2, hmb.2, h])
  have hab : a = b := by
    cases a; cases b
    simp only at hcur hold
    rw [hcur, hold]
  rw [ha, hb, hab]
  exact ⟨rfl, rfl⟩

/-- C23: on a well-formed tree `selectNodeId(0)` returns; the root is in the current selection
afterwards exactly when it was before, and likewise in the previous one; every node of the
tree but the root is in the current selection afterwards and not in the previous one, and
nothing else changes. -/
theorem C23_select_root (t : vtkDataAssembly) (hwf : t.wf) (s : Selection) :
    ∃ s2, selectNodeId t 0 s = some s2 ∧
      ((0 : Int) ∈ s2.currentSelection ↔ (0 : Int) ∈ s.currentSelection) ∧
      ((0 : Int) ∈ s2.oldSelection ↔ (0 : Int) ∈ s.oldSelection) ∧
      (∀ x ∈ t.doc.ids, x ≠ 0 → x ∈ s2.currentSelection ∧ x ∉ s2.oldSelection) ∧
      (∀ x, x ∈ s2.currentSelection ↔ x ∈ s.currentSelection ∨ (x ∈ t.doc.ids ∧ x ≠ 0)) ∧
      (∀ x, x ∈ s2.oldSelection ↔ x ∈ s.oldSelection ∧ ¬ (x ∈ t.doc.ids ∧ x ≠ 0)) := by
  obtain ⟨s2, hs2, hm⟩ := selectNodeId_marked t hwf.2.1 0 s
  have hcl : ∀ x, x ∈ closureOf t 0 ↔ x ∈ t.doc.ids ∧ x ≠ 0 := by
    intro x
    simp only [closureOf, ne_eq, not_true_eq_false, if_false, List.nil_append]
    exact mem_GetChildNodes_root t hwf x
  refine ⟨s2, hs2, ?_, ?_, ?_, ?_, ?_⟩
  · rw [hm.1, hcl]; simp
  · rw [hm.2, hcl]; simp
  · intro x hx h0
    exact ⟨(hm.1 x).2 (Or.inr ((hcl x).2 ⟨hx, h0⟩)),
      fun h => ((hm.2 x).1 h).2 ((hcl x).2 ⟨hx, h0⟩)⟩
  · intro x; rw [hm.1, hcl]
  · intro x; rw [hm.2, hcl]

/-- C26: on a well-formed tree, from empty sets, every sequence of `clearSelection` calls and
of `selectNodeId` calls on nodes of the tree returns; afterwards the root is not in the
current selection and the parent of every node of the current selection is the root or is in
the current selection. -/
theorem C26_current_closed_under_parents (t : vtkDataAssembly) (hwf : t.wf)
    (calls : List SelectionCall)
    (hcalls : selectsNodesOf t calls = true) :
    ∃ s, runSelection t calls ⟨[], []⟩ = some s ∧ (0 : Int) ∉ s.currentSelection ∧
      ∀ x ∈ s.currentSelection, t.GetParent x = 0 ∨ t.GetParent x ∈ s.currentSelection :=
  runSelection_closed t hwf calls ⟨[], []⟩ hcalls ⟨by simp, by simp⟩

/-- C27: on a well-formed tree, from every state whose two sets are strictly increasing lists,
`selectNodeId(X)` then `selectNodeId(Y)` returns the state that `selectNodeId(Y)` then
`selectNodeId(X)` returns, and `selectNodeId(X)` twice returns the state that one call
returns. -/
theorem C27_selection_order_independent (t : vtkDataAssembly) (hwf : t.wf) (s : Selection)
    (hcur : s.currentSelection.Pairwise (fun a b => a < b))
    (hold : s.oldSelection.Pairwise (fun a b => a < b)) (X Y : Int) :
    (selectNodeId t X s).bind (selectNodeId t Y) = (selectNodeId t Y s).bind (selectNodeId t X) ∧
    ((selectNodeId t X s).bind (selectNodeId t Y)).isSome = true ∧
    (selectNodeId t X s).bind (selectNodeId t X) = selectNodeId t X s ∧
    (selectNodeId t X s).isSome = true := by
  have e2 : ∀ a b : Int, selectNodeIds t [a, b] s = (selectNodeId t a s).bind (selectNodeId t b) := by
    intro a b
    simp only [selectNodeIds, List.foldlM_cons, List.foldlM_nil]
    cases selectNodeId t a s with
    | none => rfl
    | some s1 =>
      simp only [Option.some_bind, Option.bind_eq_bind]
      cases selectNodeId t b s1 <;> rfl
  have e1 : ∀ a : Int, selectNodeIds t [a] s = selectNodeId t a s := by
    intro a
    simp only [selectNodeIds, List.foldlM_cons, List.foldlM_nil]
    cases selectNodeId t a s <;> rfl
  obtain ⟨h1, h2⟩ := selectNodeIds_eq_of_same_marks t hwf s ⟨hcur, hold⟩ [X, Y] [Y, X]
    (fun x => by simp [List.flatMap_cons, or_comm])
  obtain ⟨h3, h4⟩ := selectNodeIds_eq_of_same_marks t hwf s ⟨hcur, hold⟩ [X, X] [X]
    (fun x => by simp [List.flatMap_cons])
  rw [e2, e2] at h1
  rw [e2] at h2 h3 h4
  rw [e1] at h3
  refine ⟨h1, h2, h3, ?_⟩
  rw [← h3]; exact h4

/-- C23 on `sampleTree`, from the state in which node 2 is current and node 3 previous. -/
theorem C23_select_root_witness :
    ∃ s2, selectNodeId sampleTree 0 ⟨[2], [3]⟩ = some s2 ∧
      ((0 : Int) ∈ s2.currentSelection ↔ (0 : Int) ∈ (⟨[2], [3]⟩ : Selection).currentSelection) ∧
      ((0 : Int) ∈ s2.oldSelection ↔ (0 : Int) ∈ (⟨[2], [3]⟩ : Selection).oldSelection) ∧
      (∀ x ∈ sampleTree.doc.ids, x ≠ 0 → x ∈ s2.currentSelection ∧ x ∉ s2.oldSelection) ∧
      (∀ x, x ∈ s2.currentSelection ↔
        x ∈ (⟨[2], [3]⟩ : Selection).currentSelection ∨ (x ∈ sampleTree.doc.ids ∧ x ≠ 0)) ∧
      (∀ x, x ∈ s2.oldSelection ↔
        x ∈ (⟨[2], [3]⟩ : Selection).oldSelection ∧ ¬ (x ∈ sampleTree.doc.ids ∧ x ≠ 0)) :=
  C23_select_root sampleTree (by decide) ⟨[2], [3]⟩

/-- C26 on `sampleTree`: node 2 is selected, the selection is cleared, node 3 is selected. -/
theorem C26_current_closed_under_parents_witness :
    ∃ s, runSelection sampleTree
        [SelectionCall.select 2, SelectionCall.clear, SelectionCall.select 3] ⟨[], []⟩ = some s ∧
      (0 : Int) ∉ s.currentSelection ∧
      ∀ x ∈ s.currentSelection,
        sampleTree.GetParent x = 0 ∨ sampleTree.GetParent x ∈ s.currentSelection :=
  C26_current_closed_under_parents sampleTree (by decide)
    [SelectionCall.select 2, SelectionCall.clear, SelectionCall.select 3] (by decide)

/-- C27 on `sampleTree`, from the state in which node 3 is previous, for the nodes 2 and 3. -/
theorem C27_selection_order_independent_witness :
    (selectNodeId sampleTree 2 ⟨[], [3]⟩).bind (selectNodeId sampleTree 3) =
      (selectNodeId sampleTree 3 ⟨[], [3]⟩).bind (selectNodeId sampleTree 2) ∧
    ((selectNodeId sampleTree 2 ⟨[], [3]⟩).bind (selectNodeId sampleTree 3)).isSome = true ∧
    (selectNodeId sampleTree 2 ⟨[], [3]⟩).bind (selectNodeId sampleTree 2) =
      selectNodeId sampleTree 2 ⟨[], [3]⟩ ∧
    (selectNodeId sampleTree 2 ⟨[], [3]⟩).isSome = true :=
  C27_selection_order_independent sampleTree (by decide) ⟨[], [3]⟩ (by decide) (by decide) 2 3
/-! ## Sequences of builds and selection calls -/

theorem Forest.remove_rows_keep (i : Int) (f : Forest) :
    ∀ (p : Int) (f2 : Forest), Forest.remove i f = some f2 →
      ∀ r ∈ Forest.rows p f, r.id ≠ i →
        (∀ g, Forest.subtreeOf i f = some g → r.id ∉ g.ids) → r ∈ Forest.rows p f2 := by
  induction f with
  | nil => intro p f2 h; simp [Forest.remove] at h
  | node j n a c s ihc ihs =>
    intro p f2 h r hr hne hsub
    simp only [Forest.rows, List.mem_cons, List.mem_append] at hr
    by_cases hj : j = i
    · simp only [Forest.remove, if_pos hj] at h
      injection h with h
      subst h
      rcases hr with e | e | e
      · exact absurd (by rw [e]; exact hj) hne
      · exact absurd (Forest.mem_ids_of_mem_rows e)
          (hsub c (by simp only [Forest.subtreeOf, if_pos hj]))
      · exact e
    · simp only [Forest.remove, if_neg hj] at h
      cases hc : Forest.remove i c with
      | some c2 =>
        rw [hc] at h
        injection h with h
        subst h
        simp only [Forest.rows, List.mem_cons, List.mem_append]
        rcases hr with e | e | e
        · exact Or.inl e
        · refine Or.inr (Or.inl (ihc j c2 hc r e hne ?_))
          intro g hg
          exact hsub g (by simp only [Forest.subtreeOf, if_neg hj, hg])
        · exact Or.inr (Or.inr e)
      | none =>
        rw [hc] at h
        cases hs : Forest.remove i s with
        | none => rw [hs] at h; exact Option.noConfusion h
        | some s2 =>
          rw [hs] at h
          injection h with h
          subst h
          have hic : Forest.subtreeOf i c = none :=
            (Forest.subtreeOf_eq_none_iff i c).2 ((Forest.remove_eq_none_iff i c).1 hc)
          simp only [Forest.rows, List.mem_cons, List.mem_append]
          rcases hr with e | e | e
          · exact Or.inl e
          · exact Or.inr (Or.inl e)
          · refine Or.inr (Or.inr (ihs p s2 hs r e hne ?_))
            intro g hg
            exact hsub g (by simp only [Forest.subtreeOf, if_neg hj, hic, hg])

theorem RemoveNode_keeps_row (t : vtkDataAssembly) (n : Int) (r : Row) (hr : r ∈ t.rows)
    (h1 : r.id ≠ n) (h2 : r.id ∉ t.GetChildNodes n true) : r ∈ (t.RemoveNode n).2.rows := by
  unfold RemoveNode
  by_cases h0 : n = 0
  · rw [if_pos h0]; exact hr
  · rw [if_neg h0]
    cases hs : t.doc.remove n with
    | none => exact hr
    | some d =>
      refine Forest.remove_rows_keep n t.doc (-1) d hs r hr h1 ?_
      intro g hg
      simpa [GetChildNodes, hg] using h2

theorem AddNode_keeps_row (t : vtkDataAssembly) (name : String) (parent : Int) (r : Row)
    (hr : r ∈ t.rows) : r ∈ (t.AddNode name parent).2.rows := by
  unfold AddNode
  by_cases hv : IsNodeNameValid name = true
  · rw [if_pos hv]
    by_cases hp : parent ∈ t.doc.ids
    · obtain ⟨f2, hf2, hperm⟩ := Forest.addChild_rows parent (t.MaxUniqueId + 1) name []
        t.doc (-1) hp
      rw [hf2]
      exact hperm.symm.subset (List.mem_cons_of_mem _ hr)
    · rw [(Forest.addChild_eq_none_iff parent _ t.doc).2 hp]
      exact hr
  · rw [if_neg hv]; exact hr

theorem SetAttribute_keeps_row (t : vtkDataAssembly) (hwf : t.wf) (i : Int) (k : String)
    (v : AttrValue) (r : Row) (hr : r ∈ t.rows) :
    ∃ r2 ∈ (t.SetAttribute i k v).rows, r2.id = r.id ∧ r2.name = r.name ∧
      r2.parent = r.parent := by
  by_cases hi : i ∈ t.doc.ids
  · rw [(SetAttribute_rows t hwf i k v hi).1]
    refine ⟨Forest.setRow i k v r, List.mem_map_of_mem _ hr, ?_⟩
    unfold Forest.setRow
    split <;> exact ⟨rfl, rfl, rfl⟩
  · refine ⟨r, ?_, rfl, rfl, rfl⟩
    unfold SetAttribute
    rw [(Forest.setAttr_eq_none_iff i k v t.doc).2 hi]
    exact hr

theorem ClearOf.parent {names : List String} {t0 : vtkDataAssembly} {x p : Int}
    (h : ClearOf names t0 x) (hp : t0.GetParent x = p) (hne : p ≠ -1) :
    ClearOf names t0 p := by
  intro a ha hn
  refine ⟨fun e => (h a ha hn).2 (by rw [e]; exact IsAncestor.parent hp hne), fun e => ?_⟩
  exact (h a ha hn).2 (IsAncestor.step e hp hne)

theorem keeps_refl (names : List String) (t0 : vtkDataAssembly) (hwf : t0.wf) :
    t0.keeps names t0 :=
  ⟨hwf, hwf, fun r hr _ => ⟨r, hr, rfl, rfl, rfl⟩⟩

/-- The parent a kept node has in the later tree is the parent it has in the first one. -/
theorem keeps_GetParent {names : List String} {t0 t : vtkDataAssembly} (h : t.keeps names t0)
    (n : Int) (hn : n ∈ t0.doc.ids) (hc : ClearOf names t0 n) :
    t.GetParent n = t0.GetParent n := by
  obtain ⟨r, hr, hid⟩ := (mem_ids_iff_row t0 n).1 hn
  obtain ⟨r2, hr2, h1, _, h3⟩ := h.2.2 r hr (by rw [hid]; exact hc)
  have e1 := GetParent_of_row t h.2.1 r2 hr2
  have e2 := GetParent_of_row t0 h.1 r hr
  rw [h1, hid] at e1
  rw [hid] at e2
  rw [e1, e2, h3]

/-- The ancestors a kept node has in the later tree are nodes of the first tree, clear of the
names like the node itself. -/
theorem keeps_ancestor {names : List String} {t0 t : vtkDataAssembly} (h : t.keeps names t0)
    {a n : Int} (hanc : IsAncestor t a n) :
    n ∈ t0.doc.ids → ClearOf names t0 n → a ∈ t0.doc.ids ∧ ClearOf names t0 a := by
  induction hanc with
  | @parent n p hp hne =>
    intro hn hc
    have e := keeps_GetParent h n hn hc
    rw [hp] at e
    exact ⟨(GetParent_mem t0 n p e.symm hne).2.2, hc.parent e.symm hne⟩
  | @step a p n _ hp hne ih =>
    intro hn hc
    have e := keeps_GetParent h n hn hc
    rw [hp] at e
    exact ih (GetParent_mem t0 n p e.symm hne).2.2 (hc.parent e.symm hne)

theorem keeps_AddNode {names : List String} {t0 : vtkDataAssembly} (t : vtkDataAssembly)
    (h : t.keeps names t0) (name : String) (parent : Int) :
    (t.AddNode name parent).2.keeps names t0 :=
  ⟨h.1, wf_AddNode t h.2.1 name parent, fun r hr hc => by
    obtain ⟨r2, hr2, h2⟩ := h.2.2 r hr hc
    exact ⟨r2, AddNode_keeps_row t name parent r2 hr2, h2⟩⟩

theorem keeps_SetAttribute {names : List String} {t0 : vtkDataAssembly} (t : vtkDataAssembly)
    (h : t.keeps names t0) (i : Int) (k : String) (v : AttrValue) :
    (t.SetAttribute i k v).keeps names t0 :=
  ⟨h.1, wf_SetAttribute t h.2.1 i k v, fun r hr hc => by
    obtain ⟨r2, hr2, h1, h2, h3⟩ := h.2.2 r hr hc
    obtain ⟨r3, hr3, g1, g2, g3⟩ := SetAttribute_keeps_row t h.2.1 i k v r2 hr2
    exact ⟨r3, hr3, g1.trans h1, g2.trans h2, g3.trans h3⟩⟩

/-- `RemoveNode` on a node that is not a node of the first tree clear of the names keeps the
nodes that are. -/
theorem keeps_RemoveNode {names : List String} {t0 : vtkDataAssembly} (t : vtkDataAssembly)
    (h : t.keeps names t0) (n : Int)
    (htarget : n ∈ t0.doc.ids → ¬ ClearOf names t0 n) :
    (t.RemoveNode n).2.keeps names t0 :=
  ⟨h.1, wf_RemoveNode t h.2.1 n, fun r hr hc => by
    obtain ⟨r2, hr2, h1, h2, h3⟩ := h.2.2 r hr hc
    have hrid : r.id ∈ t0.doc.ids := (mem_ids_iff_row t0 r.id).2 ⟨r, hr, rfl⟩
    refine ⟨r2, RemoveNode_keeps_row t n r2 hr2 ?_ ?_, h1, h2, h3⟩
    · intro e
      rw [h1] at e
      exact htarget (by rw [← e]; exact hrid) (by rw [← e]; exact hc)
    · intro hx
      have hanc := IsAncestor_of_mem_GetChildNodes t h.2.1 n _ r2.id rfl hx
      rw [h1] at hanc
      obtain ⟨g1, g2⟩ := keeps_ancestor h hanc hrid hc
      exact htarget g1 g2⟩

/-- A node outside `namedSubtrees` is clear of the names. -/
theorem clearOf_of_not_mem_namedSubtrees (names : List String) (t0 : vtkDataAssembly)
    (hwf : t0.wf) (x : Int) (hx : x ∉ namedSubtrees t0 names) : ClearOf names t0 x := by
  intro a ha hn
  have hsub : ∀ y ∈ a.id :: t0.GetChildNodes a.id true, y ∈ namedSubtrees t0 names := by
    intro y hy
    unfold namedSubtrees
    rw [List.mem_flatMap]
    exact ⟨a, List.mem_filter.2 ⟨ha, by simpa using hn⟩, hy⟩
  refine ⟨fun e => hx (hsub x (by rw [e]; exact List.mem_cons_self _ _)), fun e => ?_⟩
  exact hx (hsub x (List.mem_cons_of_mem _ (mem_GetChildNodes_of_IsAncestor t0 hwf a.id x e)))

/-! ### The first two passes of a build keep every node -/

theorem keeps_setLabelAndType {names : List String} {t0 : vtkDataAssembly}
    (t : vtkDataAssembly) (hwf : t.keeps names t0) (id : Int) (label : String)
    (ty : TreeViewNodeType) : (setLabelAndType t id label ty).keeps names t0 :=
  keeps_SetAttribute _ (keeps_SetAttribute _ hwf _ _ _) _ _ _

theorem keeps_searchPropertiesLoop {names : List String} {t0 : vtkDataAssembly}
    (node_parent : Int) (l : List Property) :
    ∀ t : vtkDataAssembly, t.keeps names t0 →
      (searchPropertiesLoop node_parent l t).keeps names t0 := by
  induction l with
  | nil => intro t h; exact h
  | cons p rest ih =>
    intro t h
    simp only [searchPropertiesLoop]
    split
    · exact ih _ (keeps_setLabelAndType _ (keeps_AddNode _ h _ _) _ _ _)
    · exact ih _ h

theorem keeps_searchProperties {names : List String} {t0 : vtkDataAssembly}
    (r : AbstractRepresentation) (node_parent : Int) (t : vtkDataAssembly)
    (h : t.keeps names t0) : (searchProperties r node_parent t).2.keeps names t0 := by
  unfold searchProperties
  split
  · exact keeps_searchPropertiesLoop _ _ _ h
  · exact h

theorem keeps_searchRepresentationsNode {names : List String} {t0 : vtkDataAssembly}
    (r : AbstractRepresentation) (idNode : Int)
    (t : vtkDataAssembly) (h : t.keeps names t0) (res : Int × vtkDataAssembly)
    (hres : searchRepresentationsNode r idNode t = Except.ok res) : res.2.keeps names t0 := by
  unfold searchRepresentationsNode at hres
  by_cases hp : r.isPartial = true
  · rw [if_pos hp] at hres
    by_cases hf : t.FindFirstNodeWithName ("_" ++ r.uuid) = -1
    · rw [if_pos hf] at hres
      exact Except.noConfusion hres
    · rw [if_neg hf] at hres
      injection hres with hres; subst hres; exact h
  · rw [if_neg hp] at hres
    dsimp only at hres
    by_cases hf : t.FindFirstNodeWithName ("_" ++ r.uuid) = -1
    · rw [if_pos hf] at hres
      injection hres with hres; subst hres
      exact keeps_setLabelAndType _ (keeps_AddNode _ h _ _) _ _ _
    · rw [if_neg hf] at hres
      injection hres with hres; subst hres; exact h

theorem keeps_searchRepresentationsOfSub {names : List String} {t0 : vtkDataAssembly}
    (r : AbstractRepresentation) (idNode : Int)
    (t : vtkDataAssembly) (h : t.keeps names t0) :
      (searchRepresentationsOfSub r idNode t).2.keeps names t0 := by
  unfold searchRepresentationsOfSub
  split
  · exact h
  · next res hres =>
    exact keeps_searchProperties _ _ _ (keeps_searchRepresentationsNode _ _ _ h _ hres)

theorem keeps_searchSubRepresentationLoop {names : List String} {t0 : vtkDataAssembly}
    (parent : Int) (l : List AbstractRepresentation) :
    ∀ (message : String) (t : vtkDataAssembly), t.keeps names t0 →
      (searchSubRepresentationLoop parent l message t).2.keeps names t0 := by
  induction l with
  | nil => intro m t h; exact h
  | cons b rest ih =>
    intro m t h
    simp only [searchSubRepresentationLoop]
    exact ih _ _ (keeps_searchRepresentationsOfSub _ _ _ h)

theorem keeps_searchSubRepresentation {names : List String} {t0 : vtkDataAssembly}
    (r : Representation) (node_parent : Int) (t : vtkDataAssembly)
    (h : t.keeps names t0) : (searchSubRepresentation r node_parent t).2.keeps names t0 := by
  unfold searchSubRepresentation
  split
  · exact keeps_searchSubRepresentationLoop _ _ _ _ h
  · exact h

theorem keeps_searchRepresentations {names : List String} {t0 : vtkDataAssembly}
    (r : Representation) (idNode : Int) (t : vtkDataAssembly)
    (h : t.keeps names t0) : (searchRepresentations r idNode t).2.keeps names t0 := by
  unfold searchRepresentations
  split
  · exact h
  · next res hres =>
    have h1 := keeps_searchRepresentationsNode _ _ _ h _ hres
    apply keeps_searchProperties
    split
    · exact keeps_searchSubRepresentation _ _ _ h1
    · exact h1

theorem keeps_searchRepresentationsAll {names : List String} {t0 : vtkDataAssembly}
    (l : List Representation) :
    ∀ (message : String) (t : vtkDataAssembly), t.keeps names t0 →
      (searchRepresentationsAll l message t).2.keeps names t0 := by
  induction l with
  | nil => intro m t h; exact h
  | cons b rest ih =>
    intro m t h
    simp only [searchRepresentationsAll]
    exact ih _ _ (keeps_searchRepresentations _ _ _ h)

theorem keeps_searchRepresentationSetRepresentation {names : List String} {t0 : vtkDataAssembly}
    (l : RsrList) :
    ∀ (idNode : Int) (t : vtkDataAssembly), t.keeps names t0 →
      (searchRepresentationSetRepresentation l idNode t).2.keeps names t0 := by
  induction l with
  | nil => intro i t h; exact h
  | cons uuid title parents tail ihp iht =>
    intro i t h
    simp only [searchRepresentationSetRepresentation]
    apply iht
    split
    · split
      · exact keeps_setLabelAndType _ (keeps_AddNode _ (ihp _ _ h) _ _) _ _ _
      · exact ihp _ _ h
    · exact h

theorem keeps_frameChannelsLoop {names : List String} {t0 : vtkDataAssembly}
    (frame_idNode idNode : Int) (l : List Property) :
    ∀ t : vtkDataAssembly, t.keeps names t0 →
      (frameChannelsLoop frame_idNode idNode l t).keeps names t0 := by
  induction l with
  | nil => intro t h; exact h
  | cons p rest ih =>
    intro t h
    simp only [frameChannelsLoop]
    exact ih _ (keeps_SetAttribute _ (keeps_SetAttribute _ (keeps_SetAttribute _
      (keeps_AddNode _ h _ _)
      _ _ _) _ _ _) _ _ _)

theorem keeps_frameMarkersLoop {names : List String} {t0 : vtkDataAssembly}
    (markerFrame_idNode idNode : Int) (l : List WellboreMarker) :
    ∀ t : vtkDataAssembly, t.keeps names t0 →
      (frameMarkersLoop markerFrame_idNode idNode l t).keeps names t0 := by
  induction l with
  | nil => intro t h; exact h
  | cons p rest ih =>
    intro t h
    simp only [frameMarkersLoop]
    exact ih _ (keeps_SetAttribute _ (keeps_SetAttribute _ (keeps_SetAttribute _
      (keeps_AddNode _ h _ _)
      _ _ _) _ _ _) _ _ _)

theorem keeps_wellboreFramesLoop {names : List String} {t0 : vtkDataAssembly}
    (idNodeInit idNode : Int) (l : List WellboreFrameRepresentation) :
    ∀ t : vtkDataAssembly, t.keeps names t0 →
      (wellboreFramesLoop idNodeInit idNode l t).2.keeps names t0 := by
  induction l with
  | nil => intro t h; exact h
  | cons f rest ih =>
    intro t h
    simp only [wellboreFramesLoop]
    have h2 := keeps_SetAttribute _ (keeps_SetAttribute _ (keeps_AddNode t h
      ("_" ++ f.uuid) idNodeInit)
      (t.AddNode ("_" ++ f.uuid) idNodeInit).1 "label"
      (AttrValue.text (MakeValidNodeName (SimplifyXmlTag f.xmlTag ++ "_" ++ f.title))))
      (t.AddNode ("_" ++ f.uuid) idNodeInit).1 "traj" (AttrValue.int idNode)
    split
    · split
      · exact ih _ (keeps_frameMarkersLoop _ _ _ _ (keeps_SetAttribute _ h2 _ _ _))
      · split
        · exact keeps_SetAttribute _ h2 _ _ _
        · exact ih _ (keeps_frameChannelsLoop _ _ _ _ (keeps_SetAttribute _ h2 _ _ _))
    · exact ih _ h

theorem keeps_perforationsLoop {names : List String} {t0 : vtkDataAssembly}
    (completionUuid : String) (idNode_completion : Int)
    (l : List PerforationConnection) :
    ∀ t : vtkDataAssembly, t.keeps names t0 →
      (perforationsLoop completionUuid idNode_completion l t).keeps names t0 := by
  induction l with
  | nil => intro t h; exact h
  | cons p rest ih =>
    intro t h
    simp only [perforationsLoop]
    exact ih _ (keeps_SetAttribute _ (keeps_SetAttribute _ (keeps_SetAttribute _
      (keeps_SetAttribute _
      (keeps_SetAttribute _ (keeps_SetAttribute _
        (keeps_AddNode _ h _ _) _ _ _) _ _ _) _ _ _) _ _ _)
      _ _ _) _ _ _)

theorem keeps_completionsLoop {names : List String} {t0 : vtkDataAssembly}
    (idNodeInit : Int) (l : List WellboreCompletion) :
    ∀ t : vtkDataAssembly, t.keeps names t0 → (completionsLoop idNodeInit l t).keeps names t0 := by
  induction l with
  | nil => intro t h; exact h
  | cons p rest ih =>
    intro t h
    simp only [completionsLoop]
    exact ih _ (keeps_perforationsLoop _ _ _ _ (keeps_setLabelAndType _
      (keeps_AddNode _ h _ _) _ _ _))

theorem keeps_rsrFold {names : List String} {t0 : vtkDataAssembly} (l : List RsrList) :
    ∀ (acc : Int × vtkDataAssembly), acc.2.keeps names t0 →
      (l.foldl (fun acc rsr => searchRepresentationSetRepresentation rsr 0 acc.2) acc
        ).2.keeps names t0 := by
  induction l with
  | nil => intro acc h; exact h
  | cons r rest ih =>
    intro acc h
    simp only [List.foldl_cons]
    exact ih _ (keeps_searchRepresentationSetRepresentation _ _ _ h)

theorem keeps_trajectoryNode {names : List String} {t0 : vtkDataAssembly}
    (w : WellboreTrajectoryRepresentation) (t : vtkDataAssembly)
    (h : t.keeps names t0) : (trajectoryNode w t).2.2.keeps names t0 := by
  unfold trajectoryNode
  have h0 := keeps_rsrFold w.representationSetRepresentationSet.items (0, t) h
  by_cases hf : t.FindFirstNodeWithName ("_" ++ w.uuid) = -1
  · rw [if_pos hf]
    dsimp only
    generalize (w.representationSetRepresentationSet.items.foldl
      (fun acc rsr => searchRepresentationSetRepresentation rsr 0 acc.2) (0, t)) = r0 at h0 ⊢
    by_cases hw : r0.2.FindFirstNodeWithName ("_" ++ w.wellbore.uuid) = -1
    · simp only [hw, if_true]
      have h1 := keeps_setLabelAndType _ (keeps_AddNode _ h0 ("_" ++ w.wellbore.uuid) r0.1)
        (r0.2.AddNode ("_" ++ w.wellbore.uuid) r0.1).1
        ("Wellbore_" ++ MakeValidNodeName w.wellbore.title) TreeViewNodeType.Wellbore
      by_cases hp : w.isPartial = true
      · simp only [hp, if_true]
        split
        · exact h1
        · exact h1
      · simp only [hp]
        exact keeps_setLabelAndType _ (keeps_AddNode _ h1 _ _) _ _ _
    · simp only [hw, if_false]
      by_cases hp : w.isPartial = true
      · simp only [hp, if_true]
        split
        · exact h0
        · exact h0
      · simp only [hp]
        exact keeps_setLabelAndType _ (keeps_AddNode _ h0 _ _) _ _ _
  · rw [if_neg hf]
    exact h

theorem keeps_searchWellboreTrajectoryLoop {names : List String} {t0 : vtkDataAssembly}
    (l : List WellboreTrajectoryRepresentation) :
    ∀ (result : String) (t : vtkDataAssembly), t.keeps names t0 →
      (searchWellboreTrajectoryLoop l result t).2.keeps names t0 := by
  induction l with
  | nil => intro r t h; exact h
  | cons w rest ih =>
    intro r t h
    simp only [searchWellboreTrajectoryLoop]
    have h1 := keeps_trajectoryNode w t h
    rcases htn : trajectoryNode w t with ⟨o, msg, t1⟩
    rw [htn] at h1
    cases o with
    | none => exact ih _ _ h1
    | some ids =>
      simp only
      have h2 := keeps_wellboreFramesLoop ids.1 ids.2 w.wellboreFrameRepresentationSet t1 h1
      rcases hfl : wellboreFramesLoop ids.1 ids.2 w.wellboreFrameRepresentationSet t1 with ⟨e, t2⟩
      rw [hfl] at h2
      cases e with
      | some e => exact h2
      | none =>
        simp only
        apply ih
        split
        · split
          · exact keeps_completionsLoop _ _ _ h2
          · exact h2
        · exact h2

theorem keeps_searchWellboreTrajectory {names : List String} {t0 : vtkDataAssembly}
    (repository : DataObjectRepository) (t : vtkDataAssembly)
    (h : t.keeps names t0) : (searchWellboreTrajectory repository t).2.keeps names t0 :=
  keeps_searchWellboreTrajectoryLoop _ _ _ h

/-! ### The grouping pass removes nodes of time-series properties only -/

/-- A node the scan of `searchTimeSeries` finds under a name of the list is not a node of the
first tree that is clear of the names. -/
theorem found_not_clear {names : List String} {t0 t : vtkDataAssembly} (h : t.keeps names t0)
    (nm : String) (hnm : nm ∈ names) (hf : t.FindFirstNodeWithName nm ≠ -1) :
    t.FindFirstNodeWithName nm ∈ t0.doc.ids →
      ¬ ClearOf names t0 (t.FindFirstNodeWithName nm) := by
  intro hmem hc
  obtain ⟨r0, hr0, hid⟩ := (mem_ids_iff_row t0 _).1 hmem
  obtain ⟨r2, hr2, h1, h2, _⟩ := h.2.2 r0 hr0 (by rw [hid]; exact hc)
  obtain ⟨rf, hrf, g1, g2⟩ := row_of_FindFirstNodeWithName t nm hf
  have e : r2 = rf := row_unique t h.2.1 r2 rf hr2 hrf (by rw [h1, hid, g1])
  have hname : r0.name = nm := by rw [← h2, e, g2]
  exact (hc r0 hr0 (by rw [hname]; exact hnm)).1 hid

theorem timeSeriesScanLoop_targets {names : List String} {t0 t : vtkDataAssembly}
    (h : t.keeps names t0) (su tag : String) (props : List TimeSeriesProperty) :
    ∀ st : TimeSeriesScan,
      (∀ p ∈ props, "_" ++ p.uuid ∈ names) →
      (∀ n ∈ st.propertyName_to_nodeSet.flatMap (fun pr => pr.2),
        n ∈ t0.doc.ids → ¬ ClearOf names t0 n) →
      ∀ n ∈ (timeSeriesScanLoop su tag t props st).2.propertyName_to_nodeSet.flatMap
          (fun pr => pr.2),
        n ∈ t0.doc.ids → ¬ ClearOf names t0 n := by
  induction props with
  | nil => intro st _ hst; exact hst
  | cons p rest ih =>
    intro st hB hst
    have hrest : ∀ q ∈ rest, "_" ++ q.uuid ∈ names :=
      fun q hq => hB q (List.mem_cons_of_mem _ hq)
    unfold timeSeriesScanLoop
    by_cases hs : p.xmlTag = ContinuousProperty_XML_TAG ∨ p.xmlTag = DiscreteProperty_XML_TAG
    · rw [if_pos hs]
      by_cases hn : t.FindFirstNodeWithName ("_" ++ p.uuid) = -1
      · simp only [hn, if_true]
        exact ih _ hrest hst
      · simp only [hn, if_false]
        by_cases hp : t.GetParent (t.FindFirstNodeWithName ("_" ++ p.uuid)) = -1
        · simp only [ne_eq, hp, not_true_eq_false, if_false]
          exact ih _ hrest hst
        · have hpush : ∀ n ∈ (nodeSetPush p.title (t.FindFirstNodeWithName ("_" ++ p.uuid))
              st.propertyName_to_nodeSet).flatMap (fun pr => pr.2),
              n ∈ t0.doc.ids → ¬ ClearOf names t0 n := by
            intro n hmem
            rw [(nodeSetPush_flat _ _ _).mem_iff, List.mem_append, List.mem_singleton] at hmem
            rcases hmem with hmem | hmem
            · exact hst n hmem
            · rw [hmem]
              exact found_not_clear h _ (hB p (List.mem_cons_self _ _)) hn
          simp only [ne_eq, hp, not_false_eq_true, if_true]
          cases hk : p.timestampIndex with
          | error e => exact hpush
          | ok k => exact ih _ hrest hpush
    · rw [if_neg hs]
      exact ih _ hrest hst

theorem keeps_removeGroupNodes {names : List String} {t0 : vtkDataAssembly} (l : List Int) :
    ∀ (nodeParent : Int) (t : vtkDataAssembly), t.keeps names t0 →
      (∀ n ∈ l, n ∈ t0.doc.ids → ¬ ClearOf names t0 n) →
      (removeGroupNodes l nodeParent t).2.keeps names t0 := by
  induction l with
  | nil => intro p t h _; exact h
  | cons n rest ih =>
    intro p t h hl
    simp only [removeGroupNodes]
    exact ih _ _ (keeps_RemoveNode _ h _ (hl n (List.mem_cons_self _ _)))
      (fun m hm => hl m (List.mem_cons_of_mem _ hm))

theorem keeps_groupLoop {names : List String} {t0 : vtkDataAssembly}
    (seriesUuid seriesXmlTag : String) (l : List (String × List Int)) :
    ∀ t : vtkDataAssembly, t.keeps names t0 →
      (∀ n ∈ l.flatMap (fun pr => pr.2), n ∈ t0.doc.ids → ¬ ClearOf names t0 n) →
      (groupLoop seriesUuid seriesXmlTag l t).keeps names t0 := by
  induction l with
  | nil => intro t h _; exact h
  | cons pr rest ih =>
    intro t h hl
    simp only [groupLoop]
    refine ih _ (keeps_setLabelAndType _ (keeps_AddNode _
      (keeps_removeGroupNodes _ _ _ h ?_) _ _) _ _ _) ?_
    · intro n hn
      exact hl n (by rw [List.flatMap_cons]; exact List.mem_append_left _ hn)
    · intro n hn
      exact hl n (by rw [List.flatMap_cons]; exact List.mem_append_right _ hn)

theorem keeps_searchTimeSeriesOne {names : List String} {t0 : vtkDataAssembly}
    (fileName : String) (ts : TimeSeries) (c : Catalog) (return_message : String)
    (h : c.assembly.keeps names t0) (hB : ∀ p ∈ ts.properties, "_" ++ p.uuid ∈ names) :
    (searchTimeSeriesOne fileName ts c return_message).2.assembly.keeps names t0 := by
  cases hps : ts.propertySet with
  | error e => simp only [searchTimeSeriesOne, hps]; exact h
  | ok props =>
    have hprops : ts.properties = props := by simp [TimeSeries.properties, hps]
    rw [hprops] at hB
    have ht := timeSeriesScanLoop_targets h ts.uuid ts.xmlTag props
      { propertyName_to_nodeSet := [], times_step := c.times_step,
        timeSeriesIndex := c.timeSeriesIndex, return_message := return_message } hB
      (fun n hn => by simp at hn)
    simp only [searchTimeSeriesOne, hps]
    generalize timeSeriesScanLoop ts.uuid ts.xmlTag c.assembly props
      { propertyName_to_nodeSet := [], times_step := c.times_step,
        timeSeriesIndex := c.timeSeriesIndex, return_message := return_message } = scan at ht
    obtain ⟨o, st⟩ := scan
    cases o with
    | some e => exact h
    | none => exact keeps_groupLoop _ _ _ _ h ht

theorem keeps_searchTimeSeriesLoop {names : List String} {t0 : vtkDataAssembly}
    (fileName : String) (l : List TimeSeries) :
    ∀ (c : Catalog) (return_message : String), c.assembly.keeps names t0 →
      (∀ ts ∈ l, ∀ p ∈ ts.properties, "_" ++ p.uuid ∈ names) →
      (searchTimeSeriesLoop fileName l c return_message).2.assembly.keeps names t0 := by
  induction l with
  | nil => intro c m h _; exact h
  | cons ts rest ih =>
    intro c m h hB
    simp only [searchTimeSeriesLoop]
    exact ih _ _ (keeps_searchTimeSeriesOne _ _ _ _ h (hB ts (List.mem_cons_self _ _)))
      (fun ts2 h2 => hB ts2 (List.mem_cons_of_mem _ h2))

theorem mem_seriesPropertyNames (repository : DataObjectRepository) (ts : TimeSeries)
    (hts : ts ∈ okList repository.timeSeriesSet) (p : TimeSeriesProperty)
    (hp : p ∈ ts.properties) : "_" ++ p.uuid ∈ seriesPropertyNames repository := by
  unfold seriesPropertyNames
  rw [List.mem_flatMap]
  exact ⟨ts, hts, List.mem_map_of_mem _ hp⟩

theorem keeps_searchTimeSeries {t0 : vtkDataAssembly} (repository : DataObjectRepository)
    (fileName : String) (c : Catalog)
    (h : c.assembly.keeps (seriesPropertyNames repository) t0) :
    (searchTimeSeries repository fileName c).2.assembly.keeps
      (seriesPropertyNames repository) t0 := by
  cases hset : repository.timeSeriesSet with
  | error e => simp only [searchTimeSeries, hset]; exact h
  | ok L =>
    simp only [searchTimeSeries, hset]
    refine keeps_searchTimeSeriesLoop fileName L _ _ h ?_
    intro ts hts p hp
    exact mem_seriesPropertyNames repository ts (by rw [hset]; exact hts) p hp

/-- A build keeps the nodes that are clear of the names of the time-series properties of the
repository, also when an exception ends it. -/
theorem keeps_buildDataAssemblyFromDataObjectRepo (repository : DataObjectRepository)
    (fileName : String) (c : Catalog) (hwf : c.assembly.wf) :
    (buildDataAssemblyFromDataObjectRepo repository fileName c).2.assembly.keeps
      (seriesPropertyNames repository) c.assembly := by
  have h := keeps_refl (seriesPropertyNames repository) c.assembly hwf
  unfold buildDataAssemblyFromDataObjectRepo
  dsimp only
  have h1 := keeps_searchRepresentationsAll (allReps repository) "" c.assembly h
  have h2 := keeps_searchWellboreTrajectory repository _ h1
  rcases hsw : searchWellboreTrajectory repository
      (searchRepresentationsAll (allReps repository) "" c.assembly).2 with ⟨e, t2⟩
  rw [hsw] at h2
  cases e with
  | error e => exact h2
  | ok msg => exact keeps_searchTimeSeries repository fileName _ h2

/-- A node of the tree that is not named after a property of a time series of the repository
and is not under such a node is a node of the tree after the build. -/
theorem build_keeps_node (repository : DataObjectRepository) (fileName : String) (c : Catalog)
    (hwf : c.assembly.wf) (x : Int) (hx : x ∈ c.assembly.doc.ids)
    (hclear : x ∉ namedSubtrees c.assembly (seriesPropertyNames repository)) :
    x ∈ (buildDataAssemblyFromDataObjectRepo repository fileName c).2.assembly.doc.ids := by
  have hk := keeps_buildDataAssemblyFromDataObjectRepo repository fileName c hwf
  obtain ⟨r, hr, hid⟩ := (mem_ids_iff_row c.assembly x).1 hx
  obtain ⟨r2, hr2, h1, _, _⟩ := hk.2.2 r hr
    (by rw [hid]; exact clearOf_of_not_mem_namedSubtrees _ _ hwf x hclear)
  exact (mem_ids_iff_row _ x).2 ⟨r2, hr2, by rw [h1, hid]⟩

theorem runCalls_safe (calls : List PluginCall) :
    ∀ st : Catalog × Selection, st.1.assembly.wf → safeCalls calls st = true →
      ((∀ x ∈ st.2.currentSelection, x ∈ st.1.assembly.doc.ids) ∧
        (∀ x ∈ st.2.oldSelection, x ∈ st.1.assembly.doc.ids)) →
      ∃ st2, runCalls calls st = some st2 ∧ st2.1.assembly.wf ∧
        (∀ x ∈ st2.2.currentSelection, x ∈ st2.1.assembly.doc.ids) ∧
        (∀ x ∈ st2.2.oldSelection, x ∈ st2.1.assembly.doc.ids) := by
  induction calls with
  | nil => intro st hwf _ hinv; exact ⟨st, rfl, hwf, hinv⟩
  | cons call rest ih =>
    intro st hwf hsafe hinv
    cases call with
    | build repository fileName =>
      simp only [safeCalls, Bool.and_eq_true, decide_eq_true_eq] at hsafe
      obtain ⟨st2, h1, h2⟩ := ih
        ((buildDataAssemblyFromDataObjectRepo repository fileName st.1).2, st.2)
        (wf_buildDataAssemblyFromDataObjectRepo repository fileName st.1 hwf) hsafe.2
        ⟨fun x hx => build_keeps_node repository fileName st.1 hwf x (hinv.1 x hx)
            (hsafe.1 x (List.mem_append_left _ hx)),
         fun x hx => build_keeps_node repository fileName st.1 hwf x (hinv.2 x hx)
            (hsafe.1 x (List.mem_append_right _ hx))⟩
      exact ⟨st2, by simp only [runCalls, h1], h2⟩
    | selection sc =>
      cases sc with
      | select node =>
        simp only [safeCalls, Bool.and_eq_true, decide_eq_true_eq] at hsafe
        obtain ⟨s1, hs1, hm⟩ := selectNodeId_marked st.1.assembly hwf.2.1 node st.2
        rw [hs1] at hsafe
        obtain ⟨st2, h1, h2⟩ := ih (st.1, s1) hwf hsafe.2
          ⟨fun x hx => by
            rcases (hm.1 x).1 hx with h | h
            · exact hinv.1 x h
            · exact closureOf_subset_ids st.1.assembly hwf node hsafe.1 x h,
           fun x hx => hinv.2 x ((hm.2 x).1 hx).1⟩
        exact ⟨st2, by simp only [runCalls, hs1, Option.some_bind, h1], h2⟩
      | clear =>
        simp only [safeCalls] at hsafe
        obtain ⟨st2, h1, h2⟩ := ih (st.1, clearSelection st.2) hwf hsafe
          ⟨by simp [clearSelection], by simpa [clearSelection] using hinv.1⟩
        exact ⟨st2, by simp only [runCalls, h1], h2⟩

/-- C22, as stated, fails. From the empty sets, after a build of `repoOneTrajectory`,
`selectNodeId 99` puts 99 in the current set although the tree has the nodes 0 to 4 only;
and after a build of `repoStampRaises`, selecting the property node 2 and a build of
`repoTimeSeries`, whose grouping removes the node 2, the current set still holds 2 while the
tree has the nodes 0, 1 and 4. -/
theorem C22_counterexample :
    (runCalls [PluginCall.build repoOneTrajectory "",
        PluginCall.selection (SelectionCall.select 99)] (Catalog.initial, ⟨[], []⟩)).map
      (fun st => (st.2.currentSelection, st.2.oldSelection, st.1.assembly.doc.ids))
      = some ([99], [], [0, 1, 2, 3, 4]) ∧
    (runCalls [PluginCall.build repoStampRaises "",
        PluginCall.selection (SelectionCall.select 2),
        PluginCall.build repoTimeSeries ""] (Catalog.initial, ⟨[], []⟩)).map
      (fun st => (st.2.currentSelection, st.2.oldSelection, st.1.assembly.doc.ids))
      = some ([1, 2], [], [0, 1, 4]) := by
  decide

/-- C22 (amended): starting from a well-formed tree and the empty sets, for every sequence of
builds, `selectNodeId` and `clearSelection` calls in which each `selectNodeId` is given the
id of a node present in the tree at that call and in which, at each build, no id of the two
sets is the id of a node named `"_" + uuid` for a property of a time series of the repository
that is built, or of a descendant of such a node (`safeCalls`), the run returns, and every
id in the current or the previous selection names a node present in the final tree. -/
theorem C22_selection_refers_to_live_nodes (c : Catalog) (hwf : c.assembly.wf)
    (calls : List PluginCall) (hsafe : safeCalls calls (c, ⟨[], []⟩) = true) :
    ∃ st, runCalls calls (c, ⟨[], []⟩) = some st ∧
      (∀ x ∈ st.2.currentSelection, x ∈ st.1.assembly.doc.ids) ∧
      (∀ x ∈ st.2.oldSelection, x ∈ st.1.assembly.doc.ids) := by
  obtain ⟨st, h1, _, h2⟩ := runCalls_safe calls (c, ⟨[], []⟩) hwf hsafe
    ⟨fun x hx => absurd hx (List.not_mem_nil x), fun x hx => absurd hx (List.not_mem_nil x)⟩
  exact ⟨st, h1, h2⟩

/-- C22 at a concrete run from the empty tree: a build of `repoTwoGrids`, the selection of
the grid `g2` (node 4), a clear, the selection of `g2` again and a build of
`repoTwoGridsSeries`, whose grouping removes the nodes 2 and 3 of the two properties. -/
theorem C22_selection_refers_to_live_nodes_witness :
    safeCalls [PluginCall.build repoTwoGrids "",
        PluginCall.selection (SelectionCall.select 4),
        PluginCall.selection SelectionCall.clear,
        PluginCall.selection (SelectionCall.select 4),
        PluginCall.build repoTwoGridsSeries ""] (Catalog.initial, ⟨[], []⟩) = true ∧
    ∃ st, runCalls [PluginCall.build repoTwoGrids "",
        PluginCall.selection (SelectionCall.select 4),
        PluginCall.selection SelectionCall.clear,
        PluginCall.selection (SelectionCall.select 4),
        PluginCall.build repoTwoGridsSeries ""] (Catalog.initial, ⟨[], []⟩) = some st ∧
      (∀ x ∈ st.2.currentSelection, x ∈ st.1.assembly.doc.ids) ∧
      (∀ x ∈ st.2.oldSelection, x ∈ st.1.assembly.doc.ids) :=
  ⟨by decide, C22_selection_refers_to_live_nodes Catalog.initial (by decide) _ (by decide)⟩

/-! ## The list of time indices -/

theorem mem_sortTimes_aux (l : List Nat) : ∀ (acc : List Nat) (x : Nat),
    x ∈ l.foldl (fun acc x => List.orderedInsert (fun a b => a ≤ b) x acc) acc ↔
      x ∈ acc ∨ x ∈ l := by
  induction l with
  | nil => intro acc x; simp
  | cons a l ih =>
    intro acc x
    rw [List.foldl_cons, ih, List.mem_orderedInsert, List.mem_cons]
    tauto

theorem mem_sortTimes (l : List Nat) (x : Nat) : x ∈ sortTimes l ↔ x ∈ l := by
  unfold sortTimes
  rw [mem_sortTimes_aux]
  simp

theorem sortTimes_sorted_aux (l : List Nat) : ∀ (acc : List Nat),
    acc.Sorted (fun a b => a ≤ b) →
    (l.foldl (fun acc x => List.orderedInsert (fun a b => a ≤ b) x acc) acc).Sorted
      (fun a b => a ≤ b) := by
  induction l with
  | nil => intro acc h; exact h
  | cons a l ih =>
    intro acc h
    rw [List.foldl_cons]
    exact ih _ (List.Sorted.orderedInsert a acc h)

theorem sortTimes_sorted (l : List Nat) : (sortTimes l).Pairwise (fun a b => a ≤ b) :=
  sortTimes_sorted_aux l [] List.sorted_nil

theorem mem_uniqueTimes (l : List Nat) : ∀ x, x ∈ uniqueTimes l ↔ x ∈ l := by
  induction l with
  | nil => intro x; simp [uniqueTimes]
  | cons a l ih =>
    intro x
    cases l with
    | nil => simp [uniqueTimes]
    | cons b l2 =>
      by_cases hab : a = b
      · simp only [uniqueTimes, hab, if_true]
        rw [ih]
        simp
      · simp only [uniqueTimes, hab, if_false]
        rw [List.mem_cons, ih, List.mem_cons (a := x) (b := a)]

theorem uniqueTimes_sorted (l : List Nat) :
    l.Pairwise (fun a b => a ≤ b) → (uniqueTimes l).Pairwise (fun a b => a < b) := by
  induction l with
  | nil => intro _; simp [uniqueTimes]
  | cons a l ih =>
    intro h
    cases l with
    | nil => simp [uniqueTimes]
    | cons b l2 =>
      have hrest := (List.pairwise_cons.1 h).2
      have hhead := (List.pairwise_cons.1 h).1
      by_cases hab : a = b
      · simp only [uniqueTimes, hab, if_true]
        exact ih hrest
      · simp only [uniqueTimes, hab, if_false]
        refine List.pairwise_cons.2 ⟨?_, ih hrest⟩
        intro z hz
        rw [mem_uniqueTimes] at hz
        have hb : a ≤ b := hhead b (List.mem_cons_self _ _)
        have hlt : a < b := lt_of_le_of_ne hb hab
        rcases List.mem_cons.1 hz with e | hz2
        · rw [e]; exact hlt
        · exact lt_of_lt_of_le hlt ((List.pairwise_cons.1 hrest).1 z hz2)

theorem timeSeriesScanLoop_times (su tag : String) (t : vtkDataAssembly)
    (props : List TimeSeriesProperty) :
    ∀ st : TimeSeriesScan,
      (∀ p ∈ props, groupable t p = true → ∃ k, p.timestampIndex = Except.ok k) →
      (timeSeriesScanLoop su tag t props st).2.times_step =
        st.times_step ++
          (props.filter (groupable t)).filterMap (fun p => p.timestampIndex.toOption) := by
  induction props with
  | nil => intro st _; simp [timeSeriesScanLoop]
  | cons p rest ih =>
    intro st hok
    have hrest : ∀ q ∈ rest, groupable t q = true → ∃ k, q.timestampIndex = Except.ok k :=
      fun q hq => hok q (List.mem_cons_of_mem _ hq)
    unfold timeSeriesScanLoop
    by_cases hs : p.xmlTag = ContinuousProperty_XML_TAG ∨ p.xmlTag = DiscreteProperty_XML_TAG
    · rw [if_pos hs]
      by_cases hn : t.FindFirstNodeWithName ("_" ++ p.uuid) = -1
      · simp only [hn, if_true]
        have hg : groupable t p = false := by
          simp [groupable, propertyNode, hn]
        rw [List.filter_cons, hg]
        exact ih _ hrest
      · simp only [hn, if_false]
        by_cases hp : t.GetParent (t.FindFirstNodeWithName ("_" ++ p.uuid)) = -1
        · have hg : groupable t p = false := by
            simp [groupable, propertyNode, hp]
          simp only [ne_eq, hp, not_true_eq_false, if_false]
          rw [List.filter_cons, hg]
          exact ih _ hrest
        · have hg : groupable t p = true := by
            have hs2 : (p.xmlTag = ContinuousProperty_XML_TAG ∨
                p.xmlTag = DiscreteProperty_XML_TAG) := hs
            simp [groupable, propertyNode, hn, hp]
            exact hs2
          obtain ⟨k, hk⟩ := hok p (List.mem_cons_self _ _) hg
          simp only [ne_eq, hp, not_false_eq_true, if_true, hk]
          rw [List.filter_cons, hg]
          simp only [if_true]
          rw [ih _ hrest, List.filterMap_cons, hk]
          simp [Except.toOption]
    · rw [if_neg hs]
      have hg : groupable t p = false := by
        have h1 : ¬ p.xmlTag = ContinuousProperty_XML_TAG := fun e => hs (Or.inl e)
        have h2 : ¬ p.xmlTag = DiscreteProperty_XML_TAG := fun e => hs (Or.inr e)
        simp [groupable, h1, h2]
      rw [List.filter_cons, hg]
      exact ih _ hrest

theorem searchTimeSeriesOne_times (fileName : String) (ts : TimeSeries) (c : Catalog)
    (msg : String)
    (hts : ∀ p ∈ ts.properties, p.timestampIndex.toOption.isSome = true)
    (hsorted : c.times_step.Pairwise (fun a b => a < b)) :
    (searchTimeSeriesOne fileName ts c msg).2.times_step.Pairwise (fun a b => a < b) ∧
    ∀ k, k ∈ (searchTimeSeriesOne fileName ts c msg).2.times_step ↔
      (k ∈ c.times_step ∨
        k ∈ (ts.properties.filter (groupable c.assembly)).filterMap
          (fun p => p.timestampIndex.toOption)) := by
  cases hps : ts.propertySet with
  | error e =>
    have hprops : ts.properties = [] := by simp [TimeSeries.properties, hps]
    simp only [searchTimeSeriesOne, hps, hprops]
    exact ⟨hsorted, fun k => by simp⟩
  | ok props =>
    have hprops : ts.properties = props := by simp [TimeSeries.properties, hps]
    rw [hprops] at hts ⊢
    have hok : ∀ p ∈ props, groupable c.assembly p = true →
        ∃ k, p.timestampIndex = Except.ok k := by
      intro p hp _
      have h := hts p hp
      cases hk : p.timestampIndex with
      | error e => rw [hk] at h; simp [Except.toOption] at h
      | ok k => exact ⟨k, rfl⟩
    have hnone := (timeSeriesScanLoop_spec ts.uuid ts.xmlTag c.assembly props
      { propertyName_to_nodeSet := [], times_step := c.times_step,
        timeSeriesIndex := c.timeSeriesIndex, return_message := msg } hok).1
    have htimes := timeSeriesScanLoop_times ts.uuid ts.xmlTag c.assembly props
      { propertyName_to_nodeSet := [], times_step := c.times_step,
        timeSeriesIndex := c.timeSeriesIndex, return_message := msg } hok
    simp only [searchTimeSeriesOne, hps]
    generalize hscan : timeSeriesScanLoop ts.uuid ts.xmlTag c.assembly props
      { propertyName_to_nodeSet := [], times_step := c.times_step,
        timeSeriesIndex := c.timeSeriesIndex, return_message := msg } = scan at hnone htimes
    obtain ⟨o, st⟩ := scan
    simp only at hnone htimes
    subst hnone
    simp only
    refine ⟨uniqueTimes_sorted _ (sortTimes_sorted _), fun k => ?_⟩
    rw [mem_uniqueTimes, mem_sortTimes, htimes, List.mem_append]

theorem searchTimeSeriesLoop_times (fileName : String) (L : List TimeSeries) :
    ∀ (c : Catalog) (msg : String),
      (∀ ts ∈ L, ∀ p ∈ ts.properties, p.timestampIndex.toOption.isSome = true) →
      c.times_step.Pairwise (fun a b => a < b) →
      (searchTimeSeriesLoop fileName L c msg).2.times_step.Pairwise (fun a b => a < b) ∧
      ∀ k, k ∈ (searchTimeSeriesLoop fileName L c msg).2.times_step ↔
        (k ∈ c.times_step ∨ k ∈ recordedTimes fileName L c msg) := by
  induction L with
  | nil => intro c msg _ hs; exact ⟨hs, fun k => by simp [searchTimeSeriesLoop, recordedTimes]⟩
  | cons ts rest ih =>
    intro c msg hts hs
    have h1 := searchTimeSeriesOne_times fileName ts c msg
      (hts ts (List.mem_cons_self _ _)) hs
    have h2 := ih (searchTimeSeriesOne fileName ts c msg).2
      (searchTimeSeriesOne fileName ts c msg).1
      (fun ts2 h => hts ts2 (List.mem_cons_of_mem _ h)) h1.1
    simp only [searchTimeSeriesLoop, recordedTimes]
    refine ⟨h2.1, fun k => ?_⟩
    rw [h2.2 k, h1.2 k, List.mem_append]
    tauto

/-- C24: when no property of the time series of the repository raises in
`getTimestampIndex`, `times_step` is strictly increasing after `searchTimeSeries`, and its
values are exactly the time indices recorded during the call (`recordedTimes`): those of the
supported properties that had a parented node when their series was visited. -/
theorem C24_times_step_sorted_without_duplicates (repository : DataObjectRepository)
    (fileName : String) (c : Catalog)
    (hstamp : ∀ ts ∈ okList repository.timeSeriesSet, ∀ p ∈ ts.properties,
      p.timestampIndex.toOption.isSome = true) :
    (searchTimeSeries repository fileName c).2.times_step.Pairwise (fun a b => a < b) ∧
    ∀ k, k ∈ (searchTimeSeries repository fileName c).2.times_step ↔
      k ∈ recordedTimes fileName (okList repository.timeSeriesSet)
        { c with times_step := [] } "" := by
  cases hset : repository.timeSeriesSet with
  | error e =>
    simp only [searchTimeSeries, hset, okList, recordedTimes]
    exact ⟨List.Pairwise.nil, fun _ => trivial⟩
  | ok L =>
    rw [hset] at hstamp
    have h := searchTimeSeriesLoop_times fileName L { c with times_step := [] } "" hstamp
      List.Pairwise.nil
    simp only [searchTimeSeries, hset, okList]
    refine ⟨h.1, fun k => ?_⟩
    rw [h.2 k]
    simp

/-- C24 at `repoTimes`, in the state the build has when it reaches
`searchTimeSeries`; the indices 2, 0, 2 are recorded and `times_step` ends as 0, 2. -/
theorem C24_times_step_sorted_without_duplicates_witness :
    (∀ ts ∈ okList repoTimes.timeSeriesSet, ∀ p ∈ ts.properties,
      p.timestampIndex.toOption.isSome = true) ∧
    (searchTimeSeries repoTimes "" (catalogBeforeGrouping repoTimes)).2.times_step.Pairwise
      (fun a b => a < b) ∧
    ∀ k, k ∈ (searchTimeSeries repoTimes "" (catalogBeforeGrouping repoTimes)).2.times_step ↔
      k ∈ recordedTimes "" (okList repoTimes.timeSeriesSet)
        { catalogBeforeGrouping repoTimes with times_step := [] } "" :=
  ⟨by decide, C24_times_step_sorted_without_duplicates repoTimes ""
    (catalogBeforeGrouping repoTimes) (by decide)⟩

/-! ## A failing wellbore frame -/

/-- C21 (the code departs from it): a failing frame leaves the build. In `repoFrameRaises`
the frame `f1` of the trajectory `t1` raises in `getValuesPropertySet`, a call that
`searchWellboreTrajectory` makes outside any `try`: the build ends with that exception
instead of returning a text, and the tree holds `w1`, `t1` and `f1` only: the completion `c1`
and the second trajectory `t2` with its wellbore `w2` are not inserted. The sibling
`searchProperties` catches the same call: in `repoPropertiesRaise` the build returns the text
naming `g1` and still inserts `g2` with its property. -/
theorem C21_frame_failure_leaves_the_build :
    (buildDataAssemblyFromDataObjectRepo repoFrameRaises "" Catalog.initial).1
      = Except.error "no property" ∧
    (buildDataAssemblyFromDataObjectRepo repoFrameRaises "" Catalog.initial).2.assembly.doc.names
      = ["data", "_w1", "_t1", "_f1"] ∧
    (buildDataAssemblyFromDataObjectRepo repoFrameRaises "" Catalog.initial).2.assembly.FindFirstNodeWithName
        "_t2" = -1 ∧
    (buildDataAssemblyFromDataObjectRepo repoFrameRaises "" Catalog.initial).2.assembly.FindFirstNodeWithName
        "_c1" = -1 ∧
    (buildDataAssemblyFromDataObjectRepo repoPropertiesRaise "" Catalog.initial).1
      = Except.ok ("Exception in FESAPI when calling getValuesPropertySet with representation " ++
          "uuid: g1 : no property.\n") ∧
    (buildDataAssemblyFromDataObjectRepo repoPropertiesRaise "" Catalog.initial).2.assembly.doc.names
      = ["data", "_g1", "_g2", "_p0"] := by
  refine ⟨rfl, ?_, ?_, ?_, rfl, ?_⟩ <;> decide
end Fespp
